import Mathlib

/-! Parallel ATA sniffer: the trace decoder.

A shallow embedding of the decoder of `src/MainWindow/MainWindow.cpp`
(`MainWindow::decodePressed`, `MainWindow::printHexData`, `MainWindow::ataStatus`,
`MainWindow::ataError`, `MainWindow::ataCommand`), of the record type
`sniffer_item_t` of `src/MainWindow/MainWindow.h` and of the register addresses of
`src/AtaRegisters.h`, followed by theorems about it.

Conventions of the embedding:

* a file is the list of its bytes (`List Nat`, a byte being a number below 256)
  together with a read position (`QFile`);
* the text pane `ui->decoderTextEdit` is the list of the lines appended to it, each
  line kept as a tagged record (`TraceLine`) whose text is given by `TraceLine.text`;
* the C++ integers `int` and `qint64` are `Nat` where the source only ever holds a
  non-negative value (the loop index `i`) and `Int` where the source uses the
  sentinel `-1` (`dataStart`, `lastStatusSample`, `lastAltStatusSample`); files are
  taken to hold fewer than `2^31` records, so that no `int` wraps around;
* `decodePressed` is modelled from the point where the file has been opened.

Layout of the file:

1. the embedding of the source (`decodePressed` and what it calls);
2. the sample sequence of a file (`samples`) and a closed account of the loop over a
   sample sequence (`stateAt`, `linesAt`, `traceOf`), used to state and prove the
   theorems; `decodePressed_eq` proves that the loop of the source computes it;
3. the theorems: the loop and its invariants first, then the claims `C1` to `C10`.
-/

namespace PataSniffer


/-! ## `AtaRegisters.h` -/

def CS0_ASSERTED : Nat := 0x02 <<< 3
def CS0_NOT_ASSERTED : Nat := 0x03 <<< 3
def CS1_ASSERTED : Nat := 0x01 <<< 3
def CS1_NOT_ASSERTED : Nat := 0x03 <<< 3

def ATA_REG_ALT_STATUS : Nat := 0x06 ||| (CS0_NOT_ASSERTED &&& CS1_ASSERTED)
def ATA_REG_STATUS : Nat := 0x07 ||| (CS0_ASSERTED &&& CS1_NOT_ASSERTED)
def ATA_REG_ERROR : Nat := 0x01 ||| (CS0_ASSERTED &&& CS1_NOT_ASSERTED)

def ATA_REG_DEVICE_CONTROL : Nat := 0x06 ||| (CS0_NOT_ASSERTED &&& CS1_ASSERTED)
def ATA_REG_COMMAND : Nat := 0x07 ||| (CS0_ASSERTED &&& CS1_NOT_ASSERTED)
def ATA_REG_FEATURES : Nat := 0x01 ||| (CS0_ASSERTED &&& CS1_NOT_ASSERTED)

def ATA_REG_DATA : Nat := 0x00 ||| (CS0_ASSERTED &&& CS1_NOT_ASSERTED)

def ATA_REG_SECTOR_COUNT : Nat := 0x02 ||| (CS0_ASSERTED &&& CS1_NOT_ASSERTED)

def ATA_REG_CHS_SECTOR_NUMBER : Nat := 0x03 ||| (CS0_ASSERTED &&& CS1_NOT_ASSERTED)
def ATA_REG_CHS_CYLINDER_LOW : Nat := 0x04 ||| (CS0_ASSERTED &&& CS1_NOT_ASSERTED)
def ATA_REG_CHS_CYLINDER_HIGH : Nat := 0x05 ||| (CS0_ASSERTED &&& CS1_NOT_ASSERTED)
def ATA_REG_CHS_DEVICE_HEAD : Nat := 0x06 ||| (CS0_ASSERTED &&& CS1_NOT_ASSERTED)

def ATA_REG_LBA_LOW : Nat := ATA_REG_CHS_SECTOR_NUMBER
def ATA_REG_LBA_MID : Nat := ATA_REG_CHS_CYLINDER_LOW
def ATA_REG_LBA_HIGH : Nat := ATA_REG_CHS_CYLINDER_HIGH
def ATA_REG_LBA_DEVICE : Nat := ATA_REG_CHS_DEVICE_HEAD

/-! ## `MainWindow.h`: the sample record -/

/-- The packed record `sniffer_item_t` (4 bytes): `quint16 data`, then the bit-fields
`address:5`, `unused1:3` of the third byte and `dior:1`, `diow:1`, `unused2:6` of the
fourth byte. -/
structure sniffer_item_t where
  data : Nat
  address : Nat
  unused1 : Nat
  dior : Nat
  diow : Nat
  unused2 : Nat
deriving DecidableEq, Repr

/-- The value of a `sniffer_item_t` object whose four bytes are `b0 b1 b2 b3`, i.e. what
`file.read((char*)&item, sizeof(item))` leaves in `item`: `data` is the little-endian
16-bit word of the first two bytes and the bit-fields of each of the last two bytes
are allocated from the least significant bit upwards (the layout of the little-endian
targets the program is built for, and the one the capture hardware writes). -/
def sniffer_item_t.ofBytes (b0 b1 b2 b3 : Nat) : sniffer_item_t where
  data := (b0 + 256 * b1) % 65536
  address := b2 % 32
  unused1 := (b2 / 32) % 8
  dior := b3 % 2
  diow := (b3 / 2) % 2
  unused2 := (b3 / 4) % 64

/-- The contents of a declared but not yet assigned `sniffer_item_t item;`. The source
never uses such an object before a successful read; the embedding takes it as zero. -/
def sniffer_item_t.unassigned : sniffer_item_t where
  data := 0
  address := 0
  unused1 := 0
  dior := 0
  diow := 0
  unused2 := 0

/-! ## The file being decoded -/

/-- An open `QFile`: its bytes and the current read position. -/
structure QFile where
  bytes : List Nat
  pos : Nat
deriving DecidableEq, Repr

/-- `QFile::size()`. -/
def QFile.size (file : QFile) : Nat := file.bytes.length

/-- `QFile::seek(pos)`. -/
def QFile.seek (file : QFile) (pos : Nat) : QFile := { file with pos := pos }

/-- `QIODevice::read(data, maxSize)`: the bytes read, at most `maxSize` and fewer when
the end of the file is reached first; the position moves past them. -/
def QFile.read (file : QFile) (maxSize : Nat) : List Nat × QFile :=
  let chunk := (file.bytes.drop file.pos).take maxSize
  (chunk, { file with pos := file.pos + chunk.length })

/-- `file.read((char*)&item, sizeof(item))`: the number of bytes read, the object `item`
afterwards and the file afterwards. A read of fewer than four bytes is reported through
the count; `item` is then left as it was (the source never looks at it in that case
in `decodePressed`, and never meets that case in `printHexData`). -/
def readItem (file : QFile) (item : sniffer_item_t) : Nat × sniffer_item_t × QFile :=
  match file.read 4 with
  | ([b0, b1, b2, b3], file1) => (4, sniffer_item_t.ofBytes b0 b1 b2 b3, file1)
  | (chunk, file1) => (chunk.length, item, file1)

/-! ## The decoded trace -/

/-- The foreground colours the decoder uses. -/
inductive Color where
  | black
  | blue
  | red
  | darkGreen
  | darkMagenta
deriving DecidableEq, Repr

/-- One line appended to `ui->decoderTextEdit`, tagged by the statement that appends it.

* `readError`: "File reading error!";
* `incorrectState i`: the "INCORRECT STATE!" line of sample `i`;
* `burst dataStart dataRead bytes`: the "PIO data" summary line of a data flow;
* `hexRow offset data`: one row of `printHexData`, `offset` being the byte offset it is
  annotated with and `data` the `item.data` words it shows, in order;
* `sample i lo ascii read s color`: the line of a single sample, with the low data
  byte `lo`, its rendering `ascii`, the direction, the register text `s` and the
  colour. -/
inductive TraceLine where
  | readError
  | incorrectState (i : Nat)
  | burst (dataStart : Nat) (dataRead : Bool) (bytes : Nat)
  | hexRow (offset : Nat) (data : List Nat)
  | sample (i : Nat) (lo : Nat) (ascii : String) (read : Bool) (s : String) (color : Color)
deriving DecidableEq, Repr

/-- `QString::arg(n, fieldWidth, 16, QChar('0'))`: lower-case hexadecimal, padded on the
left with zeros up to the field width. -/
def hexArg (n fieldWidth : Nat) : String :=
  ⟨List.replicate (fieldWidth - (Nat.toDigits 16 n).length) '0' ++ Nat.toDigits 16 n⟩

/-- The one-character string of a byte: the character itself when it is printable
(`0x20 .. 0x7e`) and "." otherwise. -/
def asciiOf (byte : Nat) : String :=
  if 0x20 ≤ byte ∧ byte ≤ 0x7e then ⟨[Char.ofNat byte]⟩ else "."

/-- The two strings `s` and `ascii` that the inner loop of `printHexData` builds for a
row: for each word shown, low byte then high byte. -/
def hexColumns : List Nat → String × String
  | [] => ("", "")
  | w :: ws =>
    let rest := hexColumns ws
    (hexArg (w % 256) 2 ++ " " ++ hexArg (w / 256) 2 ++ " " ++ rest.1,
     asciiOf (w % 256) ++ asciiOf (w / 256) ++ rest.2)

/-- The text of a line, as passed to `appendPlainText`. -/
def TraceLine.text : TraceLine → String
  | .readError => "File reading error!"
  | .incorrectState i => hexArg i 8 ++ ": INCORRECT STATE!"
  | .burst dataStart dataRead bytes =>
    hexArg dataStart 8 ++ ": [....] " ++ (if dataRead then "<<" else ">>") ++ " PIO data "
      ++ (if dataRead then "read" else "write") ++ " (" ++ toString bytes ++ " bytes)"
  | .hexRow offset data =>
    "    " ++ hexArg offset 4 ++ ": " ++ (hexColumns data).1 ++ "| " ++ (hexColumns data).2
  | .sample i lo ascii read s _ =>
    hexArg i 8 ++ ": [" ++ hexArg lo 2 ++ "|" ++ ascii ++ "] "
      ++ (if read then "<<" else ">>") ++ " " ++ s

/-- The sample index a line is labelled with: the index of the sample for a
single-sample line and for an "INCORRECT STATE!" line, the index of the first sample of
the data flow for a summary line. Rows of the hex dump and the read error carry no
sample index. -/
def TraceLine.label : TraceLine → Option Nat
  | .readError => none
  | .incorrectState i => some i
  | .burst dataStart _ _ => some dataStart
  | .hexRow _ _ => none
  | .sample i _ _ _ _ _ => some i

/-! ## `ataStatus`, `ataError`, `ataCommand` -/

/-- The loop shared by `ataStatus` and `ataError`: for each name of `list`, append the
name when the bit `n` of `value` is set and "---" otherwise, each followed by a blank;
`n` is halved at every step. -/
def flagLoop (value : Nat) : List String → Nat → String → String
  | [], _, s => s
  | name :: list, n, s =>
    flagLoop value list (n / 2) (s ++ (if value &&& n ≠ 0 then name else "---") ++ " ")

/-- `QChar::isSpace()`: the characters U+0009 to U+000D, the blank, U+0085, U+00A0 and the
characters of the Unicode separator categories (U+1680, U+2000 to U+200A, U+2028,
U+2029, U+202F, U+205F, U+3000). -/
def isSpace (c : Char) : Bool :=
  c.toNat == 0x20 || (0x09 ≤ c.toNat && c.toNat ≤ 0x0d) || c.toNat == 0x85 || c.toNat == 0xa0
    || c.toNat == 0x1680 || (0x2000 ≤ c.toNat && c.toNat ≤ 0x200a) || c.toNat == 0x2028
    || c.toNat == 0x2029 || c.toNat == 0x202f || c.toNat == 0x205f || c.toNat == 0x3000

/-- `QString::trimmed()`: the characters for which `QChar::isSpace()` holds removed from
both ends. -/
def trimmed (s : String) : String :=
  ⟨((s.data.dropWhile isSpace).reverse.dropWhile isSpace).reverse⟩

/-- `MainWindow::ataStatus(quint8 status)`. -/
def ataStatus (status : Nat) : String :=
  trimmed (flagLoop status ["BSY", "DRD", "DWF", "DSC", "DRQ", "CRR", "IDX", "ERR"] 0x80 "")

/-- `MainWindow::ataError(quint8 error)`. -/
def ataError (error : Nat) : String :=
  trimmed (flagLoop error ["BBK", "UNC", "MCD", "INF", "MCR", "ABR", "T0N", "AMN"] 0x80 "")

/-- `MainWindow::ataCommand(quint8 command)`, the member `ataCodes` (a
`QMap<quint8, QString>`) being given as the list of its entries. -/
def ataCommand (ataCodes : List (Nat × String)) (command : Nat) : String :=
  match ataCodes.lookup command with
  | some name => name
  | none => "UNKNOWN"

/-! ## `printHexData` -/

/-- The loop `for (int j = 0; j < 8; j++)` of `printHexData`, `k` being the number of
iterations left: a `j` with `i + j >= length` is skipped, otherwise one record is read
and shown. `row` collects the `item.data` words shown. -/
def printHexInner (length i : Nat) :
    Nat → Nat → QFile → sniffer_item_t → List Nat → QFile × sniffer_item_t × List Nat
  | 0, _, file, item, row => (file, item, row)
  | k + 1, j, file, item, row =>
    if i + j ≥ length then
      printHexInner length i k (j + 1) file item row
    else
      let r := readItem file item
      printHexInner length i k (j + 1) r.2.2 r.2.1 (row ++ [r.2.1.data])

/-- The loop `for (int i = 0; i < length; i += 8)` of `printHexData`. The first argument
bounds the number of iterations; `length` of them always suffice. -/
def printHexOuter (length : Nat) :
    Nat → Nat → QFile → sniffer_item_t → List TraceLine → QFile × List TraceLine
  | 0, _, file, _, text => (file, text)
  | fuel + 1, i, file, item, text =>
    if i < length then
      let r := printHexInner length i 8 0 file item []
      printHexOuter length fuel (i + 8) r.1 r.2.1 (text ++ [TraceLine.hexRow (i * 2) r.2.2])
    else
      (file, text)

/-- `MainWindow::printHexData(QFile *file, int offset, int length)`: the file and the text
pane afterwards. -/
def printHexData (file : QFile) (offset length : Nat) (text : List TraceLine) :
    QFile × List TraceLine :=
  printHexOuter length length 0 (file.seek (offset * 4)) sniffer_item_t.unassigned text

/-! ## `decodePressed` -/

/-- The local variables of `decodePressed` that live across iterations. -/
structure DecodeState where
  dataStart : Int
  dataRead : Bool
  lastAltStatusSample : Int
  lastAltStatusValue : Nat
  lastStatusSample : Int
  lastStatusValue : Nat
deriving DecidableEq, Repr

/-- The initial values (lines 160 to 165). -/
def DecodeState.init : DecodeState where
  dataStart := -1
  dataRead := true
  lastAltStatusSample := -1
  lastAltStatusValue := 0
  lastStatusSample := -1
  lastStatusValue := 0

/-- The `switch (item.address)` of lines 193 to 231: the register text `s`. The `quint8`
parameters of `ataStatus`, `ataError` and `ataCommand` receive `item.data` truncated
to its low byte. -/
def registerText (ataCodes : List (Nat × String)) (item : sniffer_item_t) (read : Bool) :
    String :=
  if item.address = ATA_REG_ALT_STATUS then
    if read then "ALT_STATUS [ " ++ ataStatus (item.data % 256) ++ " ]" else "DEVICE_CONTROL"
  else if item.address = ATA_REG_STATUS then
    if read then "STATUS     [ " ++ ataStatus (item.data % 256) ++ " ]"
    else "COMMAND (" ++ ataCommand ataCodes (item.data % 256) ++ ")"
  else if item.address = ATA_REG_ERROR then
    if read then "ERROR      [ " ++ ataError (item.data % 256) ++ " ]" else "FEATURES"
  else if item.address = ATA_REG_DATA then "DATA"
  else if item.address = ATA_REG_SECTOR_COUNT then "SECTOR_COUNT"
  else if item.address = ATA_REG_LBA_LOW then "LBA_LOW"
  else if item.address = ATA_REG_LBA_MID then "LBA_MID"
  else if item.address = ATA_REG_LBA_HIGH then "LBA_HIGH"
  else if item.address = ATA_REG_LBA_DEVICE then "LBA_DEVICE"
  else "UNKNOWN REGISTER (0x" ++ hexArg item.address 2 ++ ")"

/-- Lines 233 to 243, "Hide duplicate values of ATA_REG_ALT_STATUS": the locals
afterwards, and whether the iteration ends here by `continue`. -/
def hideAltStatus (i : Nat) (item : sniffer_item_t) (st : DecodeState) : DecodeState × Bool :=
  if item.address = ATA_REG_ALT_STATUS ∧ item.dior = 0 then
    if item.data = st.lastAltStatusValue ∧ (i : Int) = st.lastAltStatusSample + 1 then
      ({ st with lastAltStatusSample := i }, true)
    else
      ({ st with lastAltStatusValue := item.data, lastAltStatusSample := i }, false)
  else
    (st, false)

/-- Lines 245 to 255, "Hide duplicate values of ATA_REG_STATUS": the locals afterwards,
and whether the iteration ends here by `continue`. -/
def hideStatus (i : Nat) (item : sniffer_item_t) (st : DecodeState) : DecodeState × Bool :=
  if item.address = ATA_REG_STATUS ∧ item.dior = 0 then
    if item.data = st.lastStatusValue ∧ (i : Int) = st.lastStatusSample + 1 then
      ({ st with lastStatusSample := i }, true)
    else
      ({ st with lastStatusValue := item.data, lastStatusSample := i }, false)
  else
    (st, false)

/-- Lines 257 to 261, "Data begins". -/
def dataBegins (i : Nat) (item : sniffer_item_t) (read : Bool) (st : DecodeState) :
    DecodeState :=
  if item.address = ATA_REG_DATA ∧ st.dataStart = -1 then
    { st with dataRead := read, dataStart := i }
  else
    st

/-- Lines 263 to 276, "Data ended": the summary line, the dump, the read position put
back after the current record, and the flow closed. -/
def dataEnded (i : Nat) (item : sniffer_item_t) (file : QFile) (text : List TraceLine)
    (st : DecodeState) : QFile × List TraceLine × DecodeState :=
  if item.address ≠ ATA_REG_DATA ∧ st.dataStart ≠ -1 then
    let r := printHexData file st.dataStart.toNat ((i : Int) - st.dataStart).toNat
      (text ++ [TraceLine.burst st.dataStart.toNat st.dataRead
        ((((i : Int) - st.dataStart) * 2).toNat)])
    ((r.1).seek ((i + 1) * 4), r.2, { st with dataStart := -1 })
  else
    (file, text, st)

/-- Lines 278 to 289, "Data ended & end of the file". -/
def dataEndedEof (samplesCount i : Nat) (file : QFile) (text : List TraceLine)
    (st : DecodeState) : QFile × List TraceLine :=
  if st.dataStart ≠ -1 ∧ (i : Int) = (samplesCount : Int) - 1 then
    printHexData file st.dataStart.toNat ((i : Int) - st.dataStart + 1).toNat
      (text ++ [TraceLine.burst st.dataStart.toNat st.dataRead
        ((((i : Int) - st.dataStart + 1) * 2).toNat)])
  else
    (file, text)

/-- The colour of a single-sample line (lines 297 to 305). -/
def sampleColor (item : sniffer_item_t) (read : Bool) : Color :=
  let color := if read then Color.blue else Color.red
  if read then
    let color :=
      if item.address = ATA_REG_ALT_STATUS ∨ item.address = ATA_REG_STATUS then Color.darkGreen
      else color
    if item.address = ATA_REG_ERROR then Color.darkMagenta else color
  else color

/-- The line of a single sample (lines 293 to 314). -/
def sampleLine (ataCodes : List (Nat × String)) (i : Nat) (item : sniffer_item_t) : TraceLine :=
  TraceLine.sample i (item.data % 256) (asciiOf (item.data % 256)) (item.dior = 0)
    (registerText ataCodes item (item.dior = 0)) (sampleColor item (item.dior = 0))

/-- Lines 292 to 315: the single-sample line, appended when no data flow is open. -/
def emitSample (ataCodes : List (Nat × String)) (i : Nat) (item : sniffer_item_t)
    (text : List TraceLine) (st : DecodeState) : List TraceLine :=
  if st.dataStart = -1 then text ++ [sampleLine ataCodes i item] else text

/-- What one iteration of the loop of `decodePressed` leaves behind. -/
structure Iteration where
  file : QFile
  text : List TraceLine
  st : DecodeState
  stop : Bool

/-- The body of the loop `for (int i = 0; i < samplesCount; i++)` (lines 168 to 316);
`stop` tells that the loop was left by `break`. -/
def decodeBody (ataCodes : List (Nat × String)) (samplesCount i : Nat) (file : QFile)
    (text : List TraceLine) (st : DecodeState) : Iteration :=
  let r := readItem file sniffer_item_t.unassigned
  let item := r.2.1
  let file := r.2.2
  if r.1 ≠ 4 then
    ⟨file, text ++ [TraceLine.readError], st, true⟩
  else if item.dior = item.diow then
    ⟨file, text ++ [TraceLine.incorrectState i], st, false⟩
  else
    let alt := hideAltStatus i item st
    if alt.2 then ⟨file, text, alt.1, false⟩
    else
      let sta := hideStatus i item alt.1
      if sta.2 then ⟨file, text, sta.1, false⟩
      else
        let st1 := dataBegins i item (item.dior = 0) sta.1
        let e := dataEnded i item file text st1
        let f := dataEndedEof samplesCount i e.1 e.2.1 e.2.2
        ⟨f.1, emitSample ataCodes i item f.2 e.2.2, e.2.2, false⟩

/-- The loop of `decodePressed`, run from index `i` with `n` iterations left (so that
`i + n = samplesCount`). -/
def decodeLoop (ataCodes : List (Nat × String)) (samplesCount : Nat) :
    Nat → Nat → QFile → List TraceLine → DecodeState → Iteration
  | 0, _, file, text, st => ⟨file, text, st, false⟩
  | n + 1, i, file, text, st =>
    let it := decodeBody ataCodes samplesCount i file text st
    if it.stop then it else decodeLoop ataCodes samplesCount n (i + 1) it.file it.text it.st

/-- `MainWindow::decodePressed` on a file that was opened, `bytes` being its contents
and `ataCodes` the command names loaded at start-up: the lines of the text pane when
it returns. -/
def decodePressed (ataCodes : List (Nat × String)) (bytes : List Nat) : List TraceLine :=
  let file : QFile := ⟨bytes, 0⟩
  let samplesCount := file.size / 4
  (decodeLoop ataCodes samplesCount samplesCount 0 file [] DecodeState.init).text

/-! ## The sample sequence of a file, and a closed account of the loop -/

/-- Record `i` of a file: the `sniffer_item_t` value of its bytes `4 i .. 4 i + 3`. -/
def recordAt (bytes : List Nat) (i : Nat) : sniffer_item_t :=
  sniffer_item_t.ofBytes (bytes.getD (4 * i) 0) (bytes.getD (4 * i + 1) 0)
    (bytes.getD (4 * i + 2) 0) (bytes.getD (4 * i + 3) 0)

/-- The sample sequence of a file: its complete records, in file order. -/
def samples (bytes : List Nat) : List sniffer_item_t :=
  (List.range (bytes.length / 4)).map (recordAt bytes)

/-- The `data` words of the `m` samples from index `start` on. -/
def flowData (recs : List sniffer_item_t) (start m : Nat) : List Nat :=
  ((recs.drop start).take m).map sniffer_item_t.data

/-- The dump of the `length` samples from index `offset` on, as `printHexData` lays it
out: one row per group of eight samples, annotated with its byte offset. -/
def dumpRows (recs : List sniffer_item_t) (offset length : Nat) : List TraceLine :=
  (List.range ((length + 7) / 8)).map fun r =>
    TraceLine.hexRow (16 * r) (flowData recs (offset + 8 * r) (min 8 (length - 8 * r)))

/-- The locals after "Data ended" (lines 263 to 276). -/
def closeState (item : sniffer_item_t) (st : DecodeState) : DecodeState :=
  if item.address ≠ ATA_REG_DATA ∧ st.dataStart ≠ -1 then { st with dataStart := -1 } else st

/-- The lines "Data ended" appends: the summary of the flow and its dump. -/
def closeLines (recs : List sniffer_item_t) (i : Nat) (item : sniffer_item_t)
    (st : DecodeState) : List TraceLine :=
  if item.address ≠ ATA_REG_DATA ∧ st.dataStart ≠ -1 then
    TraceLine.burst st.dataStart.toNat st.dataRead ((((i : Int) - st.dataStart) * 2).toNat)
      :: dumpRows recs st.dataStart.toNat ((i : Int) - st.dataStart).toNat
  else []

/-- The lines "Data ended & end of the file" appends (lines 278 to 289). -/
def eofLines (recs : List sniffer_item_t) (samplesCount i : Nat) (st : DecodeState) :
    List TraceLine :=
  if st.dataStart ≠ -1 ∧ (i : Int) = (samplesCount : Int) - 1 then
    TraceLine.burst st.dataStart.toNat st.dataRead ((((i : Int) - st.dataStart + 1) * 2).toNat)
      :: dumpRows recs st.dataStart.toNat ((i : Int) - st.dataStart + 1).toNat
  else []

/-- The line lines 292 to 315 append. -/
def sampleLines (ataCodes : List (Nat × String)) (i : Nat) (item : sniffer_item_t)
    (st : DecodeState) : List TraceLine :=
  if st.dataStart = -1 then [sampleLine ataCodes i item] else []

/-- The locals after the iteration that examines `item` as sample `i`. -/
def stepState (i : Nat) (item : sniffer_item_t) (st : DecodeState) : DecodeState :=
  if item.dior = item.diow then st
  else if (hideAltStatus i item st).2 then (hideAltStatus i item st).1
  else if (hideStatus i item (hideAltStatus i item st).1).2 then
    (hideStatus i item (hideAltStatus i item st).1).1
  else
    closeState item
      (dataBegins i item (item.dior = 0) (hideStatus i item (hideAltStatus i item st).1).1)

/-- The lines appended by the iteration that examines `item` as sample `i` of the sample
sequence `recs`, `samplesCount` being the number of samples. -/
def stepLines (ataCodes : List (Nat × String)) (recs : List sniffer_item_t)
    (samplesCount i : Nat) (item : sniffer_item_t) (st : DecodeState) : List TraceLine :=
  if item.dior = item.diow then [TraceLine.incorrectState i]
  else if (hideAltStatus i item st).2 then []
  else if (hideStatus i item (hideAltStatus i item st).1).2 then []
  else
    closeLines recs i item
        (dataBegins i item (item.dior = 0) (hideStatus i item (hideAltStatus i item st).1).1)
      ++ eofLines recs samplesCount i (closeState item
        (dataBegins i item (item.dior = 0) (hideStatus i item (hideAltStatus i item st).1).1))
      ++ sampleLines ataCodes i item (closeState item
        (dataBegins i item (item.dior = 0) (hideStatus i item (hideAltStatus i item st).1).1))

/-- The locals at the start of iteration `i` over the sample sequence `recs`. -/
def stateAt (recs : List sniffer_item_t) : Nat → DecodeState
  | 0 => DecodeState.init
  | i + 1 =>
    match recs[i]? with
    | some item => stepState i item (stateAt recs i)
    | none => stateAt recs i

/-- The lines appended by iteration `i` over the sample sequence `recs`. -/
def linesAt (ataCodes : List (Nat × String)) (recs : List sniffer_item_t) (i : Nat) :
    List TraceLine :=
  match recs[i]? with
  | some item => stepLines ataCodes recs recs.length i item (stateAt recs i)
  | none => []

/-- The trace of a sample sequence: the lines of all iterations, in order. -/
def traceOf (ataCodes : List (Nat × String)) (recs : List sniffer_item_t) : List TraceLine :=
  (List.range recs.length).flatMap (linesAt ataCodes recs)

/-! ## Vocabulary of the statements -/

/-- A correctly framed read of the STATUS register: exactly one strobe is set
(`dior ≠ diow`), and it is the read strobe (`dior = 0`). -/
def statusRead (item : sniffer_item_t) : Prop :=
  item.dior ≠ item.diow ∧ item.dior = 0 ∧ item.address = ATA_REG_STATUS

instance (item : sniffer_item_t) : Decidable (statusRead item) :=
  inferInstanceAs (Decidable (_ ∧ _ ∧ _))

/-- A correctly framed read of the ALT_STATUS register. -/
def altStatusRead (item : sniffer_item_t) : Prop :=
  item.dior ≠ item.diow ∧ item.dior = 0 ∧ item.address = ATA_REG_ALT_STATUS

instance (item : sniffer_item_t) : Decidable (altStatusRead item) :=
  inferInstanceAs (Decidable (_ ∧ _ ∧ _))

/-- The test of lines 235-236 and 247-248 on the locals `st`: sample `i` is hidden as a
duplicate of the ALT_STATUS or of the STATUS value seen last. -/
def suppressed (i : Nat) (item : sniffer_item_t) (st : DecodeState) : Prop :=
  (altStatusRead item ∧ item.data = st.lastAltStatusValue
      ∧ (i : Int) = st.lastAltStatusSample + 1)
    ∨ (statusRead item ∧ item.data = st.lastStatusValue ∧ (i : Int) = st.lastStatusSample + 1)

/-- Whether a line is the summary line of a data flow. -/
def TraceLine.isBurst : TraceLine → Bool
  | .burst _ _ _ => true
  | _ => false

/-- Whether a line is a row of a hex dump. -/
def TraceLine.isHexRow : TraceLine → Bool
  | .hexRow _ _ => true
  | _ => false

/-- The data words a line shows: those of a row of a hex dump, none for another line. -/
def TraceLine.words : TraceLine → List Nat
  | .hexRow _ data => data
  | _ => []

/-! ## Inputs and notions used by the statements -/

/-- The file of the five-sample scenario: STATUS read 0x50, STATUS read 0x50, DATA read
0x1234, DATA read 0x5678, STATUS read 0x58 (a read has `dior = 0`, `diow = 1`, i.e. a
fourth byte of 2). -/
def scenarioFile : List Nat :=
  [0x50, 0x00, 0x17, 0x02,  0x50, 0x00, 0x17, 0x02,  0x34, 0x12, 0x10, 0x02,
   0x78, 0x56, 0x10, 0x02,  0x58, 0x00, 0x17, 0x02]

/-- A file of four identical STATUS reads of 0x50. -/
def fourStatusReads : List Nat :=
  [0x50, 0x00, 0x17, 0x02,  0x50, 0x00, 0x17, 0x02,  0x50, 0x00, 0x17, 0x02,
   0x50, 0x00, 0x17, 0x02]

/-- A file of three STATUS reads: 0x50, then 0x58 twice. -/
def changedStatusReads : List Nat :=
  [0x50, 0x00, 0x17, 0x02,  0x58, 0x00, 0x17, 0x02,  0x58, 0x00, 0x17, 0x02]

/-- A file holding a DATA read (0x1111), a mis-framed sample (0x2222, neither strobe
set), a DATA read (0x3333) and a STATUS read (0x50). -/
def misframedInFlow : List Nat :=
  [0x11, 0x11, 0x10, 0x02,  0x22, 0x22, 0x10, 0x00,  0x33, 0x33, 0x10, 0x02,
   0x50, 0x00, 0x17, 0x02]

/-- A file holding one complete record (a STATUS read of 0x50) and one more byte. -/
def truncatedFile : List Nat := [0x50, 0x00, 0x17, 0x02, 0xaa]

/-- A sample whose fields fit their widths, the reserved bits being zero. -/
def validSample (s : sniffer_item_t) : Prop :=
  s.data < 65536 ∧ s.address < 32 ∧ s.dior < 2 ∧ s.diow < 2 ∧ s.unused1 = 0 ∧ s.unused2 = 0

instance (s : sniffer_item_t) : Decidable (validSample s) :=
  inferInstanceAs (Decidable (_ ∧ _ ∧ _ ∧ _ ∧ _ ∧ _))

/-- Modelled from the spec: the encoder of the sample record, which the repository does
not contain (records are produced by the capture hardware). Per the record layout of the
spec, a sample is the 32-bit word with `data` in bits 0..15, `address` in bits 16..20,
`dior` in bit 24, `diow` in bit 25 and zero reserved bits, stored little-endian. -/
def encode (s : sniffer_item_t) : List Nat :=
  let word := s.data + 2 ^ 16 * s.address + 2 ^ 24 * s.dior + 2 ^ 25 * s.diow
  [word % 256, word / 2 ^ 8 % 256, word / 2 ^ 16 % 256, word / 2 ^ 24 % 256]

/-- Decoding of one record as `decodePressed` does it: the bytes are read into a
`sniffer_item_t` object, and fewer than four bytes are a failure. -/
def decode (bytes : List Nat) : Option sniffer_item_t :=
  let r := readItem ⟨bytes, 0⟩ sniffer_item_t.unassigned
  if r.1 = 4 then some r.2.1 else none

/-- The samples `a .. a + N - 1` of `recs` form a maximal run of DATA samples: there are
`N ≥ 1` of them, all address the DATA register, the sample before the run (if any) and
the sample after it (if any) do not. -/
def maximalRun (recs : List sniffer_item_t) (a N : Nat) : Prop :=
  1 ≤ N ∧ a + N ≤ recs.length
    ∧ (∀ j x, a ≤ j → j < a + N → recs[j]? = some x → x.address = ATA_REG_DATA)
    ∧ (∀ x, 1 ≤ a → recs[a - 1]? = some x → x.address ≠ ATA_REG_DATA)
    ∧ (∀ x, recs[a + N]? = some x → x.address ≠ ATA_REG_DATA)



/-- A correctly framed STATUS read of the value `data`. -/
def statusReadOf (data : Nat) : sniffer_item_t := ⟨data, 0x17, 0, 0, 1, 0⟩

/-- A correctly framed ALT_STATUS read of the value `data`. -/
def altStatusReadOf (data : Nat) : sniffer_item_t := ⟨data, 0x0e, 0, 0, 1, 0⟩

/-- A file holding a single STATUS read of the value 0. -/
def zeroStatusFile : List Nat := [0x00, 0x00, 0x17, 0x02]

/-- A file holding a single ALT_STATUS read of the value 0. -/
def zeroAltStatusFile : List Nat := [0x00, 0x00, 0x0e, 0x02]



/-- A file holding a DATA read (0x1234) followed by a mis-framed sample (neither strobe
set), which is the last sample. -/
def flowThenMisframed : List Nat := [0x34, 0x12, 0x10, 0x02,  0x22, 0x22, 0x10, 0x00]

/-- A file holding a DATA read (0x1234) followed by a DATA write (0x2222), which is the
last sample. -/
def flowAtEnd : List Nat := [0x34, 0x12, 0x10, 0x02,  0x22, 0x22, 0x10, 0x01]

/-! ## Notions used by the statements on the register map and the dump -/

/-- The nine addresses the `switch` of `decodePressed` names, as numbers. -/
def registerAddresses : List Nat := [0x0e, 0x17, 0x11, 0x10, 0x12, 0x13, 0x14, 0x15, 0x16]

/-- The flag names of `ataStatus`, from bit 7 down to bit 0. -/
def statusNames : List String := ["BSY", "DRD", "DWF", "DSC", "DRQ", "CRR", "IDX", "ERR"]

/-- The flag names of `ataError`, from bit 7 down to bit 0. -/
def errorNames : List String := ["BBK", "UNC", "MCD", "INF", "MCR", "ABR", "T0N", "AMN"]

/-- The eight tokens of a byte for a list of names: token `j` is name `j` when bit
`7 - j` of the byte is set, and "---" when it is clear. -/
def flagTokens (names : List String) (byte : Nat) : List String :=
  (List.range 8).map fun j => if byte.testBit (7 - j) then names.getD j "" else "---"

/-- The bytes of a sequence of 16-bit words: low byte, then high byte, of each word. -/
def byteSeq (data : List Nat) : List Nat :=
  data.flatMap fun w => [w % 256, w / 256]

/-- A file of 32769 records, all bytes zero. -/
def longFlowFile : List Nat := List.replicate 131076 0

/-! ## `UsbSniffer.h`, `UsbSniffer.cpp`: the capture session

`UsbSniffer::start` talks to the device through libusb, writes the destination file and
emits signals. The embedding runs it against a script of what the outside world answers
(`World`) and records what it does as a list of events (`Event`), in order. -/

def DEFAULT_BUFFER_SIZE : Nat := 65536

/-- The record `status_t` the device answers a status query with (two `quint32`). -/
structure status_t where
  errorCount : Nat
  bytesCommited : Nat
deriving DecidableEq, Repr

/-- The texts passed to the signal `message` by `start` and `readBulkData`.

* `fileOpeningError`: "File opening error: ...";
* `fileOpened`: "File opened: ...";
* `controlFail n err`: the failure text of the control transfer numbered `n` in the source
  (0 the start command, 1 the status query of the loop, 2 the stop command, 3 the last
  status query), for the libusb error code `err`;
* `deviceError`: "Sniffer device error detected.";
* `completed`: "Completed.";
* `bulkFail err`: the failure text of `libusb_bulk_transfer`;
* `warning br rest`: "Warning: br of rest bytes received!". -/
inductive Message where
  | fileOpeningError
  | fileOpened
  | controlFail (n : Nat) (err : Int)
  | deviceError
  | completed
  | bulkFail (err : Int)
  | warning (br : Nat) (rest : Int)
deriving DecidableEq, Repr

/-- What `start` does, as seen from outside: the signals it emits, the transfers it asks
libusb for (with their outcome) and its operations on the destination file.

* `controlOut wValue err`: a vendor control transfer to the device (the start command
  carries the clock divider as `wValue`, the stop command carries 0), `err` being the
  value libusb returns;
* `statusQuery err status`: a vendor control transfer from the device, with the value
  returned and the contents of `status` afterwards;
* `bulkTransfer requested err br`: a bulk transfer asked for `requested` bytes, with the
  value returned and the number of bytes received. -/
inductive Event where
  | message (m : Message)
  | lockInterface
  | unlockInterface
  | updateStatistics (bytesCommited errorCount : Nat)
  | controlOut (wValue : Nat) (err : Int)
  | statusQuery (err : Int) (status : status_t)
  | bulkTransfer (requested : Int) (err : Int) (br : Nat)
  | fileWrite (bytes : List Nat)
  | fileClose
deriving DecidableEq, Repr

/-- The outcome of a status query: the value `libusb_control_transfer` returns and the
contents of `status` afterwards. -/
structure StatusReply where
  err : Int
  status : status_t
deriving DecidableEq, Repr

/-- The outcome of a bulk transfer: the value `libusb_bulk_transfer` returns and the bytes
received (`br` is their number). -/
structure BulkReply where
  err : Int
  bytes : List Nat
deriving DecidableEq, Repr

/-- What the outside world answers during one call of `start`.

* `fileOpens`: whether `file.open` succeeds;
* `startErr`, `stopErr`: the values returned for the start and the stop command;
* `polls`: the outcomes of the status queries of the capture loop, one per iteration. The
  flag `cancel` is set by `stop()` from another thread; a run that comes to an end
  makes finitely many iterations, and the script lets `cancel` read true exactly when
  `polls` is used up (the run may also return before);
* `lastPoll`: the outcome of the status query made after the stop command;
* `bulk`: the outcomes of the bulk transfers, in the order they are asked for. -/
structure World where
  fileOpens : Bool
  startErr : Int
  polls : List StatusReply
  stopErr : Int
  lastPoll : StatusReply
  bulk : List BulkReply
deriving DecidableEq, Repr

/-- A `QByteArray` created with `size` zero bytes: its size and its leading bytes, the
bytes after them being zero still. -/
structure QByteArray where
  size : Nat
  bytes : List Nat
deriving DecidableEq, Repr

/-- The first `n` bytes of the array. -/
def QByteArray.contents (b : QByteArray) (n : Nat) : List Nat :=
  (b.bytes ++ List.replicate (n - b.bytes.length) 0).take n

/-- Storing `bytes` at `offset` in the array; there is no result when the bytes do not
lie within the array (the source would write outside the buffer). -/
def QByteArray.poke (b : QByteArray) (offset : Nat) (bytes : List Nat) : Option QByteArray :=
  if offset + bytes.length ≤ b.size then
    some ⟨b.size, b.contents offset ++ bytes ++ b.bytes.drop (offset + bytes.length)⟩
  else none

/-- Reading the first `n` bytes of the array; there is no result when the array is
shorter (the source would read outside the buffer). -/
def QByteArray.peek (b : QByteArray) (n : Nat) : Option (List Nat) :=
  if n ≤ b.size then some (b.contents n) else none

/-- The state of a call of `start`: what it has done so far (`events`), the bytes written
to the destination file, the bulk outcomes still to come, the local `buffer` and the
local `bytesCommited`. -/
structure Capture where
  events : List Event
  file : List Nat
  bulk : List BulkReply
  buffer : QByteArray
  bytesCommited : Nat
deriving DecidableEq, Repr

/-- How a piece of `start` ends: it returns a value; or the script has no outcome left for
a transfer it asks for (`blocked`: the call has not come to an end within the script);
or it accesses memory outside the buffer (`undefined`). The state reached comes with
each. -/
inductive Outcome (α : Type) where
  | returns (value : α) (s : Capture)
  | blocked (s : Capture)
  | undefined (s : Capture)

/-- The state an outcome comes with. -/
def Outcome.state {α : Type} : Outcome α → Capture
  | .returns _ s => s
  | .blocked s => s
  | .undefined s => s

/-- The conversion of a `quint32` to `int`. -/
def toInt32 (n : Nat) : Int :=
  if n % 4294967296 < 2147483648 then (n % 4294967296 : Nat) else (n % 4294967296 : Nat) - 4294967296

/-- The conversion of an `int` to the `uint16_t` parameter `wValue`. -/
def toUInt16 (n : Int) : Nat := (n % 65536).toNat

/-- The loop `while (bytesRead < length)` of `readBulkData`, run on the bulk outcomes
still to come (first argument). Each iteration asks for a transfer of
`length - bytesRead` bytes to `data + bytesRead`; a failed transfer ends the call with
`false` (its bytes, if any, are not looked at again). -/
def readBulkLoop (length : Int) : List BulkReply → Nat → Capture → Outcome Bool
  | [], bytesRead, s =>
    if (bytesRead : Int) < length then Outcome.blocked { s with bulk := [] }
    else Outcome.returns true { s with bulk := [] }
  | reply :: bulk, bytesRead, s =>
    if (bytesRead : Int) < length then
      let s1 : Capture :=
        { s with
          bulk := bulk
          events := s.events
            ++ [Event.bulkTransfer (length - bytesRead) reply.err reply.bytes.length] }
      if reply.err < 0 then
        Outcome.returns false
          { s1 with events := s1.events ++ [Event.message (Message.bulkFail reply.err)] }
      else
        match s1.buffer.poke bytesRead reply.bytes with
        | none => Outcome.undefined s1
        | some buffer =>
          readBulkLoop length bulk (bytesRead + reply.bytes.length)
            (if ((bytesRead + reply.bytes.length : Nat) : Int) < length then
              { s1 with
                buffer := buffer
                events := s1.events ++ [Event.message (Message.warning reply.bytes.length
                  (length - (bytesRead + reply.bytes.length : Nat)))] }
            else { s1 with buffer := buffer })
    else Outcome.returns true { s with bulk := reply :: bulk }

/-- `UsbSniffer::readBulkData(char *data, int length)`, `data` being the local `buffer` of
`start`. -/
def readBulkData (length : Int) (s : Capture) : Outcome Bool :=
  readBulkLoop length s.bulk 0 s

/-- A status query and the two tests that follow it (lines 152 to 176 with `n = 1`, lines
210 to 234 with `n = 3`). The value is `false` when `start` has returned. -/
def pollStatus (n : Nat) (reply : StatusReply) (s : Capture) : Outcome Bool :=
  let s1 : Capture :=
    { s with events := s.events ++ [Event.statusQuery reply.err reply.status] }
  if reply.err < 0 then
    Outcome.returns false
      { s1 with events := s1.events ++ [Event.fileClose,
          Event.message (Message.controlFail n reply.err), Event.unlockInterface] }
  else if reply.status.errorCount > 0 then
    Outcome.returns false
      { s1 with events := s1.events ++ [Event.fileClose,
          Event.updateStatistics reply.status.bytesCommited reply.status.errorCount,
          Event.message Message.deviceError, Event.unlockInterface] }
  else Outcome.returns true s1

/-- "Receive raw data" (lines 178 to 188, `record = true`) and "Receive last part of raw
data" (lines 236 to 245, `record = false`): the two blocks differ in the assignment
`bytesCommited = status.bytesCommited` only. The value is `false` when `start` has
returned. -/
def receiveData (record : Bool) (status : status_t) (s : Capture) : Outcome Bool :=
  if status.bytesCommited > s.bytesCommited then
    match readBulkData (toInt32 (status.bytesCommited - s.bytesCommited)) s with
    | .returns false s1 =>
      Outcome.returns false
        { s1 with events := s1.events ++ [Event.fileClose, Event.unlockInterface] }
    | .returns true s1 =>
      match s1.buffer.peek (status.bytesCommited - s.bytesCommited) with
      | none => Outcome.undefined s1
      | some bytes =>
        Outcome.returns true
          { s1 with
            file := s1.file ++ bytes
            bytesCommited := if record then status.bytesCommited else s1.bytesCommited
            events := s1.events ++ [Event.fileWrite bytes,
              Event.updateStatistics status.bytesCommited status.errorCount] }
    | .blocked s1 => Outcome.blocked s1
    | .undefined s1 => Outcome.undefined s1
  else Outcome.returns true s

/-- The body of the loop `while (!cancel)` (lines 152 to 188). -/
def loopBody (reply : StatusReply) (s : Capture) : Outcome Bool :=
  match pollStatus 1 reply s with
  | .returns true s1 => receiveData true reply.status s1
  | r => r

/-- The loop `while (!cancel)`, run on the outcomes of its status queries; the value is
`true` when the loop is left because `cancel` is set. -/
def captureLoop : List StatusReply → Capture → Outcome Bool
  | [], s => Outcome.returns true s
  | reply :: polls, s =>
    match loopBody reply s with
    | .returns true s1 => captureLoop polls s1
    | r => r

/-- The stop sequence (lines 192 to 249). -/
def stopSequence (w : World) (s : Capture) : Outcome Unit :=
  let s1 : Capture := { s with events := s.events ++ [Event.controlOut 0 w.stopErr] }
  if w.stopErr < 0 then
    Outcome.returns ()
      { s1 with events := s1.events ++ [Event.fileClose,
          Event.message (Message.controlFail 2 w.stopErr), Event.unlockInterface] }
  else
    match pollStatus 3 w.lastPoll s1 with
    | .returns true s2 =>
      match receiveData false w.lastPoll.status s2 with
      | .returns true s3 =>
        Outcome.returns ()
          { s3 with events := s3.events ++ [Event.fileClose,
              Event.message Message.completed, Event.unlockInterface] }
      | .returns false s3 => Outcome.returns () s3
      | .blocked s3 => Outcome.blocked s3
      | .undefined s3 => Outcome.undefined s3
    | .returns false s2 => Outcome.returns () s2
    | .blocked s2 => Outcome.blocked s2
    | .undefined s2 => Outcome.undefined s2

/-- The state of `start` when the capture loop is entered (lines 120 to 148), the start
command having succeeded. -/
def Capture.armed (clkDiv : Int) (w : World) : Capture where
  events := [Event.lockInterface, Event.message Message.fileOpened,
    Event.updateStatistics 0 0, Event.controlOut (toUInt16 clkDiv) w.startErr]
  file := []
  bulk := w.bulk
  buffer := ⟨DEFAULT_BUFFER_SIZE, []⟩
  bytesCommited := 0

/-- `UsbSniffer::start(const QString &path, int clkDiv)` against the script `w`. -/
def start (clkDiv : Int) (w : World) : Outcome Unit :=
  if w.fileOpens = false then
    Outcome.returns ()
      { Capture.armed clkDiv w with events := [Event.message Message.fileOpeningError] }
  else if w.startErr < 0 then
    Outcome.returns ()
      { Capture.armed clkDiv w with
        events := (Capture.armed clkDiv w).events ++ [Event.fileClose,
          Event.message (Message.controlFail 0 w.startErr), Event.unlockInterface] }
  else
    match captureLoop w.polls (Capture.armed clkDiv w) with
    | .returns true s => stopSequence w s
    | .returns false s => Outcome.returns () s
    | .blocked s => Outcome.blocked s
    | .undefined s => Outcome.undefined s

/-- The clock divider `MainWindow::startPressed` passes to `start`, by the index of the
combo box (lines 111 to 132). -/
def startPressedClkDiv (currentIndex : Int) : Int :=
  if currentIndex = 0 then 24
  else if currentIndex = 1 then 18
  else if currentIndex = 2 then 12
  else if currentIndex = 3 then 10
  else 8

/-! ## Notions used by the statements on the capture session -/

/-- The bytes a list of bulk transfers has delivered, in arrival order. -/
def received (replies : List BulkReply) : List Nat := replies.flatMap fun r => r.bytes

/-- Every transfer made for a request of `length` bytes, `bytesRead` of them received
already, either fails or delivers at most the bytes still outstanding (what libusb
guarantees of a transfer asked for that many bytes). Transfers after the request is
satisfied or has failed belong to later requests. -/
def withinRequest (length : Nat) : List BulkReply → Nat → Prop
  | [], _ => True
  | r :: rs, bytesRead =>
    bytesRead < length → r.err < 0 ∨
      (bytesRead + r.bytes.length ≤ length ∧ withinRequest length rs (bytesRead + r.bytes.length))

/-- The transfers made for a request of `length` bytes that `replies` answer without a
failure, `bytesRead` bytes being received before them: each transfer asks for the bytes
still outstanding, and is followed by one warning when the total is still below
`length` after it. -/
def transferEvents (length : Nat) (bytesRead : Nat) (replies : List BulkReply) : List Event :=
  (List.range replies.length).flatMap fun k =>
    Event.bulkTransfer ((length : Int) - (bytesRead + (received (replies.take k)).length : Nat))
        (replies.getD k ⟨0, []⟩).err (replies.getD k ⟨0, []⟩).bytes.length ::
      if bytesRead + (received (replies.take (k + 1))).length < length then
        [Event.message (Message.warning (replies.getD k ⟨0, []⟩).bytes.length
          ((length : Int) - (bytesRead + (received (replies.take (k + 1))).length : Nat)))]
      else []

/-- The events of a session that goes on: the interface is not locked or unlocked, the
file is not closed, no transfer fails, no status reports an error, and the messages are
"File opened" and the warnings of short reads. -/
def Event.quiet : Event → Bool
  | .message Message.fileOpened => true
  | .message (Message.warning _ _) => true
  | .message _ => false
  | .lockInterface => false
  | .unlockInterface => false
  | .updateStatistics _ _ => true
  | .controlOut _ err => decide (0 ≤ err)
  | .statusQuery err status => decide (0 ≤ err) && decide (status.errorCount = 0)
  | .bulkTransfer _ err _ => decide (0 ≤ err)
  | .fileWrite _ => true
  | .fileClose => false

/-- The ways a call of `start` that has locked the interface comes to its end: the events
from the transfer that makes it return (or from the end of the stop sequence) on. -/
inductive Closing : List Event → Prop where
  | controlFailed (n wValue : Nat) (err : Int) (h : err < 0) :
    Closing [Event.controlOut wValue err, Event.fileClose,
      Event.message (Message.controlFail n err), Event.unlockInterface]
  | statusFailed (n : Nat) (err : Int) (status : status_t) (h : err < 0) :
    Closing [Event.statusQuery err status, Event.fileClose,
      Event.message (Message.controlFail n err), Event.unlockInterface]
  | deviceError (err : Int) (status : status_t) (h : 0 ≤ err) (he : 0 < status.errorCount) :
    Closing [Event.statusQuery err status, Event.fileClose,
      Event.updateStatistics status.bytesCommited status.errorCount,
      Event.message Message.deviceError, Event.unlockInterface]
  | drainFailed (requested : Int) (err : Int) (br : Nat) (h : err < 0) :
    Closing [Event.bulkTransfer requested err br, Event.message (Message.bulkFail err),
      Event.fileClose, Event.unlockInterface]
  | completed :
    Closing [Event.fileClose, Event.message Message.completed, Event.unlockInterface]

/-- The largest `bytesCommited` among the status replies, and `start`. -/
def largestCommited (start : Nat) (polls : List StatusReply) : Nat :=
  polls.foldl (fun m p => max m p.status.bytesCommited) start

/-- A piece of `start` carries a session with the events `events` on: it adds quiet
events, and one of the closing sequences of a failure when it makes `start` return. -/
def continuesFrom (events : List Event) (o : Outcome Bool) : Prop :=
  ∃ evs, (∀ e ∈ evs, Event.quiet e = true) ∧
    match o with
    | .returns false s1 => ∃ closing, Closing closing ∧
        Event.message Message.completed ∉ closing ∧ s1.events = events ++ evs ++ closing
    | .returns true s1 => s1.events = events ++ evs
    | .blocked s1 => s1.events = events ++ evs
    | .undefined s1 => s1.events = events ++ evs

/-- A script for the examples: the file opens, every command succeeds, the status
advances to 4 bytes (received in two transfers of 2), stays, advances to 8, and reads
12 after the stop command (received in transfers of 1, 0 and 3 bytes). -/
def exampleWorld : World where
  fileOpens := true
  startErr := 0
  polls := [⟨8, ⟨0, 0⟩⟩, ⟨8, ⟨0, 4⟩⟩, ⟨8, ⟨0, 4⟩⟩, ⟨8, ⟨0, 8⟩⟩]
  stopErr := 0
  lastPoll := ⟨8, ⟨0, 12⟩⟩
  bulk := [⟨0, [1, 2]⟩, ⟨0, [3, 4]⟩, ⟨0, [5, 6, 7, 8]⟩, ⟨0, [9]⟩, ⟨0, []⟩, ⟨0, [10, 11, 12]⟩]

/-- The script `exampleWorld` with a device error reported by the third status query. -/
def errorWorld : World :=
  { exampleWorld with polls := [⟨8, ⟨0, 0⟩⟩, ⟨8, ⟨0, 4⟩⟩, ⟨8, ⟨2, 6⟩⟩, ⟨8, ⟨0, 8⟩⟩] }

/-- A bulk transfer has received at most the bytes it asked for (what libusb guarantees);
the other events are not concerned. -/
def Event.fitsRequest : Event → Bool
  | .bulkTransfer requested _ br => decide ((br : Int) ≤ requested)
  | _ => true

/-! ## Notions used by the statements on the loop of `decodePressed` -/

/-- The loop of `decodePressed` after its first `i` iterations over the file `bytes`: the
file, the text pane and the locals at the start of iteration `i`. -/
def loopAt (ataCodes : List (Nat × String)) (bytes : List Nat) (i : Nat) : Iteration :=
  decodeLoop ataCodes (bytes.length / 4) i 0 ⟨bytes, 0⟩ [] DecodeState.init

/-- A file of six samples: a STATUS read of 0x58, two DATA reads (0x1234, 0x5678), two
STATUS reads of 0x50 and a DATA read (0x9abc). -/
def burstThenStatus : List Nat :=
  [0x58, 0x00, 0x17, 0x02,  0x34, 0x12, 0x10, 0x02,  0x78, 0x56, 0x10, 0x02,
   0x50, 0x00, 0x17, 0x02,  0x50, 0x00, 0x17, 0x02,  0xbc, 0x9a, 0x10, 0x02]

/-- A sample with its reserved bits (`unused1`, `unused2`) cleared. -/
def withoutReserved (item : sniffer_item_t) : sniffer_item_t :=
  { item with unused1 := 0, unused2 := 0 }

/-- Record `i` of a file as a 32-bit word, the first byte being the least significant. -/
def recordWord (bytes : List Nat) (i : Nat) : Nat :=
  bytes.getD (4 * i) 0 + 2 ^ 8 * bytes.getD (4 * i + 1) 0 + 2 ^ 16 * bytes.getD (4 * i + 2) 0
    + 2 ^ 24 * bytes.getD (4 * i + 3) 0

/-- The file `scenarioFile` with reserved bits set: bits 21 to 23 of each record in its
third byte and bits 26 to 31 in its fourth byte. -/
def scenarioFileReserved : List Nat :=
  [0x50, 0x00, 0xf7, 0xfe,  0x50, 0x00, 0x37, 0x06,  0x34, 0x12, 0xb0, 0x82,
   0x78, 0x56, 0x50, 0x42,  0x58, 0x00, 0x97, 0x0a]

/-- Whether a line is the line of a single sample. -/
def TraceLine.isSample : TraceLine → Bool
  | .sample _ _ _ _ _ _ => true
  | _ => false

/-- The single-sample lines labelled `i` among `lines`, in order. -/
def sampleLinesOf (i : Nat) (lines : List TraceLine) : List TraceLine :=
  lines.filter fun l => l.isSample && decide (l.label = some i)

instance (i : Nat) (item : sniffer_item_t) (st : DecodeState) :
    Decidable (suppressed i item st) :=
  inferInstanceAs (Decidable (_ ∨ _))

/-! ## `loadAtaCommandCodes` -/

/-- The parts of a text between the occurrences of `sep`, empty parts kept. -/
def splitChars (sep : Char) : List Char → List (List Char)
  | [] => [[]]
  | c :: cs =>
    if c = sep then [] :: splitChars sep cs
    else
      match splitChars sep cs with
      | [] => [[c]]
      | field :: fields => (c :: field) :: fields

/-- `QString::split(QChar sep)`. -/
def splitFields (s : String) (sep : Char) : List String :=
  (splitChars sep s.data).map String.mk

/-- The value of a hexadecimal digit. -/
def hexDigitValue (c : Char) : Option Nat :=
  if '0' ≤ c ∧ c ≤ '9' then some (c.toNat - '0'.toNat)
  else if 'a' ≤ c ∧ c ≤ 'f' then some (c.toNat - 'a'.toNat + 10)
  else if 'A' ≤ c ∧ c ≤ 'F' then some (c.toNat - 'A'.toNat + 10)
  else none

/-- The number a text of hexadecimal digits denotes after the digits of value `acc`;
there is none when a character is not a hexadecimal digit. -/
def hexValue : List Char → Nat → Option Nat
  | [], acc => some acc
  | c :: cs, acc =>
    match hexDigitValue c with
    | some d => hexValue cs (16 * acc + d)
    | none => none

/-- `QString::toUShort(&ok, 16)`: the value, `none` standing for `ok = false`. White space
around the number is skipped, a sign `+` and a leading `0x` may come before the digits;
the conversion fails when there is no digit, when a character is not a hexadecimal
digit and when the value does not fit 16 bits. -/
def toUShort (s : String) : Option Nat :=
  let cs := (trimmed s).data
  let cs := match cs with
    | '+' :: rest => rest
    | _ => cs
  let cs := match cs with
    | '0' :: 'x' :: rest => rest
    | '0' :: 'X' :: rest => rest
    | _ => cs
  if cs = [] then none
  else
    match hexValue cs 0 with
    | some n => if n < 65536 then some n else none
    | none => none

/-- `QMap::contains(key)`, the map being given as the list of its entries. -/
def QMap.contains (ataCodes : List (Nat × String)) (key : Nat) : Bool :=
  (ataCodes.lookup key).isSome

/-- `QMap::insert(key, value)`: the value of the entry with this key is replaced, and the
entry is added when there is none. -/
def QMap.insert (ataCodes : List (Nat × String)) (key : Nat) (value : String) :
    List (Nat × String) :=
  if QMap.contains ataCodes key then
    ataCodes.map fun e => if e.1 = key then (key, value) else e
  else ataCodes ++ [(key, value)]

/-- The lines the calls of `file.readLine()` return until `file.atEnd()`: each line ends
with its line feed, except the last one when the text does not end with a line feed.
The second argument holds the characters of the line being read, last one first. -/
def readLines : List Char → List Char → List String
  | [], line => if line = [] then [] else [⟨line.reverse⟩]
  | c :: text, line =>
    if c = '\n' then ⟨(c :: line).reverse⟩ :: readLines text []
    else readLines text (c :: line)

/-- The body of the loop `while (!file.atEnd())` of `loadAtaCommandCodes` on one line
(lines 439 to 450); the conversion of the `ushort` to the `quint8` key keeps its low
byte. -/
def loadLine (ataCodes : List (Nat × String)) (line : String) : List (Nat × String) :=
  let list := splitFields line '='
  if list.length < 2 then ataCodes
  else
    match toUShort (trimmed (list.getD 0 "")) with
    | none => ataCodes
    | some n =>
      let key := n % 256
      let value := trimmed (list.getD 1 "")
      if QMap.contains ataCodes key then ataCodes else QMap.insert ataCodes key value

/-- `MainWindow::loadAtaCommandCodes()`: the member `ataCodes` afterwards, `file` being the
text of "AtaCommandCodes.txt", or `none` when the file cannot be opened (the error is
then reported and the map is left as it is). -/
def loadAtaCommandCodes (ataCodes : List (Nat × String)) (file : Option String) :
    List (Nat × String) :=
  match file with
  | none => ataCodes
  | some text => (readLines text.data []).foldl loadLine ataCodes

/-! ## Notions used by the statements on the command names -/

/-- The text of a line before its first `=` (the whole line when it has none). -/
def codeField (line : String) : String := ⟨line.data.takeWhile (· ≠ '=')⟩

/-- The text of a line after its first `=`, up to the next `=` or the end of the line. -/
def nameField (line : String) : String :=
  ⟨((line.data.dropWhile (· ≠ '=')).drop 1).takeWhile (· ≠ '=')⟩

/-- The entry a line of the table gives: none when the line has no `=` or its code field
(trimmed) is not converted by `toUShort`, otherwise the low byte of the number
converted, with the trimmed name field. -/
def entryOf (line : String) : Option (Nat × String) :=
  if '=' ∈ line.data then
    (toUShort (trimmed (codeField line))).map fun n => (n % 256, trimmed (nameField line))
  else none

/-- A table whose first line carries the code 1EC and whose second line carries the code
EC. -/
def aliasTable : String := "1EC=BOGUS\nEC=IDENTIFY DEVICE\n"

/-- The table `aliasTable` with the first code replaced by 100EC, which does not fit 16
bits. -/
def wideTable : String := "100EC=BOGUS\nEC=IDENTIFY DEVICE\n"

/-! ## Notions used by the statement on the size of the drains -/

/-- A bulk transfer asks for at most `n` bytes; the other events are not concerned. -/
def Event.asksAtMost (n : Nat) : Event → Bool
  | .bulkTransfer requested _ _ => decide (requested ≤ (n : Int))
  | _ => true

/-- Every status reply of the list reports a `bytesCommited` that exceeds the largest
value reported before it (`recorded` at first) by at most `n`. -/
def boundedAdvance (n : Nat) : Nat → List StatusReply → Bool
  | _, [] => true
  | recorded, p :: polls =>
    decide (p.status.bytesCommited ≤ recorded + n)
      && boundedAdvance n (max recorded p.status.bytesCommited) polls

/-- A script whose first status reply reports 70000 bytes, of which one transfer delivers
two. -/
def largeAdvanceWorld : World where
  fileOpens := true
  startErr := 0
  polls := [⟨8, ⟨0, 70000⟩⟩]
  stopErr := 0
  lastPoll := ⟨8, ⟨0, 70000⟩⟩
  bulk := [⟨0, [1, 2]⟩]

/-- A file of three STATUS reads of 0x50 whose reserved bits differ: none set in the first
record, bits 21 and 26 in the second, all of them in the third. -/
def statusReadsReserved : List Nat :=
  [0x50, 0x00, 0x17, 0x02,  0x50, 0x00, 0x37, 0x06,  0x50, 0x00, 0xf7, 0xfe]

/-! ## Notions used by the statement on the bytes persisted -/

/-- What a drain of `length` bytes leaves of the bulk outcomes to come when it goes well,
`bytesRead` bytes being received already: each transfer it uses has no error and delivers
at most the bytes still outstanding, and the transfers deliver `length` bytes in all.
There is no result otherwise. -/
def drainReplies (length : Nat) : List BulkReply → Nat → Option (List BulkReply)
  | [], bytesRead => if bytesRead < length then none else some []
  | r :: rs, bytesRead =>
    if bytesRead < length then
      if 0 ≤ r.err ∧ bytesRead + r.bytes.length ≤ length then
        drainReplies length rs (bytesRead + r.bytes.length)
      else none
    else some (r :: rs)

/-- A script without errors: every status reply of the list has no transport error,
reports no device error and a `bytesCommited` that exceeds the value recorded (`recorded`
at first) by at most `n`; and when it exceeds it, the bulk outcomes to come let the drain
of the difference go well, the value reported being recorded then. -/
def cleanSession (n : Nat) : Nat → List StatusReply → List BulkReply → Bool
  | _, [], _ => true
  | recorded, p :: polls, bulk =>
    decide (0 ≤ p.err) && decide (p.status.errorCount = 0)
      && decide (p.status.bytesCommited ≤ recorded + n)
      && (if recorded < p.status.bytesCommited then
            match drainReplies (p.status.bytesCommited - recorded) bulk 0 with
            | some rest => cleanSession n p.status.bytesCommited polls rest
            | none => false
          else cleanSession n recorded polls bulk)

/-- A script without errors whose first status reply reports 70000 bytes, all of them
delivered by one transfer. -/
def largeDrainWorld : World where
  fileOpens := true
  startErr := 0
  polls := [⟨8, ⟨0, 70000⟩⟩]
  stopErr := 0
  lastPoll := ⟨8, ⟨0, 70000⟩⟩
  bulk := [⟨0, List.replicate 70000 0⟩]

/-! # Theorems -/

/-! ### Reading records -/

theorem drop_take_four (l : List Nat) (p : Nat) (h : p + 4 ≤ l.length) :
    (l.drop p).take 4 = [l.getD p 0, l.getD (p + 1) 0, l.getD (p + 2) 0, l.getD (p + 3) 0] := by
  induction p generalizing l with
  | zero =>
    match l, h with
    | a :: b :: c :: d :: rest, _ => simp
  | succ p ih =>
    cases l with
    | nil => simp at h
    | cons a l =>
      simp only [List.length_cons] at h
      have := ih l (by omega)
      simpa [Nat.add_right_comm] using this

theorem readItem_eq (bytes : List Nat) (i : Nat) (item : sniffer_item_t)
    (h : i < bytes.length / 4) :
    readItem ⟨bytes, 4 * i⟩ item = (4, recordAt bytes i, ⟨bytes, 4 * (i + 1)⟩) := by
  have h4 : 4 * i + 4 ≤ bytes.length := by omega
  simp [readItem, QFile.read, drop_take_four bytes (4 * i) h4, recordAt, Nat.mul_add]

theorem samples_length (bytes : List Nat) : (samples bytes).length = bytes.length / 4 := by
  simp [samples]

theorem samples_getElem? (bytes : List Nat) (i : Nat) (h : i < bytes.length / 4) :
    (samples bytes)[i]? = some (recordAt bytes i) := by
  simp [samples, h]

/-! ### `printHexData` appends the rows of `dumpRows` -/

theorem flowData_zero (recs : List sniffer_item_t) (start : Nat) : flowData recs start 0 = [] := by
  simp [flowData]

theorem flowData_succ (recs : List sniffer_item_t) (start m : Nat) (item : sniffer_item_t)
    (h : recs[start]? = some item) :
    flowData recs start (m + 1) = item.data :: flowData recs (start + 1) m := by
  have hlt : start < recs.length := by
    rcases Nat.lt_or_ge start recs.length with h1 | h1
    · exact h1
    · rw [List.getElem?_eq_none h1] at h; cases h
  have hget : recs[start] = item := by
    rw [List.getElem?_eq_getElem hlt] at h; exact Option.some.inj h
  simp [flowData, List.drop_eq_getElem_cons hlt, hget]

theorem printHexInner_eq (bytes : List Nat) (offset length i : Nat)
    (hlen : offset + length ≤ bytes.length / 4) :
    ∀ (k j p : Nat) (item : sniffer_item_t) (row : List Nat), p = offset + min (i + j) length →
      ∃ item1, printHexInner length i k j ⟨bytes, 4 * p⟩ item row
        = (⟨bytes, 4 * (p + (min (i + j + k) length - min (i + j) length))⟩, item1,
            row ++ flowData (samples bytes) p (min (i + j + k) length - min (i + j) length)) := by
  intro k
  induction k with
  | zero =>
    intro j p item row _
    exact ⟨item, by simp [printHexInner, flowData_zero]⟩
  | succ k ih =>
    intro j p item row hp
    by_cases hge : i + j ≥ length
    · obtain ⟨item1, h1⟩ := ih (j + 1) p item row (by omega)
      refine ⟨item1, ?_⟩
      have e1 : min (i + (j + 1) + k) length - min (i + (j + 1)) length = 0 := by omega
      have e2 : min (i + j + (k + 1)) length - min (i + j) length = 0 := by omega
      rw [e1] at h1
      rw [e2]
      simp only [printHexInner, hge, if_true]
      exact h1
    · have hp2 : p = offset + i + j := by omega
      have hlt : p < bytes.length / 4 := by omega
      obtain ⟨item1, h1⟩ := ih (j + 1) (p + 1) (recordAt bytes p)
        (row ++ [(recordAt bytes p).data]) (by omega)
      refine ⟨item1, ?_⟩
      have e1 : min (i + j + (k + 1)) length - min (i + j) length
          = (min (i + (j + 1) + k) length - min (i + (j + 1)) length) + 1 := by omega
      rw [e1, flowData_succ _ _ _ _ (samples_getElem? bytes p hlt)]
      simp only [printHexInner, hge, if_false, readItem_eq bytes p item hlt]
      rw [h1]
      simp [Nat.add_assoc, Nat.add_comm 1]

theorem printHexOuter_eq (bytes : List Nat) (offset length : Nat)
    (hlen : offset + length ≤ bytes.length / 4) :
    ∀ (fuel i : Nat) (item : sniffer_item_t) (text : List TraceLine), length ≤ i + 8 * fuel →
      printHexOuter length fuel i ⟨bytes, 4 * (offset + min i length)⟩ item text
        = (⟨bytes, 4 * (offset + length)⟩,
            text ++ (List.range ((length - i + 7) / 8)).map fun r =>
              TraceLine.hexRow ((i + 8 * r) * 2)
                (flowData (samples bytes) (offset + i + 8 * r) (min 8 (length - i - 8 * r)))) := by
  intro fuel
  induction fuel with
  | zero =>
    intro i item text h
    have e1 : (length - i + 7) / 8 = 0 := by omega
    have e2 : min i length = length := by omega
    simp [printHexOuter, e1, e2]
  | succ fuel ih =>
    intro i item text h
    by_cases hi : i < length
    · obtain ⟨item1, h1⟩ := printHexInner_eq bytes offset length i hlen 8 0 (offset + min i length)
        item [] (by simp)
      have e1 : (length - i + 7) / 8 = (length - (i + 8) + 7) / 8 + 1 := by omega
      have e2 : offset + min i length + (min (i + 0 + 8) length - min (i + 0) length)
          = offset + min (i + 8) length := by omega
      have e3 : min (i + 0 + 8) length - min (i + 0) length = min 8 (length - i) := by omega
      have e4 : offset + min i length = offset + i := by omega
      rw [e2, e3] at h1
      simp only [printHexOuter, hi, if_true, h1]
      rw [ih (i + 8) item1 _ (by omega), e1, List.range_succ_eq_map]
      simp only [List.map_cons, List.map_map, List.append_assoc, List.nil_append,
        List.singleton_append, e4, Nat.mul_zero, Nat.add_zero, Nat.sub_zero]
      congr 3
      apply List.map_congr_left
      intro r _
      simp only [Function.comp]
      have a1 : i + 8 + 8 * r = i + 8 * (r + 1) := by omega
      have a2 : offset + (i + 8) + 8 * r = offset + i + 8 * (r + 1) := by omega
      have a3 : length - (i + 8) - 8 * r = length - i - 8 * (r + 1) := by omega
      rw [a1, a2, a3]
    · have e1 : (length - i + 7) / 8 = 0 := by omega
      have e2 : min i length = length := by omega
      simp [printHexOuter, hi, e1, e2]

theorem printHexData_eq (bytes : List Nat) (pos offset length : Nat) (text : List TraceLine)
    (hlen : offset + length ≤ bytes.length / 4) :
    printHexData ⟨bytes, pos⟩ offset length text
      = (⟨bytes, 4 * (offset + length)⟩, text ++ dumpRows (samples bytes) offset length) := by
  have h := printHexOuter_eq bytes offset length hlen length 0 sniffer_item_t.unassigned text
    (by omega)
  simp only [Nat.zero_min, Nat.add_zero, Nat.sub_zero, Nat.zero_add] at h
  simp only [printHexData, QFile.seek, Nat.mul_comm offset 4, h, dumpRows]
  congr 2
  apply List.map_congr_left
  intro r _
  congr 1
  omega

/-! ### The loop of `decodePressed` computes `traceOf` -/

@[simp] theorem hideAltStatus_dataStart (i : Nat) (item : sniffer_item_t) (st : DecodeState) :
    (hideAltStatus i item st).1.dataStart = st.dataStart := by
  unfold hideAltStatus; split_ifs <;> rfl

@[simp] theorem hideStatus_dataStart (i : Nat) (item : sniffer_item_t) (st : DecodeState) :
    (hideStatus i item st).1.dataStart = st.dataStart := by
  unfold hideStatus; split_ifs <;> rfl

@[simp] theorem hideAltStatus_dataRead (i : Nat) (item : sniffer_item_t) (st : DecodeState) :
    (hideAltStatus i item st).1.dataRead = st.dataRead := by
  unfold hideAltStatus; split_ifs <;> rfl

@[simp] theorem hideStatus_dataRead (i : Nat) (item : sniffer_item_t) (st : DecodeState) :
    (hideStatus i item st).1.dataRead = st.dataRead := by
  unfold hideStatus; split_ifs <;> rfl

theorem dataBegins_dataStart (i : Nat) (item : sniffer_item_t) (read : Bool) (st : DecodeState) :
    (dataBegins i item read st).dataStart
      = if item.address = ATA_REG_DATA ∧ st.dataStart = -1 then (i : Int) else st.dataStart := by
  unfold dataBegins; split_ifs <;> rfl

theorem dataBegins_bound (i : Nat) (item : sniffer_item_t) (read : Bool) (st : DecodeState)
    (h : st.dataStart = -1 ∨ (0 ≤ st.dataStart ∧ st.dataStart < i)) :
    (dataBegins i item read st).dataStart = -1
      ∨ (0 ≤ (dataBegins i item read st).dataStart ∧ (dataBegins i item read st).dataStart ≤ i) := by
  rw [dataBegins_dataStart]; split_ifs <;> omega

theorem dataEnded_eq (bytes : List Nat) (i pos : Nat) (item : sniffer_item_t)
    (text : List TraceLine) (st : DecodeState) (hi : i < bytes.length / 4)
    (hpos : pos = 4 * (i + 1))
    (h : st.dataStart = -1 ∨ (0 ≤ st.dataStart ∧ st.dataStart ≤ i)) :
    dataEnded i item ⟨bytes, pos⟩ text st
      = (⟨bytes, 4 * (i + 1)⟩, text ++ closeLines (samples bytes) i item st,
          closeState item st) := by
  unfold dataEnded closeLines closeState
  split_ifs with hc
  · have hlen : st.dataStart.toNat + ((i : Int) - st.dataStart).toNat ≤ bytes.length / 4 := by
      omega
    simp [printHexData_eq bytes pos _ _ _ hlen, QFile.seek, Nat.mul_comm]
  · simp [hpos]

theorem dataEndedEof_eq (bytes : List Nat) (i : Nat) (text : List TraceLine)
    (st : DecodeState)
    (h : st.dataStart = -1 ∨ (0 ≤ st.dataStart ∧ st.dataStart ≤ i)) :
    dataEndedEof (bytes.length / 4) i ⟨bytes, 4 * (i + 1)⟩ text st
      = (⟨bytes, 4 * (i + 1)⟩, text ++ eofLines (samples bytes) (bytes.length / 4) i st) := by
  unfold dataEndedEof eofLines
  split_ifs with hc
  · have hlen : st.dataStart.toNat + ((i : Int) - st.dataStart + 1).toNat ≤ bytes.length / 4 := by
      omega
    have e : st.dataStart.toNat + ((i : Int) - st.dataStart + 1).toNat = i + 1 := by omega
    simp [printHexData_eq bytes _ _ _ _ hlen, e]
  · simp

theorem closeState_bound (i : Nat) (item : sniffer_item_t) (st : DecodeState)
    (h : st.dataStart = -1 ∨ (0 ≤ st.dataStart ∧ st.dataStart ≤ i)) :
    (closeState item st).dataStart = -1
      ∨ (0 ≤ (closeState item st).dataStart ∧ (closeState item st).dataStart ≤ i) := by
  unfold closeState; split_ifs
  · left; rfl
  · exact h

theorem decodeBody_eq (ataCodes : List (Nat × String)) (bytes : List Nat) (i : Nat)
    (text : List TraceLine) (st : DecodeState) (hi : i < bytes.length / 4)
    (h : st.dataStart = -1 ∨ (0 ≤ st.dataStart ∧ st.dataStart < i)) :
    decodeBody ataCodes (bytes.length / 4) i ⟨bytes, 4 * i⟩ text st
      = ⟨⟨bytes, 4 * (i + 1)⟩,
          text ++ stepLines ataCodes (samples bytes) (bytes.length / 4) i (recordAt bytes i) st,
          stepState i (recordAt bytes i) st, false⟩ := by
  have hb := dataBegins_bound i (recordAt bytes i) ((recordAt bytes i).dior = 0)
    (hideStatus i (recordAt bytes i) (hideAltStatus i (recordAt bytes i) st).1).1 (by simpa using h)
  unfold decodeBody stepLines stepState
  simp only [readItem_eq bytes i _ hi, ne_eq, not_true_eq_false, if_false]
  split_ifs with h1 h2 h3
  · rfl
  · simp
  · simp
  · rw [dataEnded_eq bytes i _ _ _ _ hi rfl hb]
    simp only
    rw [dataEndedEof_eq bytes i _ _ (closeState_bound i _ _ hb)]
    simp [emitSample, sampleLines]
    split_ifs <;> simp

theorem stepState_bound (i : Nat) (item : sniffer_item_t) (st : DecodeState)
    (h : st.dataStart = -1 ∨ (0 ≤ st.dataStart ∧ st.dataStart < i)) :
    (stepState i item st).dataStart = -1
      ∨ (0 ≤ (stepState i item st).dataStart ∧ (stepState i item st).dataStart < (i + 1 : Nat)) := by
  have hb := closeState_bound i item _
    (dataBegins_bound i item (item.dior = 0) (hideStatus i item (hideAltStatus i item st).1).1
      (by simpa using h))
  unfold stepState
  split_ifs
  · omega
  · simp only [hideAltStatus_dataStart]; omega
  · simp only [hideStatus_dataStart, hideAltStatus_dataStart]; omega
  · omega

theorem stateAt_succ (recs : List sniffer_item_t) (i : Nat) (item : sniffer_item_t)
    (h : recs[i]? = some item) : stateAt recs (i + 1) = stepState i item (stateAt recs i) := by
  simp [stateAt, h]

theorem linesAt_eq (ataCodes : List (Nat × String)) (recs : List sniffer_item_t) (i : Nat)
    (item : sniffer_item_t) (h : recs[i]? = some item) :
    linesAt ataCodes recs i = stepLines ataCodes recs recs.length i item (stateAt recs i) := by
  simp [linesAt, h]

theorem stateAt_bound (recs : List sniffer_item_t) (i : Nat) :
    (stateAt recs i).dataStart = -1
      ∨ (0 ≤ (stateAt recs i).dataStart ∧ (stateAt recs i).dataStart < i) := by
  induction i with
  | zero => left; rfl
  | succ i ih =>
    cases h : recs[i]? with
    | none =>
      have e : stateAt recs (i + 1) = stateAt recs i := by simp [stateAt, h]
      rw [e]; omega
    | some item =>
      rw [stateAt_succ recs i item h]
      exact stepState_bound i item _ ih

theorem decodeLoop_eq (ataCodes : List (Nat × String)) (bytes : List Nat) :
    ∀ (k i : Nat) (text : List TraceLine), i + k = bytes.length / 4 →
      decodeLoop ataCodes (bytes.length / 4) k i ⟨bytes, 4 * i⟩ text (stateAt (samples bytes) i)
        = ⟨⟨bytes, 4 * (bytes.length / 4)⟩,
            text ++ (List.range' i k).flatMap (linesAt ataCodes (samples bytes)),
            stateAt (samples bytes) (bytes.length / 4), false⟩ := by
  intro k
  induction k with
  | zero =>
    intro i text h
    have e : i = bytes.length / 4 := by omega
    simp [decodeLoop, e]
  | succ k ih =>
    intro i text h
    have hi : i < bytes.length / 4 := by omega
    have hrec := samples_getElem? bytes i hi
    simp only [decodeLoop, decodeBody_eq ataCodes bytes i text _ hi (stateAt_bound _ i)]
    rw [← stateAt_succ _ i _ hrec, if_neg (by simp), ih (i + 1) _ (by omega)]
    simp [List.range'_succ, linesAt_eq ataCodes _ i _ hrec, samples_length]

/-- The loop of `decodePressed` over a file computes the trace of its sample sequence. -/
theorem decodePressed_eq (ataCodes : List (Nat × String)) (bytes : List Nat) :
    decodePressed ataCodes bytes = traceOf ataCodes (samples bytes) := by
  have h := decodeLoop_eq ataCodes bytes (bytes.length / 4) 0 [] (by omega)
  simp only [Nat.mul_zero] at h
  have e : stateAt (samples bytes) 0 = DecodeState.init := rfl
  rw [e] at h
  simp [decodePressed, QFile.size, h, traceOf, samples_length, List.range_eq_range']

theorem mem_traceOf (ataCodes : List (Nat × String)) (recs : List sniffer_item_t)
    (l : TraceLine) :
    l ∈ traceOf ataCodes recs ↔ ∃ i, i < recs.length ∧ l ∈ linesAt ataCodes recs i := by
  simp [traceOf, List.mem_flatMap]

/-! ### One iteration, case by case -/

theorem ATA_REG_ALT_STATUS_eq : ATA_REG_ALT_STATUS = 14 := by decide
theorem ATA_REG_STATUS_eq : ATA_REG_STATUS = 23 := by decide
theorem ATA_REG_DATA_eq : ATA_REG_DATA = 16 := by decide

@[simp] theorem hideAltStatus_lastStatusSample (i : Nat) (item : sniffer_item_t)
    (st : DecodeState) :
    (hideAltStatus i item st).1.lastStatusSample = st.lastStatusSample := by
  unfold hideAltStatus; split_ifs <;> rfl

@[simp] theorem hideAltStatus_lastStatusValue (i : Nat) (item : sniffer_item_t)
    (st : DecodeState) :
    (hideAltStatus i item st).1.lastStatusValue = st.lastStatusValue := by
  unfold hideAltStatus; split_ifs <;> rfl

@[simp] theorem hideStatus_lastAltStatusSample (i : Nat) (item : sniffer_item_t)
    (st : DecodeState) :
    (hideStatus i item st).1.lastAltStatusSample = st.lastAltStatusSample := by
  unfold hideStatus; split_ifs <;> rfl

@[simp] theorem hideStatus_lastAltStatusValue (i : Nat) (item : sniffer_item_t)
    (st : DecodeState) :
    (hideStatus i item st).1.lastAltStatusValue = st.lastAltStatusValue := by
  unfold hideStatus; split_ifs <;> rfl

theorem hideAltStatus_skip (i : Nat) (item : sniffer_item_t) (st : DecodeState)
    (hf : item.dior ≠ item.diow) :
    (hideAltStatus i item st).2 = true
      ↔ (altStatusRead item ∧ item.data = st.lastAltStatusValue
          ∧ (i : Int) = st.lastAltStatusSample + 1) := by
  unfold hideAltStatus altStatusRead
  split_ifs with h1 h2
  · simp only [true_iff]; exact ⟨⟨hf, h1.2, h1.1⟩, h2.1, h2.2⟩
  · simp only [Bool.false_eq_true, false_iff]; intro h; exact h2 ⟨h.2.1, h.2.2⟩
  · simp only [Bool.false_eq_true, false_iff]; intro h; exact h1 ⟨h.1.2.2, h.1.2.1⟩

theorem hideStatus_skip (i : Nat) (item : sniffer_item_t) (st : DecodeState)
    (hf : item.dior ≠ item.diow) :
    (hideStatus i item st).2 = true
      ↔ (statusRead item ∧ item.data = st.lastStatusValue
          ∧ (i : Int) = st.lastStatusSample + 1) := by
  unfold hideStatus statusRead
  split_ifs with h1 h2
  · simp only [true_iff]; exact ⟨⟨hf, h1.2, h1.1⟩, h2.1, h2.2⟩
  · simp only [Bool.false_eq_true, false_iff]; intro h; exact h2 ⟨h.2.1, h.2.2⟩
  · simp only [Bool.false_eq_true, false_iff]; intro h; exact h1 ⟨h.1.2.2, h.1.2.1⟩

theorem step_misframed (ataCodes : List (Nat × String)) (recs : List sniffer_item_t)
    (n i : Nat) (item : sniffer_item_t) (st : DecodeState) (h : item.dior = item.diow) :
    stepState i item st = st
      ∧ stepLines ataCodes recs n i item st = [TraceLine.incorrectState i] := by
  unfold stepState stepLines
  rw [if_pos h, if_pos h]
  exact ⟨rfl, rfl⟩

theorem step_suppressed (ataCodes : List (Nat × String)) (recs : List sniffer_item_t)
    (n i : Nat) (item : sniffer_item_t) (st : DecodeState) (h : suppressed i item st) :
    stepLines ataCodes recs n i item st = []
      ∧ (stepState i item st).dataStart = st.dataStart
      ∧ (stepState i item st).dataRead = st.dataRead := by
  have hf : item.dior ≠ item.diow := by
    rcases h with h | h
    · exact h.1.1
    · exact h.1.1
  unfold stepLines stepState
  rw [if_neg hf, if_neg hf]
  by_cases ha : (hideAltStatus i item st).2 = true
  · rw [if_pos ha, if_pos ha]; simp
  · rw [if_neg ha, if_neg ha]
    have hs : (hideStatus i item (hideAltStatus i item st).1).2 = true := by
      rw [hideStatus_skip _ _ _ hf]
      rcases h with h | h
      · exact absurd ((hideAltStatus_skip i item st hf).mpr h) ha
      · simpa using h
    rw [if_pos hs, if_pos hs]; simp

theorem step_pass (ataCodes : List (Nat × String)) (recs : List sniffer_item_t)
    (n i : Nat) (item : sniffer_item_t) (st : DecodeState) (hf : item.dior ≠ item.diow)
    (hs : ¬ suppressed i item st) :
    stepState i item st = closeState item
        (dataBegins i item (item.dior = 0) (hideStatus i item (hideAltStatus i item st).1).1)
      ∧ stepLines ataCodes recs n i item st
        = closeLines recs i item
            (dataBegins i item (item.dior = 0) (hideStatus i item (hideAltStatus i item st).1).1)
          ++ eofLines recs n i (closeState item
            (dataBegins i item (item.dior = 0) (hideStatus i item (hideAltStatus i item st).1).1))
          ++ sampleLines ataCodes i item (closeState item
            (dataBegins i item (item.dior = 0)
              (hideStatus i item (hideAltStatus i item st).1).1)) := by
  have ha : ¬ (hideAltStatus i item st).2 = true := by
    rw [hideAltStatus_skip _ _ _ hf]; exact fun h => hs (Or.inl h)
  have hb : ¬ (hideStatus i item (hideAltStatus i item st).1).2 = true := by
    rw [hideStatus_skip _ _ _ hf]; intro h; exact hs (Or.inr (by simpa using h))
  unfold stepState stepLines
  rw [if_neg hf, if_neg hf, if_neg ha, if_neg ha, if_neg hb, if_neg hb]
  exact ⟨rfl, rfl⟩

theorem not_suppressed_of_data (i : Nat) (item : sniffer_item_t) (st : DecodeState)
    (hd : item.address = ATA_REG_DATA) : ¬ suppressed i item st := by
  unfold suppressed altStatusRead statusRead
  rw [hd, ATA_REG_DATA_eq, ATA_REG_ALT_STATUS_eq, ATA_REG_STATUS_eq]
  omega

theorem hideAltStatus_of_not (i : Nat) (item : sniffer_item_t) (st : DecodeState)
    (h : ¬ (item.address = ATA_REG_ALT_STATUS ∧ item.dior = 0)) :
    hideAltStatus i item st = (st, false) := by
  unfold hideAltStatus; rw [if_neg h]

theorem hideStatus_of_not (i : Nat) (item : sniffer_item_t) (st : DecodeState)
    (h : ¬ (item.address = ATA_REG_STATUS ∧ item.dior = 0)) :
    hideStatus i item st = (st, false) := by
  unfold hideStatus; rw [if_neg h]

theorem step_data (ataCodes : List (Nat × String)) (recs : List sniffer_item_t)
    (n i : Nat) (item : sniffer_item_t) (st : DecodeState) (hf : item.dior ≠ item.diow)
    (hd : item.address = ATA_REG_DATA) :
    stepState i item st = dataBegins i item (item.dior = 0) st
      ∧ stepLines ataCodes recs n i item st
          = eofLines recs n i (dataBegins i item (item.dior = 0) st) := by
  obtain ⟨h1, h2⟩ := step_pass ataCodes recs n i item st hf (not_suppressed_of_data i item st hd)
  have ea : hideAltStatus i item st = (st, false) :=
    hideAltStatus_of_not i item st (by rw [hd, ATA_REG_DATA_eq, ATA_REG_ALT_STATUS_eq]; omega)
  have eb : hideStatus i item st = (st, false) :=
    hideStatus_of_not i item st (by rw [hd, ATA_REG_DATA_eq, ATA_REG_STATUS_eq]; omega)
  rw [ea, eb] at h1 h2
  have ec : ∀ s : DecodeState, closeState item s = s := by
    intro s; unfold closeState; rw [if_neg (by simp [hd])]
  have ed : ∀ s : DecodeState, closeLines recs i item s = [] := by
    intro s; unfold closeLines; rw [if_neg (by simp [hd])]
  have hds : (dataBegins i item (item.dior = 0) st).dataStart ≠ -1 := by
    rw [dataBegins_dataStart]
    split_ifs with h
    · omega
    · intro h'; exact h ⟨hd, h'⟩
  rw [ec] at h1 h2
  rw [ed] at h2
  refine ⟨h1, ?_⟩
  rw [h2]
  unfold sampleLines
  rw [if_neg hds]
  simp

theorem dataBegins_of_not (i : Nat) (item : sniffer_item_t) (read : Bool) (st : DecodeState)
    (hd : item.address ≠ ATA_REG_DATA) : dataBegins i item read st = st := by
  unfold dataBegins; rw [if_neg (fun h => hd h.1)]

theorem closeState_dataStart (item : sniffer_item_t) (st : DecodeState)
    (hd : item.address ≠ ATA_REG_DATA) : (closeState item st).dataStart = -1 := by
  unfold closeState
  split_ifs with h
  · rfl
  · by_contra h'; exact h ⟨hd, h'⟩

theorem closeLines_congr (recs : List sniffer_item_t) (i : Nat) (item : sniffer_item_t)
    (s t : DecodeState) (h1 : s.dataStart = t.dataStart) (h2 : s.dataRead = t.dataRead) :
    closeLines recs i item s = closeLines recs i item t := by
  unfold closeLines; rw [h1, h2]

theorem step_other (ataCodes : List (Nat × String)) (recs : List sniffer_item_t)
    (n i : Nat) (item : sniffer_item_t) (st : DecodeState)
    (hf : item.dior ≠ item.diow) (hd : item.address ≠ ATA_REG_DATA)
    (hs : ¬ suppressed i item st) :
    (stepState i item st).dataStart = -1
      ∧ stepLines ataCodes recs n i item st
          = closeLines recs i item st ++ [sampleLine ataCodes i item] := by
  obtain ⟨h1, h2⟩ := step_pass ataCodes recs n i item st hf hs
  rw [dataBegins_of_not _ _ _ _ hd] at h1 h2
  have hc := closeState_dataStart item (hideStatus i item (hideAltStatus i item st).1).1 hd
  refine ⟨by rw [h1]; exact hc, ?_⟩
  rw [h2]
  unfold eofLines sampleLines
  rw [if_neg (by simp [hc]), if_pos hc,
    closeLines_congr recs i item _ st (by simp) (by simp)]
  simp

/-! ### The markers of the duplicate filter -/

@[simp] theorem closeState_lastStatusSample (item : sniffer_item_t) (st : DecodeState) :
    (closeState item st).lastStatusSample = st.lastStatusSample := by
  unfold closeState; split_ifs <;> rfl

@[simp] theorem closeState_lastStatusValue (item : sniffer_item_t) (st : DecodeState) :
    (closeState item st).lastStatusValue = st.lastStatusValue := by
  unfold closeState; split_ifs <;> rfl

@[simp] theorem closeState_lastAltStatusSample (item : sniffer_item_t) (st : DecodeState) :
    (closeState item st).lastAltStatusSample = st.lastAltStatusSample := by
  unfold closeState; split_ifs <;> rfl

@[simp] theorem closeState_lastAltStatusValue (item : sniffer_item_t) (st : DecodeState) :
    (closeState item st).lastAltStatusValue = st.lastAltStatusValue := by
  unfold closeState; split_ifs <;> rfl

@[simp] theorem dataBegins_lastStatusSample (i : Nat) (item : sniffer_item_t) (read : Bool)
    (st : DecodeState) :
    (dataBegins i item read st).lastStatusSample = st.lastStatusSample := by
  unfold dataBegins; split_ifs <;> rfl

@[simp] theorem dataBegins_lastStatusValue (i : Nat) (item : sniffer_item_t) (read : Bool)
    (st : DecodeState) :
    (dataBegins i item read st).lastStatusValue = st.lastStatusValue := by
  unfold dataBegins; split_ifs <;> rfl

@[simp] theorem dataBegins_lastAltStatusSample (i : Nat) (item : sniffer_item_t) (read : Bool)
    (st : DecodeState) :
    (dataBegins i item read st).lastAltStatusSample = st.lastAltStatusSample := by
  unfold dataBegins; split_ifs <;> rfl

@[simp] theorem dataBegins_lastAltStatusValue (i : Nat) (item : sniffer_item_t) (read : Bool)
    (st : DecodeState) :
    (dataBegins i item read st).lastAltStatusValue = st.lastAltStatusValue := by
  unfold dataBegins; split_ifs <;> rfl

theorem hideStatus_marker (i : Nat) (item : sniffer_item_t) (st : DecodeState) :
    (hideStatus i item st).1.lastStatusSample
        = (if item.address = ATA_REG_STATUS ∧ item.dior = 0 then (i : Int)
            else st.lastStatusSample)
      ∧ (hideStatus i item st).1.lastStatusValue
        = (if item.address = ATA_REG_STATUS ∧ item.dior = 0 then item.data
            else st.lastStatusValue) := by
  unfold hideStatus
  split_ifs with h1 h2
  · exact ⟨rfl, h2.1.symm⟩
  · exact ⟨rfl, rfl⟩
  · exact ⟨rfl, rfl⟩

theorem hideAltStatus_marker (i : Nat) (item : sniffer_item_t) (st : DecodeState) :
    (hideAltStatus i item st).1.lastAltStatusSample
        = (if item.address = ATA_REG_ALT_STATUS ∧ item.dior = 0 then (i : Int)
            else st.lastAltStatusSample)
      ∧ (hideAltStatus i item st).1.lastAltStatusValue
        = (if item.address = ATA_REG_ALT_STATUS ∧ item.dior = 0 then item.data
            else st.lastAltStatusValue) := by
  unfold hideAltStatus
  split_ifs with h1 h2
  · exact ⟨rfl, h2.1.symm⟩
  · exact ⟨rfl, rfl⟩
  · exact ⟨rfl, rfl⟩

theorem statusRead_iff (item : sniffer_item_t) (hf : item.dior ≠ item.diow) :
    (item.address = ATA_REG_STATUS ∧ item.dior = 0) ↔ statusRead item :=
  ⟨fun h => ⟨hf, h.2, h.1⟩, fun h => ⟨h.2.2, h.2.1⟩⟩

theorem altStatusRead_iff (item : sniffer_item_t) (hf : item.dior ≠ item.diow) :
    (item.address = ATA_REG_ALT_STATUS ∧ item.dior = 0) ↔ altStatusRead item :=
  ⟨fun h => ⟨hf, h.2, h.1⟩, fun h => ⟨h.2.2, h.2.1⟩⟩

theorem not_status_and_alt (item : sniffer_item_t) (h1 : statusRead item)
    (h2 : altStatusRead item) : False := by
  have a := h1.2.2
  have b := h2.2.2
  rw [ATA_REG_STATUS_eq] at a
  rw [ATA_REG_ALT_STATUS_eq] at b
  omega

/-- The STATUS marker after an iteration: set to the sample when it is a correctly framed
STATUS read, left alone otherwise. -/
theorem stepState_status (i : Nat) (item : sniffer_item_t) (st : DecodeState) :
    (stepState i item st).lastStatusSample
        = (if statusRead item then (i : Int) else st.lastStatusSample)
      ∧ (stepState i item st).lastStatusValue
        = (if statusRead item then item.data else st.lastStatusValue) := by
  by_cases hm : item.dior = item.diow
  · have hs : ¬ statusRead item := fun h => h.1 hm
    rw [(step_misframed [] [] 0 i item st hm).1, if_neg hs, if_neg hs]
    exact ⟨rfl, rfl⟩
  · unfold stepState
    rw [if_neg hm]
    by_cases ha : (hideAltStatus i item st).2 = true
    · rw [if_pos ha]
      have h := (hideAltStatus_skip i item st hm).mp ha
      have hs : ¬ statusRead item := fun hs => not_status_and_alt item hs h.1
      rw [if_neg hs, if_neg hs]
      simp
    · rw [if_neg ha]
      have h := hideStatus_marker i item (hideAltStatus i item st).1
      simp only [statusRead_iff item hm, hideAltStatus_lastStatusSample,
        hideAltStatus_lastStatusValue] at h
      by_cases hb : (hideStatus i item (hideAltStatus i item st).1).2 = true
      · rw [if_pos hb]; exact h
      · rw [if_neg hb]; simpa using h

/-- The ALT_STATUS marker after an iteration. -/
theorem stepState_altStatus (i : Nat) (item : sniffer_item_t) (st : DecodeState) :
    (stepState i item st).lastAltStatusSample
        = (if altStatusRead item then (i : Int) else st.lastAltStatusSample)
      ∧ (stepState i item st).lastAltStatusValue
        = (if altStatusRead item then item.data else st.lastAltStatusValue) := by
  by_cases hm : item.dior = item.diow
  · have hs : ¬ altStatusRead item := fun h => h.1 hm
    rw [(step_misframed [] [] 0 i item st hm).1, if_neg hs, if_neg hs]
    exact ⟨rfl, rfl⟩
  · have h := hideAltStatus_marker i item st
    simp only [altStatusRead_iff item hm] at h
    unfold stepState
    rw [if_neg hm]
    by_cases ha : (hideAltStatus i item st).2 = true
    · rw [if_pos ha]; exact h
    · rw [if_neg ha]
      by_cases hb : (hideStatus i item (hideAltStatus i item st).1).2 = true
      · rw [if_pos hb]; simpa using h
      · rw [if_neg hb]; simpa using h

theorem stateAt_of_none (recs : List sniffer_item_t) (i : Nat) (h : recs[i]? = none) :
    stateAt recs (i + 1) = stateAt recs i := by
  simp [stateAt, h]

/-- Both markers stay below the index of the iteration. -/
theorem stateAt_marker_lt (recs : List sniffer_item_t) (i : Nat) :
    (stateAt recs i).lastStatusSample < i ∧ (stateAt recs i).lastAltStatusSample < i := by
  induction i with
  | zero => simp [stateAt, DecodeState.init]
  | succ i ih =>
    cases h : recs[i]? with
    | none => rw [stateAt_of_none recs i h]; constructor <;> omega
    | some item =>
      rw [stateAt_succ recs i item h, (stepState_status i item _).1,
        (stepState_altStatus i item _).1]
      constructor <;> split_ifs <;> omega

/-- After the iteration of sample `i` the STATUS marker is `i` exactly when the sample is
a correctly framed STATUS read, and the value kept is then its data. -/
theorem stateAt_status (recs : List sniffer_item_t) (i : Nat) (item : sniffer_item_t)
    (h : recs[i]? = some item) :
    ((stateAt recs (i + 1)).lastStatusSample = i ↔ statusRead item)
      ∧ (statusRead item → (stateAt recs (i + 1)).lastStatusValue = item.data) := by
  rw [stateAt_succ recs i item h, (stepState_status i item _).1, (stepState_status i item _).2]
  have hlt := (stateAt_marker_lt recs i).1
  constructor
  · split_ifs with hs
    · simp [hs]
    · constructor
      · intro h'; omega
      · intro h'; exact absurd h' hs
  · intro hs; rw [if_pos hs]

theorem stateAt_altStatus (recs : List sniffer_item_t) (i : Nat) (item : sniffer_item_t)
    (h : recs[i]? = some item) :
    ((stateAt recs (i + 1)).lastAltStatusSample = i ↔ altStatusRead item)
      ∧ (altStatusRead item → (stateAt recs (i + 1)).lastAltStatusValue = item.data) := by
  rw [stateAt_succ recs i item h, (stepState_altStatus i item _).1,
    (stepState_altStatus i item _).2]
  have hlt := (stateAt_marker_lt recs i).2
  constructor
  · split_ifs with hs
    · simp [hs]
    · constructor
      · intro h'; omega
      · intro h'; exact absurd h' hs
  · intro hs; rw [if_pos hs]

theorem statusRead_not_data (item : sniffer_item_t) (h : statusRead item) :
    item.address ≠ ATA_REG_DATA := by
  rw [h.2.2, ATA_REG_STATUS_eq, ATA_REG_DATA_eq]; omega

theorem altStatusRead_not_data (item : sniffer_item_t) (h : altStatusRead item) :
    item.address ≠ ATA_REG_DATA := by
  rw [h.2.2, ATA_REG_ALT_STATUS_eq, ATA_REG_DATA_eq]; omega

/-- No data flow is open right after a STATUS or ALT_STATUS read: when a marker is the
index just before the iteration, `dataStart` is `-1`. -/
theorem stateAt_marker_closed (recs : List sniffer_item_t) (i : Nat)
    (h : (i : Int) = (stateAt recs i).lastStatusSample + 1
      ∨ (i : Int) = (stateAt recs i).lastAltStatusSample + 1) :
    (stateAt recs i).dataStart = -1 := by
  induction i with
  | zero => rfl
  | succ i ih =>
    cases hrec : recs[i]? with
    | none =>
      have hlt := stateAt_marker_lt recs i
      rw [stateAt_of_none recs i hrec] at h
      omega
    | some item =>
      have hst := (stateAt_status recs i item hrec).1
      have hal := (stateAt_altStatus recs i item hrec).1
      have hnd : item.address ≠ ATA_REG_DATA := by
        rcases h with h | h
        · exact statusRead_not_data item (hst.mp (by omega))
        · exact altStatusRead_not_data item (hal.mp (by omega))
      have hf : item.dior ≠ item.diow := by
        rcases h with h | h
        · exact (hst.mp (by omega)).1
        · exact (hal.mp (by omega)).1
      rw [stateAt_succ recs i item hrec]
      by_cases hs : suppressed i item (stateAt recs i)
      · rw [(step_suppressed [] recs 0 i item _ hs).2.1]
        apply ih
        rcases hs with hs | hs
        · exact Or.inr hs.2.2
        · exact Or.inl hs.2.2
      · exact (step_other [] recs 0 i item _ hf hnd hs).1

/-! ### The open data flow -/

theorem dataBegins_dataRead (i : Nat) (item : sniffer_item_t) (read : Bool) (st : DecodeState) :
    (dataBegins i item read st).dataRead
      = if item.address = ATA_REG_DATA ∧ st.dataStart = -1 then read else st.dataRead := by
  unfold dataBegins; split_ifs <;> rfl

theorem getElem?_of_lt (recs : List sniffer_item_t) (i : Nat) (h : i < recs.length) :
    ∃ item, recs[i]? = some item :=
  ⟨recs[i], List.getElem?_eq_getElem h⟩

theorem lt_of_getElem? (recs : List sniffer_item_t) (i : Nat) (item : sniffer_item_t)
    (h : recs[i]? = some item) : i < recs.length := by
  rcases Nat.lt_or_ge i recs.length with h1 | h1
  · exact h1
  · rw [List.getElem?_eq_none h1] at h; cases h

/-- While a data flow is open (`dataStart = s`), it was begun at a correctly framed DATA
sample `s` found with no flow open, `dataRead` is the direction of that sample, and every
sample from `s` on is a DATA sample or a mis-framed one. -/
theorem stateAt_open (recs : List sniffer_item_t) (i : Nat) (hi : i ≤ recs.length) (s : Nat)
    (h : (stateAt recs i).dataStart = (s : Int)) :
    s < i ∧ (stateAt recs s).dataStart = -1
      ∧ (∃ first, recs[s]? = some first ∧ first.dior ≠ first.diow
          ∧ first.address = ATA_REG_DATA
          ∧ (stateAt recs i).dataRead = decide (first.dior = 0))
      ∧ (∀ j x, s ≤ j → j < i → recs[j]? = some x →
          x.dior = x.diow ∨ x.address = ATA_REG_DATA) := by
  induction i with
  | zero =>
    simp only [stateAt, DecodeState.init] at h
    omega
  | succ i ih =>
    obtain ⟨item, hrec⟩ := getElem?_of_lt recs i (by omega)
    rw [stateAt_succ recs i item hrec] at h ⊢
    by_cases hm : item.dior = item.diow
    · rw [(step_misframed [] recs 0 i item _ hm).1] at h ⊢
      obtain ⟨h1, h2, h3, h4⟩ := ih (by omega) h
      refine ⟨by omega, h2, h3, ?_⟩
      intro j x hj1 hj2 hx
      rcases Nat.lt_or_ge j i with hlt | hge
      · exact h4 j x hj1 hlt hx
      · have e : j = i := by omega
        subst e
        rw [hrec] at hx
        cases hx
        exact Or.inl hm
    · by_cases hd : item.address = ATA_REG_DATA
      · rw [(step_data [] recs 0 i item _ hm hd).1] at h ⊢
        rw [dataBegins_dataStart] at h
        rw [dataBegins_dataRead]
        by_cases h0 : (stateAt recs i).dataStart = -1
        · rw [if_pos ⟨hd, h0⟩] at h
          rw [if_pos ⟨hd, h0⟩]
          have e : s = i := by omega
          subst e
          refine ⟨by omega, h0, ⟨item, hrec, hm, hd, rfl⟩, ?_⟩
          intro j x hj1 hj2 hx
          have e : j = s := by omega
          subst e
          rw [hrec] at hx
          cases hx
          exact Or.inr hd
        · rw [if_neg (fun hc => h0 hc.2)] at h
          rw [if_neg (fun hc => h0 hc.2)]
          obtain ⟨h1, h2, h3, h4⟩ := ih (by omega) h
          refine ⟨by omega, h2, h3, ?_⟩
          intro j x hj1 hj2 hx
          rcases Nat.lt_or_ge j i with hlt | hge
          · exact h4 j x hj1 hlt hx
          · have e : j = i := by omega
            subst e
            rw [hrec] at hx
            cases hx
            exact Or.inr hd
      · by_cases hs : suppressed i item (stateAt recs i)
        · rw [(step_suppressed [] recs 0 i item _ hs).2.1] at h
          have hc := stateAt_marker_closed recs i (by
            rcases hs with hs | hs
            · exact Or.inr hs.2.2
            · exact Or.inl hs.2.2)
          omega
        · rw [(step_other [] recs 0 i item _ hm hd hs).1] at h
          omega

/-- After a correctly framed sample, a data flow is open exactly when the sample addresses
the DATA register. -/
theorem stateAt_closed_iff (recs : List sniffer_item_t) (i : Nat) (item : sniffer_item_t)
    (hrec : recs[i]? = some item) (hf : item.dior ≠ item.diow) :
    (stateAt recs (i + 1)).dataStart = -1 ↔ item.address ≠ ATA_REG_DATA := by
  rw [stateAt_succ recs i item hrec]
  constructor
  · intro h hd
    rw [(step_data [] recs 0 i item _ hf hd).1, dataBegins_dataStart] at h
    by_cases hc : item.address = ATA_REG_DATA ∧ (stateAt recs i).dataStart = -1
    · rw [if_pos hc] at h; omega
    · rw [if_neg hc] at h; exact hc ⟨hd, h⟩
  · intro hd
    by_cases hs : suppressed i item (stateAt recs i)
    · rw [(step_suppressed [] recs 0 i item _ hs).2.1]
      exact stateAt_marker_closed recs i (by
        rcases hs with hs | hs
        · exact Or.inr hs.2.2
        · exact Or.inl hs.2.2)
    · exact (step_other [] recs 0 i item _ hf hd hs).1

/-! ### The lines of one iteration -/

theorem linesAt_misframed (ataCodes : List (Nat × String)) (recs : List sniffer_item_t)
    (i : Nat) (item : sniffer_item_t) (hrec : recs[i]? = some item)
    (hm : item.dior = item.diow) :
    linesAt ataCodes recs i = [TraceLine.incorrectState i] := by
  rw [linesAt_eq ataCodes recs i item hrec]
  exact (step_misframed ataCodes recs _ i item _ hm).2

theorem linesAt_suppressed (ataCodes : List (Nat × String)) (recs : List sniffer_item_t)
    (i : Nat) (item : sniffer_item_t) (hrec : recs[i]? = some item)
    (hs : suppressed i item (stateAt recs i)) : linesAt ataCodes recs i = [] := by
  rw [linesAt_eq ataCodes recs i item hrec]
  exact (step_suppressed ataCodes recs _ i item _ hs).1

theorem closeLines_closed (recs : List sniffer_item_t) (i : Nat) (item : sniffer_item_t)
    (st : DecodeState) (h : st.dataStart = -1) : closeLines recs i item st = [] := by
  unfold closeLines; rw [if_neg (fun hc => hc.2 h)]

theorem closeLines_open (recs : List sniffer_item_t) (i : Nat) (item : sniffer_item_t)
    (st : DecodeState) (s : Nat) (hd : item.address ≠ ATA_REG_DATA)
    (h : st.dataStart = (s : Int)) (hle : s ≤ i) :
    closeLines recs i item st
      = TraceLine.burst s st.dataRead (2 * (i - s)) :: dumpRows recs s (i - s) := by
  unfold closeLines
  rw [if_pos ⟨hd, by omega⟩, h]
  have e1 : (s : Int).toNat = s := by omega
  have e2 : ((((i : Int) - (s : Int)) * 2).toNat) = 2 * (i - s) := by omega
  have e3 : ((i : Int) - (s : Int)).toNat = i - s := by omega
  rw [e1, e2, e3]

theorem eofLines_open (recs : List sniffer_item_t) (n i : Nat) (st : DecodeState) (s : Nat)
    (h : st.dataStart = (s : Int)) (hle : s ≤ i) (hn : i + 1 = n) :
    eofLines recs n i st
      = TraceLine.burst s st.dataRead (2 * (i + 1 - s)) :: dumpRows recs s (i + 1 - s) := by
  unfold eofLines
  rw [if_pos ⟨by omega, by omega⟩, h]
  have e1 : (s : Int).toNat = s := by omega
  have e2 : ((((i : Int) - (s : Int) + 1) * 2).toNat) = 2 * (i + 1 - s) := by omega
  have e3 : ((i : Int) - (s : Int) + 1).toNat = i + 1 - s := by omega
  rw [e1, e2, e3]

theorem eofLines_not_last (recs : List sniffer_item_t) (n i : Nat) (st : DecodeState)
    (hn : i + 1 ≠ n) : eofLines recs n i st = [] := by
  unfold eofLines; rw [if_neg (fun hc => hn (by omega))]

/-- A correctly framed sample that does not address the DATA register and is not hidden
closes the open flow, if any, and gets its own line. -/
theorem linesAt_other (ataCodes : List (Nat × String)) (recs : List sniffer_item_t)
    (i : Nat) (item : sniffer_item_t) (hrec : recs[i]? = some item)
    (hf : item.dior ≠ item.diow) (hd : item.address ≠ ATA_REG_DATA)
    (hs : ¬ suppressed i item (stateAt recs i)) :
    linesAt ataCodes recs i
      = closeLines recs i item (stateAt recs i) ++ [sampleLine ataCodes i item] := by
  rw [linesAt_eq ataCodes recs i item hrec]
  exact (step_other ataCodes recs _ i item _ hf hd hs).2

/-- A correctly framed DATA sample emits nothing unless it is the last sample, in which
case the flow it belongs to is flushed. -/
theorem linesAt_data (ataCodes : List (Nat × String)) (recs : List sniffer_item_t)
    (i : Nat) (item : sniffer_item_t) (hrec : recs[i]? = some item)
    (hf : item.dior ≠ item.diow) (hd : item.address = ATA_REG_DATA) :
    linesAt ataCodes recs i = eofLines recs recs.length i (stateAt recs (i + 1)) := by
  rw [linesAt_eq ataCodes recs i item hrec, stateAt_succ recs i item hrec,
    (step_data ataCodes recs _ i item _ hf hd).2, (step_data ataCodes recs 0 i item _ hf hd).1]

theorem dumpRows_isHexRow (recs : List sniffer_item_t) (offset length : Nat) (l : TraceLine)
    (h : l ∈ dumpRows recs offset length) : l.isHexRow = true := by
  unfold dumpRows at h
  rw [List.mem_map] at h
  obtain ⟨r, _, hr⟩ := h
  rw [← hr]; rfl

theorem dumpRows_length (recs : List sniffer_item_t) (offset length : Nat) :
    (dumpRows recs offset length).length = (length + 7) / 8 := by
  simp [dumpRows]

/-! ### Which lines an iteration can append -/

/-- The lines of iteration `i`, whatever the sample: one "INCORRECT STATE!" line for a
mis-framed sample; otherwise nothing, or the summary and dump of the flow that ends
(labelled with its first sample, a correctly framed DATA sample), or the line of the
sample, or both. -/
theorem linesAt_cases (ataCodes : List (Nat × String)) (recs : List sniffer_item_t)
    (i : Nat) (item : sniffer_item_t) (hrec : recs[i]? = some item) :
    (item.dior = item.diow ∧ linesAt ataCodes recs i = [TraceLine.incorrectState i])
    ∨ (item.dior ≠ item.diow ∧ linesAt ataCodes recs i = [])
    ∨ (item.dior ≠ item.diow ∧ item.address ≠ ATA_REG_DATA
        ∧ ¬ suppressed i item (stateAt recs i) ∧ (stateAt recs i).dataStart = -1
        ∧ linesAt ataCodes recs i = [sampleLine ataCodes i item])
    ∨ (item.dior ≠ item.diow ∧ item.address ≠ ATA_REG_DATA
        ∧ ¬ suppressed i item (stateAt recs i)
        ∧ ∃ s : Nat, (stateAt recs i).dataStart = (s : Int) ∧ s < i
          ∧ linesAt ataCodes recs i
            = TraceLine.burst s (stateAt recs i).dataRead (2 * (i - s))
                :: (dumpRows recs s (i - s) ++ [sampleLine ataCodes i item]))
    ∨ (item.dior ≠ item.diow ∧ item.address = ATA_REG_DATA ∧ i + 1 = recs.length
        ∧ ∃ s : Nat, (stateAt recs (i + 1)).dataStart = (s : Int) ∧ s ≤ i
          ∧ linesAt ataCodes recs i
            = TraceLine.burst s (stateAt recs (i + 1)).dataRead (2 * (i + 1 - s))
                :: dumpRows recs s (i + 1 - s)) := by
  by_cases hm : item.dior = item.diow
  · exact Or.inl ⟨hm, linesAt_misframed ataCodes recs i item hrec hm⟩
  · right
    by_cases hd : item.address = ATA_REG_DATA
    · have hl := linesAt_data ataCodes recs i item hrec hm hd
      by_cases hn : i + 1 = recs.length
      · right; right; right
        have hopen : (stateAt recs (i + 1)).dataStart ≠ -1 :=
          fun h => (stateAt_closed_iff recs i item hrec hm).mp h hd
        have hb := stateAt_bound recs (i + 1)
        obtain ⟨s, hs⟩ : ∃ s : Nat, (stateAt recs (i + 1)).dataStart = (s : Int) :=
          ⟨(stateAt recs (i + 1)).dataStart.toNat, by omega⟩
        refine ⟨hm, hd, hn, s, hs, by omega, ?_⟩
        rw [hl, eofLines_open recs _ i _ s hs (by omega) hn]
      · left
        exact ⟨hm, by rw [hl, eofLines_not_last recs _ i _ hn]⟩
    · by_cases hs : suppressed i item (stateAt recs i)
      · left
        exact ⟨hm, linesAt_suppressed ataCodes recs i item hrec hs⟩
      · have hl := linesAt_other ataCodes recs i item hrec hm hd hs
        by_cases h0 : (stateAt recs i).dataStart = -1
        · right; left
          refine ⟨hm, hd, hs, h0, ?_⟩
          rw [hl, closeLines_closed recs i item _ h0]; rfl
        · right; right; left
          have hb := stateAt_bound recs i
          obtain ⟨s, hs'⟩ : ∃ s : Nat, (stateAt recs i).dataStart = (s : Int) :=
            ⟨(stateAt recs i).dataStart.toNat, by omega⟩
          refine ⟨hm, hd, hs, s, hs', by omega, ?_⟩
          rw [hl, closeLines_open recs i item _ s hd hs' (by omega)]; rfl

theorem linesAt_of_none (ataCodes : List (Nat × String)) (recs : List sniffer_item_t)
    (i : Nat) (h : recs[i]? = none) : linesAt ataCodes recs i = [] := by
  simp [linesAt, h]

theorem sampleLine_label (ataCodes : List (Nat × String)) (i : Nat) (item : sniffer_item_t) :
    (sampleLine ataCodes i item).label = some i := rfl

theorem sampleLine_isBurst (ataCodes : List (Nat × String)) (i : Nat) (item : sniffer_item_t) :
    (sampleLine ataCodes i item).isBurst = false := rfl

theorem sampleLine_isHexRow (ataCodes : List (Nat × String)) (i : Nat) (item : sniffer_item_t) :
    (sampleLine ataCodes i item).isHexRow = false := rfl

theorem isHexRow_label (l : TraceLine) (h : l.isHexRow = true) : l.label = none := by
  cases l <;> first | rfl | simp [TraceLine.isHexRow] at h

theorem isHexRow_not_isBurst (l : TraceLine) (h : l.isHexRow = true) : l.isBurst = false := by
  cases l <;> first | rfl | simp [TraceLine.isHexRow] at h

/-- The read-error line is never appended. -/
theorem readError_not_mem_linesAt (ataCodes : List (Nat × String))
    (recs : List sniffer_item_t) (i : Nat) :
    TraceLine.readError ∉ linesAt ataCodes recs i := by
  intro hmem
  cases hrec : recs[i]? with
  | none => rw [linesAt_of_none ataCodes recs i hrec] at hmem; cases hmem
  | some item =>
    rcases linesAt_cases ataCodes recs i item hrec with
      ⟨_, hl⟩ | ⟨_, hl⟩ | ⟨_, _, _, _, hl⟩ | ⟨_, _, _, s, _, _, hl⟩ | ⟨_, _, _, s, _, _, hl⟩
    all_goals rw [hl] at hmem
    · simp at hmem
    · cases hmem
    · simp [sampleLine] at hmem
    · simp only [List.mem_cons, List.mem_append, List.mem_singleton, sampleLine,
        List.not_mem_nil, or_false] at hmem
      rcases hmem with h | h | h
      · cases h
      · have := dumpRows_isHexRow recs _ _ _ h; cases this
      · cases h
    · simp only [List.mem_cons] at hmem
      rcases hmem with h | h
      · cases h
      · have := dumpRows_isHexRow recs _ _ _ h; cases this

/-- An "INCORRECT STATE!" line labelled `t` comes from iteration `t` and a mis-framed
sample. -/
theorem incorrectState_mem_linesAt (ataCodes : List (Nat × String))
    (recs : List sniffer_item_t) (i t : Nat) (item : sniffer_item_t)
    (hrec : recs[i]? = some item)
    (hmem : TraceLine.incorrectState t ∈ linesAt ataCodes recs i) :
    t = i ∧ item.dior = item.diow := by
  rcases linesAt_cases ataCodes recs i item hrec with
    ⟨hm, hl⟩ | ⟨_, hl⟩ | ⟨_, _, _, _, hl⟩ | ⟨_, _, _, s, _, _, hl⟩ | ⟨_, _, _, s, _, _, hl⟩
  all_goals rw [hl] at hmem
  · simp only [List.mem_singleton, TraceLine.incorrectState.injEq] at hmem
    exact ⟨hmem, hm⟩
  · cases hmem
  · simp [sampleLine] at hmem
  · simp only [List.mem_cons, List.mem_append, List.mem_singleton, sampleLine,
      List.not_mem_nil, or_false] at hmem
    rcases hmem with h | h | h
    · cases h
    · have := dumpRows_isHexRow recs _ _ _ h; cases this
    · cases h
  · simp only [List.mem_cons] at hmem
    rcases hmem with h | h
    · cases h
    · have := dumpRows_isHexRow recs _ _ _ h; cases this

/-- A line labelled `t` comes from iteration `t`, or is the summary of a data flow whose
first sample `t` is a correctly framed DATA sample. -/
theorem label_mem_linesAt (ataCodes : List (Nat × String)) (recs : List sniffer_item_t)
    (i t : Nat) (l : TraceLine) (hmem : l ∈ linesAt ataCodes recs i)
    (hl : l.label = some t) :
    t = i ∨ ∃ first, recs[t]? = some first ∧ first.dior ≠ first.diow
      ∧ first.address = ATA_REG_DATA := by
  cases hrec : recs[i]? with
  | none => rw [linesAt_of_none ataCodes recs i hrec] at hmem; cases hmem
  | some item =>
    have hi := lt_of_getElem? recs i item hrec
    rcases linesAt_cases ataCodes recs i item hrec with
      ⟨_, he⟩ | ⟨_, he⟩ | ⟨_, _, _, _, he⟩ | ⟨_, _, _, s, hs, _, he⟩ | ⟨_, _, _, s, hs, _, he⟩
    all_goals rw [he] at hmem
    · simp only [List.mem_singleton] at hmem
      subst hmem
      simp only [TraceLine.label, Option.some.injEq] at hl
      exact Or.inl hl.symm
    · cases hmem
    · simp only [List.mem_singleton] at hmem
      subst hmem
      rw [sampleLine_label] at hl
      exact Or.inl (Option.some.inj hl).symm
    · simp only [List.mem_cons, List.mem_append, List.mem_singleton, List.not_mem_nil,
        or_false] at hmem
      rcases hmem with h | h | h
      · subst h
        simp only [TraceLine.label, Option.some.injEq] at hl
        subst hl
        obtain ⟨_, _, ⟨first, h1, h2, h3, _⟩, _⟩ := stateAt_open recs i (by omega) s hs
        exact Or.inr ⟨first, h1, h2, h3⟩
      · rw [isHexRow_label l (dumpRows_isHexRow recs _ _ _ h)] at hl; cases hl
      · subst h
        rw [sampleLine_label] at hl
        exact Or.inl (Option.some.inj hl).symm
    · simp only [List.mem_cons] at hmem
      rcases hmem with h | h
      · subst h
        simp only [TraceLine.label, Option.some.injEq] at hl
        subst hl
        obtain ⟨_, _, ⟨first, h1, h2, h3, _⟩, _⟩ := stateAt_open recs (i + 1) (by omega) s hs
        exact Or.inr ⟨first, h1, h2, h3⟩
      · rw [isHexRow_label l (dumpRows_isHexRow recs _ _ _ h)] at hl; cases hl

/-! ### The command names only matter for COMMAND writes -/

theorem registerText_codes (c1 c2 : List (Nat × String)) (item : sniffer_item_t) (read : Bool)
    (h : read = true ∨ item.address ≠ ATA_REG_STATUS) :
    registerText c1 item read = registerText c2 item read := by
  unfold registerText
  rcases h with h | h
  · subst h; rfl
  · rw [if_neg h, if_neg h]

theorem stepLines_codes (c1 c2 : List (Nat × String)) (recs : List sniffer_item_t)
    (n i : Nat) (item : sniffer_item_t) (st : DecodeState)
    (h : item.dior = 0 ∨ item.address ≠ ATA_REG_STATUS) :
    stepLines c1 recs n i item st = stepLines c2 recs n i item st := by
  have e : sampleLine c1 i item = sampleLine c2 i item := by
    unfold sampleLine
    rw [registerText_codes c1 c2 item _ (by
      rcases h with h | h
      · exact Or.inl (by simp [h])
      · exact Or.inr h)]
  unfold stepLines sampleLines
  rw [e]

/-- The trace of a sample sequence without COMMAND writes does not depend on the table of
command names. -/
theorem traceOf_codes (c1 c2 : List (Nat × String)) (recs : List sniffer_item_t)
    (h : ∀ item ∈ recs, item.dior = 0 ∨ item.address ≠ ATA_REG_STATUS) :
    traceOf c1 recs = traceOf c2 recs := by
  unfold traceOf
  apply List.flatMap_congr
  intro i _
  cases hrec : recs[i]? with
  | none => rw [linesAt_of_none c1 recs i hrec, linesAt_of_none c2 recs i hrec]
  | some item =>
    rw [linesAt_eq c1 recs i item hrec, linesAt_eq c2 recs i item hrec]
    exact stepLines_codes c1 c2 recs _ i item _ (h item (List.mem_iff_getElem?.mpr ⟨i, hrec⟩))

/-! ## The claims -/

/-- C1. The five-sample scenario (STATUS read 0x50 twice, DATA reads 0x1234 and 0x5678,
STATUS read 0x58) decodes to exactly three trace entries, in this order: the STATUS read
line of index 0, the merged DATA read burst of index 2 reporting 4 bytes (its summary
line and its one hex-dump row), and the STATUS read line of index 4; nothing is emitted
for index 1. The third component gives the text of the lines. -/
theorem scenario_three_entries (ataCodes : List (Nat × String)) :
    samples scenarioFile
        = [⟨0x50, 0x17, 0, 0, 1, 0⟩, ⟨0x50, 0x17, 0, 0, 1, 0⟩, ⟨0x1234, 0x10, 0, 0, 1, 0⟩,
            ⟨0x5678, 0x10, 0, 0, 1, 0⟩, ⟨0x58, 0x17, 0, 0, 1, 0⟩]
      ∧ decodePressed ataCodes scenarioFile
        = [TraceLine.sample 0 0x50 "P" true "STATUS     [ --- DRD --- DSC --- --- --- --- ]"
              Color.darkGreen,
            TraceLine.burst 2 true 4,
            TraceLine.hexRow 0 [0x1234, 0x5678],
            TraceLine.sample 4 0x58 "X" true "STATUS     [ --- DRD --- DSC DRQ --- --- --- ]"
              Color.darkGreen]
      ∧ (decodePressed ataCodes scenarioFile).map TraceLine.text
        = ["00000000: [50|P] << STATUS     [ --- DRD --- DSC --- --- --- --- ]",
            "00000002: [....] << PIO data read (4 bytes)",
            "    0000: 34 12 78 56 | 4.xV",
            "00000004: [58|X] << STATUS     [ --- DRD --- DSC DRQ --- --- --- ]"]
      ∧ (∀ l ∈ decodePressed ataCodes scenarioFile, l.label ≠ some 1) := by
  have e : decodePressed ataCodes scenarioFile = decodePressed [] scenarioFile := by
    rw [decodePressed_eq, decodePressed_eq]
    exact traceOf_codes ataCodes [] _ (by decide)
  rw [e]
  decide

/-! ### Duplicate suppression -/

theorem suppressed_after_status (recs : List sniffer_item_t) (k : Nat) (x y : sniffer_item_t)
    (hk : recs[k]? = some x) (hx : statusRead x) (hy : statusRead y) :
    suppressed (k + 1) y (stateAt recs (k + 1)) ↔ y.data = x.data := by
  have h1 := (stateAt_status recs k x hk).1.mpr hx
  have h2 := (stateAt_status recs k x hk).2 hx
  unfold suppressed
  constructor
  · rintro (h | h)
    · exact absurd h.1 (fun ha => not_status_and_alt y hy ha)
    · rw [h.2.1, h2]
  · intro h
    exact Or.inr ⟨hy, by rw [h, h2], by rw [h1]; push_cast; ring⟩

/-- C3 (counterexample). In the file of four identical STATUS reads, samples 1, 2 and 3 are
correctly framed STATUS reads with identical data, and yet no line is emitted for
index 1. -/
theorem duplicate_run_counterexample :
    (samples fourStatusReads)[1]? = some (statusReadOf 0x50)
      ∧ (samples fourStatusReads)[2]? = some (statusReadOf 0x50)
      ∧ (samples fourStatusReads)[3]? = some (statusReadOf 0x50)
      ∧ statusRead (statusReadOf 0x50)
      ∧ ∀ l ∈ decodePressed [] fourStatusReads, l.label ≠ some 1 := by
  decide

/-- C3 (amended). When samples `k`, `k + 1` and `k + 2` are correctly framed STATUS reads
with identical data (whatever their reserved bits), no line is emitted for index
`k + 1` and none for index `k + 2`; the line of sample `k` is emitted when sample `k`
does not itself repeat its predecessor, that is when `k ≥ 1` and sample `k - 1` is not a
correctly framed STATUS read with the same data, or `k = 0` and the data is not zero. -/
theorem duplicate_run_suppressed (ataCodes : List (Nat × String)) (bytes : List Nat) (k : Nat)
    (x y z : sniffer_item_t) (hk : (samples bytes)[k]? = some x)
    (hk1 : (samples bytes)[k + 1]? = some y) (hk2 : (samples bytes)[k + 2]? = some z)
    (hx : statusRead x) (hy : statusRead y) (hz : statusRead z)
    (hxy : y.data = x.data) (hxz : z.data = x.data) :
    (((k = 0 ∧ x.data ≠ 0)
        ∨ (∃ w, 1 ≤ k ∧ (samples bytes)[k - 1]? = some w ∧ ¬ (statusRead w ∧ w.data = x.data)))
        → sampleLine ataCodes k x ∈ decodePressed ataCodes bytes)
      ∧ (∀ l ∈ decodePressed ataCodes bytes, l.label ≠ some (k + 1))
      ∧ (∀ l ∈ decodePressed ataCodes bytes, l.label ≠ some (k + 2)) := by
  rw [decodePressed_eq]
  have hnd := statusRead_not_data x hx
  have key : ∀ j (a b : sniffer_item_t), (samples bytes)[j]? = some a →
      (samples bytes)[j + 1]? = some b → statusRead a → statusRead b → b.data = a.data →
      ∀ l ∈ traceOf ataCodes (samples bytes), l.label ≠ some (j + 1) := by
    intro j a b hj hj1 ha hb hab l hl hlab
    obtain ⟨i, _, hmem⟩ := (mem_traceOf ataCodes _ l).mp hl
    rcases label_mem_linesAt ataCodes _ i (j + 1) l hmem hlab with h | ⟨first, h1, _, h3⟩
    · subst h
      rw [linesAt_suppressed ataCodes _ (j + 1) b hj1
        ((suppressed_after_status _ j a b hj ha hb).mpr hab)] at hmem
      cases hmem
    · rw [hj1] at h1
      cases h1
      exact statusRead_not_data b hb h3
  refine ⟨?_, key k x y hk hk1 hx hy hxy, key (k + 1) y z hk1 hk2 hy hz (by rw [hxz, hxy])⟩
  intro hfirst
  have hns : ¬ suppressed k x (stateAt (samples bytes) k) := by
    rintro (h | h)
    · exact not_status_and_alt x hx h.1
    · rcases hfirst with ⟨h0, hd⟩ | ⟨w, h1, hw, hnw⟩
      · subst h0
        exact hd h.2.1
      · obtain ⟨j, rfl⟩ : ∃ j, k = j + 1 := ⟨k - 1, by omega⟩
        simp only [Nat.add_sub_cancel] at hw
        have hm := (stateAt_status _ j w hw).1
        have hws : statusRead w := hm.mp (by have := h.2.2; push_cast at this; omega)
        exact hnw ⟨hws, by rw [h.2.1, (stateAt_status _ j w hw).2 hws]⟩
  rw [mem_traceOf]
  refine ⟨k, lt_of_getElem? _ k x hk, ?_⟩
  rw [linesAt_other ataCodes _ k x hk hx.1 hnd hns]
  simp

/-- C3 (witness). The amended statement at a file of three STATUS reads of 0x50 whose
reserved bits differ, `k = 0`. -/
theorem duplicate_run_suppressed_witness :
    ((samples statusReadsReserved)[0]? = some ⟨0x50, 0x17, 0, 0, 1, 0⟩
      ∧ (samples statusReadsReserved)[1]? = some ⟨0x50, 0x17, 1, 0, 1, 1⟩
      ∧ (samples statusReadsReserved)[2]? = some ⟨0x50, 0x17, 7, 0, 1, 63⟩
      ∧ statusRead ⟨0x50, 0x17, 0, 0, 1, 0⟩ ∧ statusRead ⟨0x50, 0x17, 1, 0, 1, 1⟩
      ∧ statusRead ⟨0x50, 0x17, 7, 0, 1, 63⟩)
    ∧ (sampleLine [] 0 ⟨0x50, 0x17, 0, 0, 1, 0⟩ ∈ decodePressed [] statusReadsReserved
      ∧ (∀ l ∈ decodePressed [] statusReadsReserved, l.label ≠ some 1)
      ∧ (∀ l ∈ decodePressed [] statusReadsReserved, l.label ≠ some 2)) :=
  ⟨by decide,
    (duplicate_run_suppressed [] statusReadsReserved 0 ⟨0x50, 0x17, 0, 0, 1, 0⟩
        ⟨0x50, 0x17, 1, 0, 1, 1⟩ ⟨0x50, 0x17, 7, 0, 1, 63⟩ (by decide) (by decide) (by decide)
        (by decide) (by decide) (by decide) rfl rfl).1 (Or.inl (by decide)),
    (duplicate_run_suppressed [] statusReadsReserved 0 ⟨0x50, 0x17, 0, 0, 1, 0⟩
        ⟨0x50, 0x17, 1, 0, 1, 1⟩ ⟨0x50, 0x17, 7, 0, 1, 63⟩ (by decide) (by decide) (by decide)
        (by decide) (by decide) (by decide) rfl rfl).2⟩

/-- C4 (the code at the failing input). A file holding one correctly framed STATUS read
of the value 0 decodes to nothing: the read at index 0 is hidden as a duplicate although
no sample precedes it. The same holds for an ALT_STATUS read of the value 0. -/
theorem first_zero_status_hidden :
    (samples zeroStatusFile = [statusReadOf 0] ∧ statusRead (statusReadOf 0)
        ∧ decodePressed [] zeroStatusFile = [])
      ∧ (samples zeroAltStatusFile = [altStatusReadOf 0] ∧ altStatusRead (altStatusReadOf 0)
        ∧ decodePressed [] zeroAltStatusFile = []) := by
  decide

/-- C5. When samples `k` and `k + 1` are correctly framed STATUS reads with different
data, the single-sample line of index `k + 1` is emitted, whatever sample `k + 2` is; it
is the only line labelled `k + 1`. -/
theorem changed_status_emitted (ataCodes : List (Nat × String)) (bytes : List Nat) (k : Nat)
    (x y : sniffer_item_t) (hk : (samples bytes)[k]? = some x)
    (hk1 : (samples bytes)[k + 1]? = some y) (hx : statusRead x) (hy : statusRead y)
    (hne : x.data ≠ y.data) :
    sampleLine ataCodes (k + 1) y ∈ decodePressed ataCodes bytes
      ∧ (∀ l ∈ decodePressed ataCodes bytes, l.label = some (k + 1) →
          l = sampleLine ataCodes (k + 1) y) := by
  rw [decodePressed_eq]
  have hnd := statusRead_not_data y hy
  have hns : ¬ suppressed (k + 1) y (stateAt (samples bytes) (k + 1)) := by
    rw [suppressed_after_status _ k x y hk hx hy]
    exact fun h => hne h.symm
  have hclosed : (stateAt (samples bytes) (k + 1)).dataStart = -1 :=
    stateAt_marker_closed _ (k + 1) (Or.inl (by
      rw [(stateAt_status _ k x hk).1.mpr hx]; push_cast; ring))
  have hl : linesAt ataCodes (samples bytes) (k + 1) = [sampleLine ataCodes (k + 1) y] := by
    rw [linesAt_other ataCodes _ (k + 1) y hk1 hy.1 hnd hns, closeLines_closed _ _ _ _ hclosed]
    rfl
  constructor
  · rw [mem_traceOf]
    exact ⟨k + 1, lt_of_getElem? _ _ y hk1, by rw [hl]; simp⟩
  · intro l hmem hlab
    obtain ⟨i, _, hmem⟩ := (mem_traceOf ataCodes _ l).mp hmem
    rcases label_mem_linesAt ataCodes _ i (k + 1) l hmem hlab with h | ⟨first, h1, _, h3⟩
    · subst h
      rw [hl] at hmem
      simpa using hmem
    · rw [hk1] at h1
      cases h1
      exact absurd h3 hnd

/-- C5 (witness). The statement at the file of the STATUS reads 0x50, 0x58, 0x58, with
`k = 0`: sample 2 repeats the value of sample 1. -/
theorem changed_status_emitted_witness :
    ((samples changedStatusReads)[0]? = some (statusReadOf 0x50)
      ∧ (samples changedStatusReads)[1]? = some (statusReadOf 0x58)
      ∧ (samples changedStatusReads)[2]? = some (statusReadOf 0x58))
    ∧ sampleLine [] 1 (statusReadOf 0x58) ∈ decodePressed [] changedStatusReads
    ∧ (∀ l ∈ decodePressed [] changedStatusReads, l.label = some 1 →
          l = sampleLine [] 1 (statusReadOf 0x58)) :=
  ⟨by decide, changed_status_emitted [] changedStatusReads 0 (statusReadOf 0x50)
    (statusReadOf 0x58) (by decide) (by decide) (by decide) (by decide) (by decide)⟩

/-- C6. The "INCORRECT STATE!" line of index `i` is emitted exactly when sample `i` has
`dior == diow`; a framing error does not end the decoding: the loop is never left by
`break`, it runs its `samplesCount` iterations, and no read error is reported. -/
theorem incorrect_state_iff (ataCodes : List (Nat × String)) (bytes : List Nat) :
    (∀ i x, (samples bytes)[i]? = some x →
        (TraceLine.incorrectState i ∈ decodePressed ataCodes bytes ↔ x.dior = x.diow))
      ∧ (decodeLoop ataCodes (bytes.length / 4) (bytes.length / 4) 0 ⟨bytes, 0⟩ []
          DecodeState.init).stop = false
      ∧ TraceLine.readError ∉ decodePressed ataCodes bytes := by
  refine ⟨?_, ?_, ?_⟩
  · intro i x hx
    rw [decodePressed_eq, mem_traceOf]
    constructor
    · rintro ⟨j, hj, hmem⟩
      obtain ⟨item, hitem⟩ := getElem?_of_lt _ j hj
      obtain ⟨h1, h2⟩ := incorrectState_mem_linesAt ataCodes _ j i item hitem hmem
      subst h1
      rw [hx] at hitem
      cases hitem
      exact h2
    · intro hm
      exact ⟨i, lt_of_getElem? _ i x hx, by
        rw [linesAt_misframed ataCodes _ i x hx hm]; simp⟩
  · have h := decodeLoop_eq ataCodes bytes (bytes.length / 4) 0 [] (by omega)
    simp only [Nat.mul_zero] at h
    have e : stateAt (samples bytes) 0 = DecodeState.init := rfl
    rw [e] at h
    rw [h]
  · rw [decodePressed_eq, mem_traceOf]
    rintro ⟨j, _, hmem⟩
    exact readError_not_mem_linesAt ataCodes _ j hmem

/-- C6 (witness). The statement at the file of `misframedInFlow`, whose sample 1 is
mis-framed and whose samples 0, 2 and 3 are not. -/
theorem incorrect_state_iff_witness :
    (TraceLine.incorrectState 1 ∈ decodePressed [] misframedInFlow
        ↔ (recordAt misframedInFlow 1).dior = (recordAt misframedInFlow 1).diow)
      ∧ (TraceLine.incorrectState 2 ∈ decodePressed [] misframedInFlow
        ↔ (recordAt misframedInFlow 2).dior = (recordAt misframedInFlow 2).diow) :=
  ⟨(incorrect_state_iff [] misframedInFlow).1 1 _ (by decide),
    (incorrect_state_iff [] misframedInFlow).1 2 _ (by decide)⟩

/-! ### End of input, truncation, the record layout -/

/-- C8 (the code at the failing input). In the file of a DATA read followed by a
mis-framed last sample, the flow opened at index 0 is still open when the input ends
(`dataStart = 0` after the loop), and yet the output holds the "INCORRECT STATE!" line
only: no summary line and no dump. With a correctly framed DATA sample in the last place
the flow is flushed. -/
theorem open_flow_dropped :
    decodePressed [] flowThenMisframed = [TraceLine.incorrectState 1]
      ∧ (decodeLoop [] 2 2 0 ⟨flowThenMisframed, 0⟩ [] DecodeState.init).st.dataStart = 0
      ∧ decodePressed [] flowAtEnd
          = [TraceLine.burst 0 true 4, TraceLine.hexRow 0 [0x1234, 0x2222]] := by
  decide

theorem samples_take (bytes : List Nat) :
    samples (bytes.take (4 * (bytes.length / 4))) = samples bytes := by
  have hlen : (bytes.take (4 * (bytes.length / 4))).length / 4 = bytes.length / 4 := by
    rw [List.length_take]; omega
  unfold samples
  rw [hlen]
  apply List.map_congr_left
  intro i hi
  rw [List.mem_range] at hi
  unfold recordAt
  have e : ∀ p, p < 4 * (bytes.length / 4) →
      (bytes.take (4 * (bytes.length / 4))).getD p 0 = bytes.getD p 0 := by
    intro p hp
    rw [List.getD_eq_getElem?_getD, List.getD_eq_getElem?_getD, List.getElem?_take_of_lt hp]
  rw [e _ (by omega), e _ (by omega), e _ (by omega), e _ (by omega)]

/-- C9 (counterexample). A file of five bytes, one complete record and one more byte,
decodes to exactly the output of its first four bytes, and the output holds no error
line. -/
theorem truncation_counterexample :
    truncatedFile.length % 4 ≠ 0
      ∧ decodePressed [] truncatedFile = decodePressed [] (truncatedFile.take 4)
      ∧ TraceLine.readError ∉ decodePressed [] truncatedFile := by
  decide

/-- C9 (amended). The bytes after the last complete 4-byte record are ignored: the output
for a file is the output for the same file cut on the preceding 4-byte boundary, and it
never holds the read-error line. -/
theorem trailing_bytes_ignored (ataCodes : List (Nat × String)) (bytes : List Nat) :
    decodePressed ataCodes bytes
        = decodePressed ataCodes (bytes.take (4 * (bytes.length / 4)))
      ∧ TraceLine.readError ∉ decodePressed ataCodes bytes := by
  constructor
  · rw [decodePressed_eq, decodePressed_eq, samples_take]
  · rw [decodePressed_eq, mem_traceOf]
    rintro ⟨j, _, hmem⟩
    exact readError_not_mem_linesAt ataCodes _ j hmem

theorem ofBytes_encode (data address dior diow : Nat) (h1 : data < 65536)
    (h2 : address < 32) (h3 : dior < 2) (h4 : diow < 2) :
    sniffer_item_t.ofBytes
      ((data + 2 ^ 16 * address + 2 ^ 24 * dior + 2 ^ 25 * diow) % 256)
      ((data + 2 ^ 16 * address + 2 ^ 24 * dior + 2 ^ 25 * diow) / 2 ^ 8 % 256)
      ((data + 2 ^ 16 * address + 2 ^ 24 * dior + 2 ^ 25 * diow) / 2 ^ 16 % 256)
      ((data + 2 ^ 16 * address + 2 ^ 24 * dior + 2 ^ 25 * diow) / 2 ^ 24 % 256)
      = ⟨data, address, 0, dior, diow, 0⟩ := by
  simp only [sniffer_item_t.ofBytes, sniffer_item_t.mk.injEq, Nat.reducePow]
  refine ⟨?_, ?_, ?_, ?_, ?_, ?_⟩ <;> omega

theorem samples_cons_four (b0 b1 b2 b3 : Nat) (rest : List Nat) :
    samples (b0 :: b1 :: b2 :: b3 :: rest)
      = sniffer_item_t.ofBytes b0 b1 b2 b3 :: samples rest := by
  have hl : (b0 :: b1 :: b2 :: b3 :: rest).length / 4 = rest.length / 4 + 1 := by
    simp only [List.length_cons]; omega
  unfold samples
  rw [hl, List.range_succ_eq_map, List.map_cons, List.map_map]
  congr 1

/-- Every sequence of samples whose fields fit their widths is the sample sequence of a
file, the file of their encodings. -/
theorem samples_encode (ss : List sniffer_item_t) (h : ∀ s ∈ ss, validSample s) :
    samples (ss.flatMap encode) = ss := by
  induction ss with
  | nil => rfl
  | cons s ss ih =>
    obtain ⟨h1, h2, h3, h4, h5, h6⟩ := h s (List.mem_cons_self s ss)
    obtain ⟨data, address, unused1, dior, diow, unused2⟩ := s
    simp only at h1 h2 h3 h4 h5 h6
    subst h5 h6
    rw [List.flatMap_cons]
    simp only [encode, List.cons_append, List.nil_append]
    rw [samples_cons_four, ofBytes_encode data address dior diow h1 h2 h3 h4,
      ih (fun t ht => h t (List.mem_cons_of_mem _ ht))]

/-- C10. Round trip of the sample record: for every sample whose fields fit their widths
(reserved bits zero), the four bytes of `encode` are bytes, and decoding them through
`sniffer_item_t` as `decodePressed` does gives the sample back. -/
theorem decode_encode (s : sniffer_item_t) (h : validSample s) :
    decode (encode s) = some s
      ∧ (encode s).length = 4 ∧ (∀ b ∈ encode s, b < 256)
      ∧ samples (encode s) = [s] := by
  obtain ⟨data, address, unused1, dior, diow, unused2⟩ := s
  obtain ⟨h1, h2, h3, h4, h5, h6⟩ := h
  simp only at h1 h2 h3 h4 h5 h6
  subst h5 h6
  have hitem := ofBytes_encode data address dior diow h1 h2 h3 h4
  refine ⟨?_, rfl, ?_, ?_⟩
  · simp only [decode, encode, readItem, QFile.read, List.drop_zero, List.take_succ_cons,
      List.take_zero]
    rw [hitem]
    simp
  · intro b hb
    simp only [encode, List.mem_cons, List.mem_singleton, List.not_mem_nil, or_false] at hb
    rcases hb with rfl | rfl | rfl | rfl <;> exact Nat.mod_lt _ (by decide)
  · have hl : (encode ⟨data, address, 0, dior, diow, 0⟩).length / 4 = 1 := by simp [encode]
    have hr : List.range 1 = [0] := by decide
    unfold samples
    rw [hl, hr]
    exact congrArg (fun x => [x]) hitem

/-- C10 (witness). The round trip at the sample of a DATA read of 0x1234. -/
theorem decode_encode_witness :
    validSample ⟨0x1234, 0x10, 0, 0, 1, 0⟩
      ∧ encode ⟨0x1234, 0x10, 0, 0, 1, 0⟩ = [0x34, 0x12, 0x10, 0x02]
      ∧ decode (encode ⟨0x1234, 0x10, 0, 0, 1, 0⟩) = some ⟨0x1234, 0x10, 0, 0, 1, 0⟩ :=
  ⟨by decide, by decide, (decode_encode ⟨0x1234, 0x10, 0, 0, 1, 0⟩ (by decide)).1⟩

/-! ### Summary lines and their dumps -/

theorem flatMap_split {α β : Type} (f : α → List β) :
    ∀ (L : List α) (pre post : List β) (x : β), L.flatMap f = pre ++ x :: post →
      ∃ L1 j L2 p1 p2, L = L1 ++ j :: L2 ∧ f j = p1 ++ x :: p2
        ∧ pre = L1.flatMap f ++ p1 ∧ post = p2 ++ L2.flatMap f := by
  intro L
  induction L with
  | nil =>
    intro pre post x h
    simp at h
  | cons j L ih =>
    intro pre post x h
    rw [List.flatMap_cons, List.append_eq_append_iff] at h
    rcases h with ⟨a, ha, hb⟩ | ⟨c, ha, hb⟩
    · obtain ⟨L1, k, L2, p1, p2, h1, h2, h3, h4⟩ := ih a post x hb
      refine ⟨j :: L1, k, L2, p1, p2, by rw [h1]; rfl, h2, ?_, h4⟩
      rw [ha, h3, List.flatMap_cons, List.append_assoc]
    · cases c with
      | nil =>
        simp only [List.nil_append] at hb
        simp only [List.append_nil] at ha
        obtain ⟨L1, k, L2, p1, p2, h1, h2, h3, h4⟩ := ih [] post x (by rw [← hb]; rfl)
        refine ⟨j :: L1, k, L2, p1, p2, by rw [h1]; rfl, h2, ?_, h4⟩
        rw [List.flatMap_cons, ← ha, List.append_assoc, ← h3, List.append_nil]
      | cons y c =>
        simp only [List.cons_append, List.cons.injEq] at hb
        refine ⟨[], j, L, pre, c, rfl, ?_, by simp, hb.2⟩
        rw [ha, hb.1]

theorem linesAt_head (ataCodes : List (Nat × String)) (recs : List sniffer_item_t) (i : Nat)
    (l : TraceLine) (h : (linesAt ataCodes recs i).head? = some l) : l.isHexRow = false := by
  cases hrec : recs[i]? with
  | none => rw [linesAt_of_none ataCodes recs i hrec] at h; cases h
  | some item =>
    rcases linesAt_cases ataCodes recs i item hrec with
      ⟨_, he⟩ | ⟨_, he⟩ | ⟨_, _, _, _, he⟩ | ⟨_, _, _, s, _, _, he⟩ | ⟨_, _, _, s, _, _, he⟩
    all_goals rw [he] at h
    all_goals simp only [List.head?_cons, List.head?_nil, Option.some.injEq] at h
    · subst h; rfl
    · cases h
    · subst h; rfl
    · subst h; rfl
    · subst h; rfl

theorem flatMap_linesAt_head (ataCodes : List (Nat × String)) (recs : List sniffer_item_t) :
    ∀ (L : List Nat) (l : TraceLine),
      (L.flatMap (linesAt ataCodes recs)).head? = some l → l.isHexRow = false := by
  intro L
  induction L with
  | nil => intro l h; simp at h
  | cons j L ih =>
    intro l h
    rw [List.flatMap_cons, List.head?_append] at h
    cases hj : (linesAt ataCodes recs j).head? with
    | none =>
      rw [hj] at h
      exact ih l (by simpa using h)
    | some l' =>
      rw [hj] at h
      simp only [Option.or_some, Option.some.injEq] at h
      subst h
      exact linesAt_head ataCodes recs j _ hj

theorem flowData_append (recs : List sniffer_item_t) (s a b : Nat) :
    flowData recs s (a + b) = flowData recs s a ++ flowData recs (s + a) b := by
  unfold flowData
  rw [List.take_add, List.map_append, List.drop_drop]

theorem flowData_length (recs : List sniffer_item_t) (s m : Nat) (h : s + m ≤ recs.length) :
    (flowData recs s m).length = m := by
  unfold flowData
  rw [List.length_map, List.length_take, List.length_drop]
  omega

theorem flowData_getElem? (recs : List sniffer_item_t) (s m t : Nat) (h : t < m) :
    (flowData recs s m)[t]? = (recs[s + t]?).map sniffer_item_t.data := by
  unfold flowData
  rw [List.getElem?_map, List.getElem?_take_of_lt h, List.getElem?_drop]

theorem rows_words (recs : List sniffer_item_t) :
    ∀ (k s m : Nat), k = (m + 7) / 8 →
      (List.range k).flatMap (fun r => flowData recs (s + 8 * r) (min 8 (m - 8 * r)))
        = flowData recs s m := by
  intro k
  induction k with
  | zero =>
    intro s m h
    have e : m = 0 := by omega
    subst e
    simp [flowData_zero]
  | succ k ih =>
    intro s m h
    rw [List.range_succ_eq_map, List.flatMap_cons, List.flatMap_map]
    have e1 : (fun r => flowData recs (s + 8 * (Nat.succ r)) (min 8 (m - 8 * (Nat.succ r))))
        = (fun r => flowData recs ((s + 8) + 8 * r) (min 8 ((m - 8) - 8 * r))) := by
      funext r
      have a1 : s + 8 * Nat.succ r = s + 8 + 8 * r := by omega
      have a2 : m - 8 * Nat.succ r = m - 8 - 8 * r := by omega
      rw [a1, a2]
    rw [e1, ih (s + 8) (m - 8) (by omega)]
    simp only [Nat.mul_zero, Nat.add_zero, Nat.sub_zero]
    rcases Nat.lt_or_ge m 8 with hlt | hge
    · have a1 : min 8 m = m := by omega
      have a2 : m - 8 = 0 := by omega
      rw [a1, a2, flowData_zero, List.append_nil]
    · have a1 : min 8 m = 8 := by omega
      have a2 : m = 8 + (m - 8) := by omega
      rw [a1]
      conv_rhs => rw [a2]
      rw [flowData_append]

/-- Read row after row, the dump of the samples `s .. s + m - 1` shows their data words in
order. -/
theorem dumpRows_words (recs : List sniffer_item_t) (s m : Nat) :
    (dumpRows recs s m).flatMap TraceLine.words = flowData recs s m := by
  unfold dumpRows
  rw [List.flatMap_map]
  exact rows_words recs _ s m rfl

/-- A summary line in the lines of iteration `j` heads them; it is followed by the dump of
the `m` samples from its label `s` on, then by at most the line of sample `j`; the flow
was open from `s` to `s + m`, and it ends at sample `j` (a sample that does not address
DATA) or includes the last sample `j`. -/
theorem burst_mem_linesAt (ataCodes : List (Nat × String)) (recs : List sniffer_item_t)
    (j s b : Nat) (rd : Bool) (item : sniffer_item_t) (hrec : recs[j]? = some item)
    (hmem : TraceLine.burst s rd b ∈ linesAt ataCodes recs j) :
    ∃ m tail, linesAt ataCodes recs j = TraceLine.burst s rd b :: (dumpRows recs s m ++ tail)
      ∧ (∀ l ∈ tail, l.isBurst = false ∧ l.isHexRow = false)
      ∧ 1 ≤ m ∧ s + m ≤ recs.length ∧ b = 2 * m
      ∧ (stateAt recs (s + m)).dataStart = (s : Int)
      ∧ rd = (stateAt recs (s + m)).dataRead
      ∧ item.dior ≠ item.diow
      ∧ ((s + m = j ∧ item.address ≠ ATA_REG_DATA)
          ∨ (s + m = j + 1 ∧ j + 1 = recs.length ∧ item.address = ATA_REG_DATA)) := by
  have hj := lt_of_getElem? recs j item hrec
  rcases linesAt_cases ataCodes recs j item hrec with
    ⟨_, he⟩ | ⟨_, he⟩ | ⟨_, _, _, _, he⟩ | ⟨hf, hd, _, s', hs, hlt, he⟩
      | ⟨hf, hd, hn, s', hs, hle, he⟩
  · rw [he] at hmem; simp at hmem
  · rw [he] at hmem; cases hmem
  · rw [he] at hmem; simp [sampleLine] at hmem
  · rw [he] at hmem
    simp only [List.mem_cons, List.mem_append, List.mem_singleton, List.not_mem_nil,
      or_false] at hmem
    rcases hmem with h | h | h
    · simp only [TraceLine.burst.injEq] at h
      obtain ⟨h1, h2, h3⟩ := h
      subst h1
      have e : s + (j - s) = j := by omega
      refine ⟨j - s, [sampleLine ataCodes j item], by rw [he, h2, h3], ?_, by omega, by omega,
        h3, by rw [e]; exact hs, by rw [e]; exact h2, hf, Or.inl ⟨e, hd⟩⟩
      intro l hl
      simp only [List.mem_singleton] at hl
      subst hl
      exact ⟨rfl, rfl⟩
    · have := dumpRows_isHexRow recs _ _ _ h; cases this
    · simp [sampleLine] at h
  · rw [he] at hmem
    simp only [List.mem_cons] at hmem
    rcases hmem with h | h
    · simp only [TraceLine.burst.injEq] at h
      obtain ⟨h1, h2, h3⟩ := h
      subst h1
      have e : s + (j + 1 - s) = j + 1 := by omega
      refine ⟨j + 1 - s, [], by rw [he, h2, h3, List.append_nil], ?_, by omega, by omega,
        h3, by rw [e]; exact hs, by rw [e]; exact h2, hf, Or.inr ⟨e, hn, hd⟩⟩
      intro l hl
      cases hl
    · have := dumpRows_isHexRow recs _ _ _ h; cases this

/-- C7 (counterexample). In the file of a DATA read, a mis-framed sample, a DATA read and
a STATUS read, the burst holds two correctly framed DATA samples, and yet its summary
line reports 6 bytes and its dump shows three words, the data 0x2222 of the mis-framed
sample among them. -/
theorem misframed_counted_counterexample :
    samples misframedInFlow
        = [⟨0x1111, 0x10, 0, 0, 1, 0⟩, ⟨0x2222, 0x10, 0, 0, 0, 0⟩, ⟨0x3333, 0x10, 0, 0, 1, 0⟩,
            ⟨0x50, 0x17, 0, 0, 1, 0⟩]
      ∧ ((samples misframedInFlow).filter
          (fun x => decide (x.dior ≠ x.diow ∧ x.address = ATA_REG_DATA))).length = 2
      ∧ decodePressed [] misframedInFlow
        = [TraceLine.incorrectState 1, TraceLine.burst 0 true 6,
            TraceLine.hexRow 0 [0x1111, 0x2222, 0x3333], sampleLine [] 3 (statusReadOf 0x50)]
      ∧ 6 ≠ 2 * 2 := by
  decide

/-- C7 (amended). Every summary line `burst s rd b` of the output is followed by the dump of
the `m` samples of the index range `s .. s + m - 1`, where `b = 2 * m`: the range begins
at the first sample of the flow, a correctly framed DATA sample, and every sample in it
is a correctly framed DATA sample or a mis-framed sample; the dump shows the data of
exactly the samples of the range, in order, mis-framed ones included, and no further
row follows. The range ends just before the sample that closes the flow, a correctly
framed sample that does not address the DATA register (the first one after `s`), or at
the end of the input, the last sample being then a correctly framed DATA sample. -/
theorem burst_length_and_dump (ataCodes : List (Nat × String)) (bytes : List Nat)
    (pre post : List TraceLine) (s b : Nat) (rd : Bool)
    (h : decodePressed ataCodes bytes = pre ++ TraceLine.burst s rd b :: post) :
    ∃ m rest, 1 ≤ m ∧ s + m ≤ (samples bytes).length ∧ b = 2 * m
      ∧ post = dumpRows (samples bytes) s m ++ rest
      ∧ (∀ l, rest.head? = some l → l.isHexRow = false)
      ∧ (dumpRows (samples bytes) s m).flatMap TraceLine.words = flowData (samples bytes) s m
      ∧ (∀ t, t < m →
          (flowData (samples bytes) s m)[t]? = ((samples bytes)[s + t]?).map sniffer_item_t.data)
      ∧ (∃ first, (samples bytes)[s]? = some first ∧ first.dior ≠ first.diow
          ∧ first.address = ATA_REG_DATA)
      ∧ (∀ j x, s ≤ j → j < s + m → (samples bytes)[j]? = some x →
          x.dior = x.diow ∨ (x.dior ≠ x.diow ∧ x.address = ATA_REG_DATA))
      ∧ ((∃ c, (samples bytes)[s + m]? = some c ∧ c.dior ≠ c.diow
            ∧ c.address ≠ ATA_REG_DATA)
          ∨ (s + m = (samples bytes).length
            ∧ ∃ c, (samples bytes)[s + m - 1]? = some c ∧ c.dior ≠ c.diow
              ∧ c.address = ATA_REG_DATA)) := by
  rw [decodePressed_eq] at h
  obtain ⟨L1, j, L2, p1, p2, hL, hj, _, hpost⟩ :=
    flatMap_split (linesAt ataCodes (samples bytes)) _ pre post _ h
  have hmem : TraceLine.burst s rd b ∈ linesAt ataCodes (samples bytes) j := by
    rw [hj]; simp
  have hjlt : j < (samples bytes).length := by
    have : j ∈ List.range (samples bytes).length := by rw [hL]; simp
    exact List.mem_range.mp this
  obtain ⟨item, hrec⟩ := getElem?_of_lt _ j hjlt
  obtain ⟨m, tail, hl, htail, hm1, hm2, hb, hopen, _, hframed, hend⟩ :=
    burst_mem_linesAt ataCodes _ j s b rd item hrec hmem
  have hp : p1 = [] ∧ p2 = dumpRows (samples bytes) s m ++ tail := by
    rw [hl] at hj
    cases p1 with
    | nil =>
      simp only [List.nil_append, List.cons.injEq, true_and] at hj
      exact ⟨rfl, hj.symm⟩
    | cons a p1 =>
      simp only [List.cons_append, List.cons.injEq] at hj
      have hin : TraceLine.burst s rd b ∈ dumpRows (samples bytes) s m ++ tail := by
        rw [hj.2]; simp
      rw [List.mem_append] at hin
      rcases hin with hin | hin
      · have := dumpRows_isHexRow _ _ _ _ hin; cases this
      · have := (htail _ hin).1; cases this
  obtain ⟨_, _, ⟨first, hf1, hf2, hf3, _⟩, hrange⟩ :=
    stateAt_open (samples bytes) (s + m) hm2 s hopen
  refine ⟨m, tail ++ L2.flatMap (linesAt ataCodes (samples bytes)), hm1, hm2, hb, ?_, ?_,
    dumpRows_words _ s m, fun t ht => flowData_getElem? _ s m t ht, ⟨first, hf1, hf2, hf3⟩, ?_,
    ?_⟩
  · rw [hpost, hp.2, List.append_assoc]
  · intro l hl'
    rw [List.head?_append] at hl'
    cases ht : tail.head? with
    | none =>
      rw [ht] at hl'
      exact flatMap_linesAt_head ataCodes _ L2 l (by simpa using hl')
    | some l' =>
      rw [ht] at hl'
      simp only [Option.or_some, Option.some.injEq] at hl'
      subst hl'
      exact (htail _ (List.mem_of_mem_head? ht)).2
  · intro j x hj1 hj2 hx
    rcases hrange j x hj1 hj2 hx with h1 | h1
    · exact Or.inl h1
    · by_cases hm : x.dior = x.diow
      · exact Or.inl hm
      · exact Or.inr ⟨hm, h1⟩
  · rcases hend with ⟨e, hd⟩ | ⟨e, hn, hd⟩
    · exact Or.inl ⟨item, by rw [e]; exact hrec, hframed, hd⟩
    · refine Or.inr ⟨by rw [e]; exact hn, item, ?_, hframed, hd⟩
      rw [e, Nat.add_sub_cancel]
      exact hrec

/-- C7 (witness). The amended statement at the file of `misframedInFlow`: the summary
line of its burst reports 6 bytes for the three samples 0, 1 and 2. -/
theorem burst_length_and_dump_witness :
    decodePressed [] misframedInFlow
        = [TraceLine.incorrectState 1] ++ TraceLine.burst 0 true 6
            :: [TraceLine.hexRow 0 [0x1111, 0x2222, 0x3333], sampleLine [] 3 (statusReadOf 0x50)]
      ∧ ∃ m rest, 1 ≤ m ∧ 0 + m ≤ (samples misframedInFlow).length ∧ 6 = 2 * m
        ∧ [TraceLine.hexRow 0 [0x1111, 0x2222, 0x3333], sampleLine [] 3 (statusReadOf 0x50)]
            = dumpRows (samples misframedInFlow) 0 m ++ rest
        ∧ (∀ l, rest.head? = some l → l.isHexRow = false)
        ∧ (dumpRows (samples misframedInFlow) 0 m).flatMap TraceLine.words
            = flowData (samples misframedInFlow) 0 m
        ∧ (∀ t, t < m → (flowData (samples misframedInFlow) 0 m)[t]?
            = ((samples misframedInFlow)[0 + t]?).map sniffer_item_t.data)
        ∧ (∃ first, (samples misframedInFlow)[0]? = some first ∧ first.dior ≠ first.diow
            ∧ first.address = ATA_REG_DATA)
        ∧ (∀ j x, 0 ≤ j → j < 0 + m → (samples misframedInFlow)[j]? = some x →
            x.dior = x.diow ∨ (x.dior ≠ x.diow ∧ x.address = ATA_REG_DATA))
        ∧ ((∃ c, (samples misframedInFlow)[0 + m]? = some c ∧ c.dior ≠ c.diow
              ∧ c.address ≠ ATA_REG_DATA)
            ∨ (0 + m = (samples misframedInFlow).length
              ∧ ∃ c, (samples misframedInFlow)[0 + m - 1]? = some c ∧ c.dior ≠ c.diow
                ∧ c.address = ATA_REG_DATA)) :=
  ⟨by decide,
    burst_length_and_dump [] misframedInFlow [TraceLine.incorrectState 1]
      [TraceLine.hexRow 0 [0x1111, 0x2222, 0x3333], sampleLine [] 3 (statusReadOf 0x50)]
      0 6 true (by decide)⟩

/-! ### Maximal runs of DATA samples, all samples being correctly framed -/

theorem range_split (n e : Nat) (h : e < n) :
    List.range n = List.range' 0 e ++ e :: List.range' (e + 1) (n - e - 1) := by
  obtain ⟨k, rfl⟩ : ∃ k, n = e + 1 + k := ⟨n - e - 1, by omega⟩
  have h1 := List.range'_append_1 0 e (k + 1)
  have e1 : e + 1 + k = k + 1 + e := by omega
  have e2 : e + 1 + k - e - 1 = k := by omega
  rw [List.range_eq_range', e2, e1, ← h1, Nat.zero_add, List.range'_succ]

theorem maximalRun_unique (recs : List sniffer_item_t) (a N M : Nat)
    (h1 : maximalRun recs a N) (h2 : maximalRun recs a M) : N = M := by
  obtain ⟨_, hN, hrunN, _, hrightN⟩ := h1
  obtain ⟨_, hM, hrunM, _, hrightM⟩ := h2
  rcases Nat.lt_trichotomy N M with h | h | h
  · obtain ⟨x, hx⟩ := getElem?_of_lt recs (a + N) (by omega)
    exact absurd (hrunM (a + N) x (by omega) (by omega) hx) (hrightN x hx)
  · exact h
  · obtain ⟨x, hx⟩ := getElem?_of_lt recs (a + M) (by omega)
    exact absurd (hrunN (a + M) x (by omega) (by omega) hx) (hrightM x hx)

/-- All samples being correctly framed, a summary line in the lines of iteration `j` is
that of a maximal run of DATA samples, which ends just before sample `j` or with the
last sample `j`. -/
theorem burst_run (ataCodes : List (Nat × String)) (recs : List sniffer_item_t)
    (hfr : ∀ x ∈ recs, x.dior ≠ x.diow) (j s b : Nat) (rd : Bool)
    (hmem : TraceLine.burst s rd b ∈ linesAt ataCodes recs j) :
    ∃ m, maximalRun recs s m ∧ b = 2 * m
      ∧ ((s + m = j ∧ j < recs.length) ∨ (s + m = j + 1 ∧ j + 1 = recs.length)) := by
  cases hrec : recs[j]? with
  | none => rw [linesAt_of_none ataCodes recs j hrec] at hmem; cases hmem
  | some item =>
    have hjlt := lt_of_getElem? recs j item hrec
    obtain ⟨m, tail, _, _, hm1, hm2, hb, hopen, _, _, hj⟩ :=
      burst_mem_linesAt ataCodes recs j s b rd item hrec hmem
    obtain ⟨_, hclosed, _, hrange⟩ := stateAt_open recs (s + m) hm2 s hopen
    refine ⟨m, ⟨hm1, hm2, ?_, ?_, ?_⟩, hb, ?_⟩
    · intro k x hk1 hk2 hx
      rcases hrange k x hk1 hk2 hx with h | h
      · exact absurd h (hfr x (List.mem_iff_getElem?.mpr ⟨k, hx⟩))
      · exact h
    · intro x hs hx
      obtain ⟨p, rfl⟩ : ∃ p, s = p + 1 := ⟨s - 1, by omega⟩
      simp only [Nat.add_sub_cancel] at hx
      exact (stateAt_closed_iff recs p x hx
        (hfr x (List.mem_iff_getElem?.mpr ⟨p, hx⟩))).mp hclosed
    · intro x hx
      rcases hj with ⟨h1, h2⟩ | ⟨h1, h2, _⟩
      · rw [h1, hrec] at hx
        cases hx
        exact h2
      · have := lt_of_getElem? recs _ x hx
        omega
    · rcases hj with ⟨h1, _⟩ | ⟨h1, h2, _⟩
      · exact Or.inl ⟨h1, hjlt⟩
      · exact Or.inr ⟨h1, h2⟩

/-- All samples being correctly framed, the flow of a maximal run stays open, with the
direction of its first sample, over the whole run. -/
theorem run_state (recs : List sniffer_item_t) (hfr : ∀ x ∈ recs, x.dior ≠ x.diow)
    (a N : Nat) (first : sniffer_item_t) (hrun : maximalRun recs a N)
    (hfirst : recs[a]? = some first) :
    ∀ t, t < N → (stateAt recs (a + t + 1)).dataStart = (a : Int)
      ∧ (stateAt recs (a + t + 1)).dataRead = decide (first.dior = 0) := by
  obtain ⟨_, hN, hdata, hleft, _⟩ := hrun
  intro t
  induction t with
  | zero =>
    intro _
    have hd := hdata a first (by omega) (by omega) hfirst
    have hf := hfr first (List.mem_iff_getElem?.mpr ⟨a, hfirst⟩)
    have h0 : (stateAt recs a).dataStart = -1 := by
      rcases Nat.eq_zero_or_pos a with h | h
      · subst h; rfl
      · obtain ⟨p, rfl⟩ : ∃ p, a = p + 1 := ⟨a - 1, by omega⟩
        obtain ⟨y, hy⟩ := getElem?_of_lt recs p (by omega)
        exact (stateAt_closed_iff recs p y hy
          (hfr y (List.mem_iff_getElem?.mpr ⟨p, hy⟩))).mpr
          (hleft y (by omega) (by simpa using hy))
    rw [Nat.add_zero, stateAt_succ recs a first hfirst, (step_data [] recs 0 a first _ hf hd).1,
      dataBegins_dataStart, dataBegins_dataRead, if_pos ⟨hd, h0⟩, if_pos ⟨hd, h0⟩]
    exact ⟨rfl, rfl⟩
  | succ t ih =>
    intro ht
    obtain ⟨ih1, ih2⟩ := ih (by omega)
    obtain ⟨x, hx⟩ := getElem?_of_lt recs (a + t + 1) (by omega)
    have hd := hdata (a + t + 1) x (by omega) (by omega) hx
    have hf := hfr x (List.mem_iff_getElem?.mpr ⟨a + t + 1, hx⟩)
    have hne : ¬ (x.address = ATA_REG_DATA ∧ (stateAt recs (a + t + 1)).dataStart = -1) := by
      rw [ih1]; omega
    have e : a + (t + 1) + 1 = (a + t + 1) + 1 := by omega
    rw [e, stateAt_succ recs (a + t + 1) x hx, (step_data [] recs 0 _ x _ hf hd).1,
      dataBegins_dataStart, dataBegins_dataRead, if_neg hne, if_neg hne]
    exact ⟨ih1, ih2⟩

/-- All samples being correctly framed, the iteration that ends a maximal run appends the
summary line of the run, its dump and at most the line of the closing sample. -/
theorem run_lines (ataCodes : List (Nat × String)) (recs : List sniffer_item_t)
    (hfr : ∀ x ∈ recs, x.dior ≠ x.diow) (a N : Nat) (first : sniffer_item_t)
    (hrun : maximalRun recs a N) (hfirst : recs[a]? = some first) :
    ∃ e tail, e < recs.length
      ∧ ((a + N = e) ∨ (a + N = e + 1 ∧ e + 1 = recs.length))
      ∧ linesAt ataCodes recs e
        = TraceLine.burst a (decide (first.dior = 0)) (2 * N) :: (dumpRows recs a N ++ tail)
      ∧ (∀ l ∈ tail, l.isBurst = false ∧ l.isHexRow = false) := by
  have hst := run_state recs hfr a N first hrun hfirst (N - 1) (by have := hrun.1; omega)
  obtain ⟨hN1, hN, hdata, _, hright⟩ := hrun
  have e1 : a + (N - 1) + 1 = a + N := by omega
  rw [e1] at hst
  obtain ⟨hs1, hs2⟩ := hst
  rcases Nat.lt_or_ge (a + N) recs.length with hlt | hge
  · obtain ⟨item, hitem⟩ := getElem?_of_lt recs (a + N) hlt
    have hd := hright item hitem
    have hf := hfr item (List.mem_iff_getElem?.mpr ⟨a + N, hitem⟩)
    have hns : ¬ suppressed (a + N) item (stateAt recs (a + N)) := by
      intro h
      have hc := stateAt_marker_closed recs (a + N) (by
        rcases h with h | h
        · exact Or.inr h.2.2
        · exact Or.inl h.2.2)
      omega
    refine ⟨a + N, [sampleLine ataCodes (a + N) item], hlt, Or.inl rfl, ?_, ?_⟩
    · rw [linesAt_other ataCodes recs (a + N) item hitem hf hd hns,
        closeLines_open recs (a + N) item _ a hd hs1 (by omega), hs2, Nat.add_sub_cancel_left]
      rfl
    · intro l hl
      simp only [List.mem_singleton] at hl
      subst hl
      exact ⟨rfl, rfl⟩
  · obtain ⟨j, hj⟩ : ∃ j, a + N = j + 1 := ⟨a + N - 1, by omega⟩
    obtain ⟨item, hitem⟩ := getElem?_of_lt recs j (by omega)
    have hd := hdata j item (by omega) (by omega) hitem
    have hf := hfr item (List.mem_iff_getElem?.mpr ⟨j, hitem⟩)
    have e2 : j + 1 - a = N := by omega
    refine ⟨j, [], by omega, Or.inr ⟨hj, by omega⟩, ?_, ?_⟩
    · rw [linesAt_data ataCodes recs j item hitem hf hd, ← hj,
        eofLines_open recs _ j _ a hs1 (by omega) (by omega), hs2, e2, List.append_nil]
    · intro l hl
      cases hl

/-- C2. All samples being correctly framed: (1) for every maximal run of `N ≥ 1`
consecutive DATA samples beginning at index `a`, the output holds the summary line
labelled `a`, with the direction of sample `a` and the byte count `2 N`, followed by the
`ceil(N / 8)` rows of the dump of the run and by no further row, and no other summary
line of the output is labelled `a`; (2) every summary line of the output is that of
such a run. -/
theorem data_run_one_summary (ataCodes : List (Nat × String)) (bytes : List Nat)
    (hfr : ∀ x ∈ samples bytes, x.dior ≠ x.diow) :
    (∀ a N first, maximalRun (samples bytes) a N → (samples bytes)[a]? = some first →
      ∃ pre post,
        decodePressed ataCodes bytes
          = pre ++ TraceLine.burst a (decide (first.dior = 0)) (2 * N)
              :: (dumpRows (samples bytes) a N ++ post)
        ∧ (dumpRows (samples bytes) a N).length = (N + 7) / 8
        ∧ (∀ l ∈ dumpRows (samples bytes) a N, l.isHexRow = true)
        ∧ (∀ l, post.head? = some l → l.isHexRow = false)
        ∧ (∀ l ∈ pre ++ post, ¬ (l.isBurst = true ∧ l.label = some a)))
    ∧ (∀ s rd b, TraceLine.burst s rd b ∈ decodePressed ataCodes bytes →
        ∃ N, maximalRun (samples bytes) s N ∧ b = 2 * N) := by
  rw [decodePressed_eq]
  constructor
  · intro a N first hrun hfirst
    obtain ⟨e, tail, he, hend, hl, htail⟩ :=
      run_lines ataCodes (samples bytes) hfr a N first hrun hfirst
    have honly : ∀ j l, l ∈ linesAt ataCodes (samples bytes) j →
        l.isBurst = true → l.label = some a → j = e := by
      intro j l hmem hb hlab
      cases l with
      | burst s rd b =>
        simp only [TraceLine.label, Option.some.injEq] at hlab
        subst hlab
        obtain ⟨m, hm, _, hidx⟩ := burst_run ataCodes (samples bytes) hfr j s b rd hmem
        have := maximalRun_unique _ s N m hrun hm
        omega
      | readError => cases hb
      | incorrectState i => cases hb
      | hexRow o d => cases hb
      | sample i lo asc r s c => cases hb
    refine ⟨(List.range' 0 e).flatMap (linesAt ataCodes (samples bytes)),
      tail ++ (List.range' (e + 1) ((samples bytes).length - e - 1)).flatMap
        (linesAt ataCodes (samples bytes)), ?_, dumpRows_length _ a N,
      fun l hl' => dumpRows_isHexRow _ a N l hl', ?_, ?_⟩
    · unfold traceOf
      rw [range_split _ e he, List.flatMap_append, List.flatMap_cons, hl]
      simp only [List.cons_append, List.append_assoc]
    · intro l hl'
      rw [List.head?_append] at hl'
      cases ht : tail.head? with
      | none =>
        rw [ht] at hl'
        exact flatMap_linesAt_head ataCodes _ _ l (by simpa using hl')
      | some l' =>
        rw [ht] at hl'
        simp only [Option.or_some, Option.some.injEq] at hl'
        subst hl'
        exact (htail _ (List.mem_of_mem_head? ht)).2
    · intro l hl' hbl
      simp only [List.mem_append, List.mem_flatMap, List.mem_range'_1] at hl'
      rcases hl' with ⟨j, hj, hmem⟩ | hmem | ⟨j, hj, hmem⟩
      · have := honly j l hmem hbl.1 hbl.2
        omega
      · have h1 := (htail l hmem).1
        rw [hbl.1] at h1
        cases h1
      · have := honly j l hmem hbl.1 hbl.2
        omega
  · intro s rd b hmem
    obtain ⟨j, _, hmem⟩ := (mem_traceOf ataCodes _ _).mp hmem
    obtain ⟨m, hm, hb, _⟩ := burst_run ataCodes (samples bytes) hfr j s b rd hmem
    exact ⟨m, hm, hb⟩

theorem scenario_samples :
    samples scenarioFile
      = [statusReadOf 0x50, statusReadOf 0x50, ⟨0x1234, 0x10, 0, 0, 1, 0⟩,
          ⟨0x5678, 0x10, 0, 0, 1, 0⟩, statusReadOf 0x58] := by
  decide

theorem scenario_run : maximalRun (samples scenarioFile) 2 2 := by
  rw [scenario_samples]
  refine ⟨by decide, by decide, ?_, ?_, ?_⟩
  · intro j x h1 h2 hx
    have hj : j = 2 ∨ j = 3 := by omega
    rcases hj with rfl | rfl
    · simp only [List.getElem?_cons_succ, List.getElem?_cons_zero, Option.some.injEq] at hx
      subst hx
      decide
    · simp only [List.getElem?_cons_succ, List.getElem?_cons_zero, Option.some.injEq] at hx
      subst hx
      decide
  · intro x _ hx
    simp only [Nat.add_one_sub_one, List.getElem?_cons_succ, List.getElem?_cons_zero,
      Option.some.injEq] at hx
    subst hx
    decide
  · intro x hx
    simp only [Nat.reduceAdd, List.getElem?_cons_succ, List.getElem?_cons_zero,
      Option.some.injEq] at hx
    subst hx
    decide

/-- C2 (witness). The statement at the file of the five-sample scenario, whose samples are
all correctly framed, and at its maximal run of the two DATA reads 2 and 3. -/
theorem data_run_one_summary_witness :
    (∀ x ∈ samples scenarioFile, x.dior ≠ x.diow)
      ∧ maximalRun (samples scenarioFile) 2 2
      ∧ ∃ pre post,
        decodePressed [] scenarioFile
          = pre ++ TraceLine.burst 2 true (2 * 2) :: (dumpRows (samples scenarioFile) 2 2 ++ post)
        ∧ (dumpRows (samples scenarioFile) 2 2).length = (2 + 7) / 8
        ∧ (∀ l ∈ dumpRows (samples scenarioFile) 2 2, l.isHexRow = true)
        ∧ (∀ l, post.head? = some l → l.isHexRow = false)
        ∧ (∀ l ∈ pre ++ post, ¬ (l.isBurst = true ∧ l.label = some 2)) :=
  ⟨by decide, scenario_run,
    (data_run_one_summary [] scenarioFile (by decide)).1 2 2 ⟨0x1234, 0x10, 0, 0, 1, 0⟩
      scenario_run (by decide)⟩

/-! ### The register map and the flag names -/

/-- C11. The register lookup of `decodePressed` is a total function of the address and the
direction: 0x0e is ALT_STATUS on read and DEVICE_CONTROL on write, 0x17 is STATUS on read
and COMMAND on write, 0x11 is ERROR on read and FEATURES on write, 0x10 is DATA, 0x12 is
SECTOR_COUNT, 0x13 to 0x16 are LBA_LOW, LBA_MID, LBA_HIGH, LBA_DEVICE, and every other
address (23 of the 32 five-bit addresses) gives the unknown-register text with the
address as two hex digits; the nine numbers are the values of the macros of
`AtaRegisters.h` and are pairwise distinct. -/
theorem register_lookup_total (ataCodes : List (Nat × String)) (item : sniffer_item_t) :
    (item.address = 0x0e →
        registerText ataCodes item true = "ALT_STATUS [ " ++ ataStatus (item.data % 256) ++ " ]"
          ∧ registerText ataCodes item false = "DEVICE_CONTROL")
      ∧ (item.address = 0x17 →
        registerText ataCodes item true = "STATUS     [ " ++ ataStatus (item.data % 256) ++ " ]"
          ∧ registerText ataCodes item false
              = "COMMAND (" ++ ataCommand ataCodes (item.data % 256) ++ ")")
      ∧ (item.address = 0x11 →
        registerText ataCodes item true = "ERROR      [ " ++ ataError (item.data % 256) ++ " ]"
          ∧ registerText ataCodes item false = "FEATURES")
      ∧ (∀ read, (item.address = 0x10 → registerText ataCodes item read = "DATA")
          ∧ (item.address = 0x12 → registerText ataCodes item read = "SECTOR_COUNT")
          ∧ (item.address = 0x13 → registerText ataCodes item read = "LBA_LOW")
          ∧ (item.address = 0x14 → registerText ataCodes item read = "LBA_MID")
          ∧ (item.address = 0x15 → registerText ataCodes item read = "LBA_HIGH")
          ∧ (item.address = 0x16 → registerText ataCodes item read = "LBA_DEVICE")
          ∧ (item.address ∉ registerAddresses →
              registerText ataCodes item read
                = "UNKNOWN REGISTER (0x" ++ hexArg item.address 2 ++ ")"))
      ∧ (∀ a, a < 32 → (hexArg a 2).length = 2)
      ∧ [ATA_REG_ALT_STATUS, ATA_REG_STATUS, ATA_REG_ERROR, ATA_REG_DATA, ATA_REG_SECTOR_COUNT,
          ATA_REG_LBA_LOW, ATA_REG_LBA_MID, ATA_REG_LBA_HIGH, ATA_REG_LBA_DEVICE]
          = registerAddresses
      ∧ [ATA_REG_DEVICE_CONTROL, ATA_REG_COMMAND, ATA_REG_FEATURES] = [0x0e, 0x17, 0x11]
      ∧ registerAddresses.Nodup
      ∧ ((List.range 32).filter fun a => decide (a ∉ registerAddresses)).length = 23 := by
  have e1 : ATA_REG_ALT_STATUS = 14 := by decide
  have e2 : ATA_REG_STATUS = 23 := by decide
  have e3 : ATA_REG_ERROR = 17 := by decide
  have e4 : ATA_REG_DATA = 16 := by decide
  have e5 : ATA_REG_SECTOR_COUNT = 18 := by decide
  have e6 : ATA_REG_LBA_LOW = 19 := by decide
  have e7 : ATA_REG_LBA_MID = 20 := by decide
  have e8 : ATA_REG_LBA_HIGH = 21 := by decide
  have e9 : ATA_REG_LBA_DEVICE = 22 := by decide
  refine ⟨?_, ?_, ?_, ?_, by decide, by decide, by decide, by decide, by decide⟩
  · intro h
    simp [registerText, h, e1]
  · intro h
    simp [registerText, h, e1, e2]
  · intro h
    simp [registerText, h, e1, e2, e3]
  · intro read
    refine ⟨?_, ?_, ?_, ?_, ?_, ?_, ?_⟩
    · intro h; simp [registerText, h, e1, e2, e3, e4]
    · intro h; simp [registerText, h, e1, e2, e3, e4, e5]
    · intro h; simp [registerText, h, e1, e2, e3, e4, e5, e6]
    · intro h; simp [registerText, h, e1, e2, e3, e4, e5, e6, e7]
    · intro h; simp [registerText, h, e1, e2, e3, e4, e5, e6, e7, e8]
    · intro h; simp [registerText, h, e1, e2, e3, e4, e5, e6, e7, e8, e9]
    · intro h
      simp only [registerAddresses, List.mem_cons, List.mem_singleton, List.not_mem_nil,
        or_false, not_or] at h
      obtain ⟨h1, h2, h3, h4, h5, h6, h7, h8, h9⟩ := h
      simp only [registerText, e1, e2, e3, e4, e5, e6, e7, e8, e9]
      rw [if_neg h1, if_neg h2, if_neg h3, if_neg h4, if_neg h5, if_neg h6, if_neg h7,
        if_neg h8, if_neg h9]

set_option maxRecDepth 100000 in
/-- C13. For every byte value, `ataStatus` and `ataError` return exactly eight tokens
separated by single blanks, most significant bit first: token `j` is the `j`-th name of
the function when bit `7 - j` of the byte is set and "---" when it is clear. -/
theorem flags_eight_tokens :
    ∀ byte, byte < 256 →
      ataStatus byte = " ".intercalate (flagTokens statusNames byte)
        ∧ ataError byte = " ".intercalate (flagTokens errorNames byte)
        ∧ (flagTokens statusNames byte).length = 8
        ∧ (flagTokens errorNames byte).length = 8 := by
  decide

/-- C13 (witness). The statement at the byte 0x50. -/
theorem flags_eight_tokens_witness :
    ataStatus 0x50 = "--- DRD --- DSC --- --- --- ---"
      ∧ ataError 0x50 = "--- UNC --- INF --- --- --- ---" :=
  ⟨(flags_eight_tokens 0x50 (by decide)).1, (flags_eight_tokens 0x50 (by decide)).2.1⟩

/-- C14 (counterexample). `ataStatus 0xFF` is not the text of the names BSY, DRDY, DF, DSC,
DRQ, CORR, IDX, ERR. -/
theorem status_names_counterexample :
    decide (ataStatus 0xff = "BSY DRDY DF DSC DRQ CORR IDX ERR") = false
      ∧ (ataStatus 0xff).length = 31 := by
  decide

/-- C14 (amended). The flag names used for STATUS and ALT_STATUS reads are, from bit 7 down to
bit 0, BSY, DRD, DWF, DSC, DRQ, CRR, IDX, ERR: `ataStatus 0xFF` renders exactly these
eight names in this order, and it is `ataStatus` that the register text of a STATUS or
ALT_STATUS read holds. -/
theorem status_names (ataCodes : List (Nat × String)) :
    ataStatus 0xff = "BSY DRD DWF DSC DRQ CRR IDX ERR"
      ∧ registerText ataCodes (statusReadOf 0xff) true
          = "STATUS     [ BSY DRD DWF DSC DRQ CRR IDX ERR ]"
      ∧ registerText ataCodes (altStatusReadOf 0xff) true
          = "ALT_STATUS [ BSY DRD DWF DSC DRQ CRR IDX ERR ]" := by
  refine ⟨by decide, ?_, ?_⟩
  · rw [registerText_codes ataCodes [] _ true (Or.inl rfl)]; decide
  · rw [registerText_codes ataCodes [] _ true (Or.inl rfl)]; decide

/-! ### The layout of the dump -/

theorem hexArg_length_of_lt (n w : Nat) (hw : 0 < w) (h : n < 16 ^ w) :
    (hexArg n w).length = w := by
  unfold hexArg
  rw [String.length_mk, List.length_append, List.length_replicate]
  have hlen : (Nat.toDigits 16 n).length ≤ w :=
    Nat.toDigitsCore_length 16 (by decide) (n + 1) n w h hw
  omega

theorem hexArg_length (n : Nat) :
    4 ≤ (hexArg n 4).length ∧ (n < 65536 → (hexArg n 4).length = 4) := by
  refine ⟨?_, fun h => hexArg_length_of_lt n 4 (by decide) (by simpa using h)⟩
  unfold hexArg
  rw [String.length_mk, List.length_append, List.length_replicate]
  omega

theorem hexColumns_data (data : List Nat) :
    (hexColumns data).1.data = (byteSeq data).flatMap (fun b => (hexArg b 2).data ++ [' '])
      ∧ (hexColumns data).2.data = (byteSeq data).flatMap (fun b => (asciiOf b).data) := by
  induction data with
  | nil => exact ⟨rfl, rfl⟩
  | cons w ws ih =>
    obtain ⟨ih1, ih2⟩ := ih
    constructor
    · simp only [hexColumns, String.data_append, ih1, byteSeq, List.flatMap_cons,
        List.cons_append, List.nil_append, List.append_assoc]
    · simp only [hexColumns, String.data_append, ih2, byteSeq, List.flatMap_cons,
        List.cons_append, List.nil_append, List.append_assoc]

theorem byteSeq_length (data : List Nat) : (byteSeq data).length = 2 * data.length := by
  induction data with
  | nil => rfl
  | cons w ws ih =>
    simp only [byteSeq, List.flatMap_cons, List.length_append, List.length_cons,
      List.length_nil] at ih ⊢
    omega

theorem dumpRows_getElem? (recs : List sniffer_item_t) (offset length r : Nat)
    (h : r < (length + 7) / 8) :
    (dumpRows recs offset length)[r]?
      = some (TraceLine.hexRow (16 * r)
          (flowData recs (offset + 8 * r) (min (8 * r + 8) length - 8 * r))) := by
  have e : min 8 (length - 8 * r) = min (8 * r + 8) length - 8 * r := by omega
  unfold dumpRows
  rw [List.getElem?_map, List.getElem?_range h]
  simp only [Option.map_some', e]

theorem dumpRows_bytes (recs : List sniffer_item_t) (offset length : Nat) :
    (dumpRows recs offset length).flatMap (fun l => byteSeq l.words)
      = byteSeq (flowData recs offset length) := by
  rw [← dumpRows_words recs offset length]
  unfold byteSeq
  rw [List.flatMap_assoc]

theorem getD_replicate_zero (n k : Nat) : (List.replicate n 0).getD k 0 = 0 := by
  rw [List.getD_eq_getElem?_getD, List.getElem?_replicate]
  split_ifs <;> rfl

theorem recordAt_replicate_zero (n i : Nat) :
    recordAt (List.replicate n 0) i = sniffer_item_t.ofBytes 0 0 0 0 := by
  unfold recordAt
  rw [getD_replicate_zero, getD_replicate_zero, getD_replicate_zero, getD_replicate_zero]

theorem longFlowFile_length : longFlowFile.length / 4 = 32769 := by
  have h : longFlowFile.length = 131076 := List.length_replicate _ _
  omega

theorem longFlowFile_last :
    (samples longFlowFile)[32768]? = some (sniffer_item_t.ofBytes 0 0 0 0) := by
  rw [samples_getElem? longFlowFile 32768 (by have := longFlowFile_length; omega)]
  exact congrArg some (recordAt_replicate_zero 131076 32768)

theorem longFlowFile_row :
    (printHexData ⟨longFlowFile, 0⟩ 0 32769 []).2[4096]?
      = some (TraceLine.hexRow 65536 [0]) := by
  rw [printHexData_eq longFlowFile 0 0 32769 [] (by have := longFlowFile_length; omega),
    List.nil_append, dumpRows_getElem? _ 0 32769 4096 (by omega)]
  have e1 : 0 + 8 * 4096 = 32768 := by omega
  have e2 : min (8 * 4096 + 8) 32769 - 8 * 4096 = 0 + 1 := by omega
  rw [e1, e2, flowData_succ _ 32768 0 _ longFlowFile_last, flowData_zero]
  rfl

/-- C12 (counterexample). In the dump of a burst of 32769 samples, row 4096 is annotated
with the byte offset 65536, written with the five hex digits 10000. -/
theorem dump_offset_counterexample :
    (printHexData ⟨longFlowFile, 0⟩ 0 32769 []).2[4096]? = some (TraceLine.hexRow 65536 [0])
      ∧ (TraceLine.hexRow 65536 [0]).text = "    10000: 00 00 | .."
      ∧ (hexArg 65536 4).length = 5 :=
  ⟨longFlowFile_row, by decide, by decide⟩

/-- C12 (amended). For a burst of `N` samples beginning at sample `offset` of the file,
`printHexData` appends `ceil(N / 8)` rows; row `r` is annotated with the byte offset
`16 r` and shows the samples `8 r .. min (8 r + 8) N - 1` of the burst only; read across
all rows, the bytes shown are the low byte, then the high byte, of each sample's data in
burst order, `2 N` bytes. In the text of a row the offset is written in hex, padded with
zeros to four digits (exactly four while the offset is below 0x10000, more above), each
byte shown is written as two hex digits and a blank, and the ASCII column holds one
character per byte shown: the byte's character when the byte is in 0x20..0x7e, and "."
otherwise. -/
theorem printHexData_rows (bytes : List Nat) (pos offset N : Nat) (text : List TraceLine)
    (h : offset + N ≤ bytes.length / 4) :
    ∃ rows, (printHexData ⟨bytes, pos⟩ offset N text).2 = text ++ rows
      ∧ rows.length = (N + 7) / 8
      ∧ (∀ r, r < (N + 7) / 8 →
          rows[r]? = some (TraceLine.hexRow (16 * r)
            (flowData (samples bytes) (offset + 8 * r) (min (8 * r + 8) N - 8 * r))))
      ∧ rows.flatMap (fun l => byteSeq l.words) = byteSeq (flowData (samples bytes) offset N)
      ∧ (byteSeq (flowData (samples bytes) offset N)).length = 2 * N
      ∧ (∀ off data, (TraceLine.hexRow off data).text.data
          = "    ".data ++ (hexArg off 4).data ++ ": ".data
              ++ (byteSeq data).flatMap (fun b => (hexArg b 2).data ++ [' '])
              ++ "| ".data ++ (byteSeq data).flatMap (fun b => (asciiOf b).data))
      ∧ (∀ off, 4 ≤ (hexArg off 4).length ∧ (off < 65536 → (hexArg off 4).length = 4))
      ∧ (∀ b, b < 256 → (hexArg b 2).length = 2)
      ∧ (∀ b, (asciiOf b).data = [if 0x20 ≤ b ∧ b ≤ 0x7e then Char.ofNat b else '.']) := by
  refine ⟨dumpRows (samples bytes) offset N, ?_, dumpRows_length _ _ _,
    fun r hr => dumpRows_getElem? _ offset N r hr, dumpRows_bytes _ _ _, ?_, ?_,
    hexArg_length, fun b hb => hexArg_length_of_lt b 2 (by decide) (by simpa using hb), ?_⟩
  · rw [printHexData_eq bytes pos offset N text h]
  · rw [byteSeq_length, flowData_length _ _ _ (by rw [samples_length]; exact h)]
  · intro off data
    simp only [TraceLine.text, String.data_append, (hexColumns_data data).1,
      (hexColumns_data data).2, List.append_assoc]
  · intro b
    unfold asciiOf
    split_ifs <;> rfl

/-- C12 (witness). The amended statement at the dump of the two DATA samples of the
five-sample scenario. -/
theorem printHexData_rows_witness :
    0 + 2 + 2 ≤ scenarioFile.length / 4
      ∧ ∃ rows, (printHexData ⟨scenarioFile, 0⟩ 2 2 []).2 = [] ++ rows
        ∧ rows.length = (2 + 7) / 8
        ∧ rows.flatMap (fun l => byteSeq l.words)
            = byteSeq (flowData (samples scenarioFile) 2 2) :=
  ⟨by decide, by
    obtain ⟨rows, h1, h2, _, h4, _⟩ := printHexData_rows scenarioFile 0 2 2 [] (by decide)
    exact ⟨rows, h1, h2, h4⟩⟩

/-! ## The capture session -/

theorem contents_length (b : QByteArray) (n : Nat) : (b.contents n).length = n := by
  simp only [QByteArray.contents, List.length_take, List.length_append, List.length_replicate]
  omega

theorem contents_zero (b : QByteArray) : b.contents 0 = [] := by
  simp [QByteArray.contents]

theorem poke_eq_some (b b1 : QByteArray) (offset : Nat) (bytes : List Nat)
    (h : b.poke offset bytes = some b1) :
    offset + bytes.length ≤ b.size ∧ b1.size = b.size ∧
      b1.contents (offset + bytes.length) = b.contents offset ++ bytes := by
  unfold QByteArray.poke at h
  by_cases hh : offset + bytes.length ≤ b.size
  · rw [if_pos hh] at h
    cases h
    refine ⟨hh, rfl, ?_⟩
    have hl : (b.contents offset ++ bytes).length = offset + bytes.length := by
      simp [contents_length]
    show List.take (offset + bytes.length) ((b.contents offset ++ bytes
      ++ b.bytes.drop (offset + bytes.length)) ++ List.replicate _ 0) = _
    rw [List.append_assoc (b.contents offset ++ bytes)]
    exact List.take_left' hl
  · rw [if_neg hh] at h
    cases h

theorem poke_isSome (b : QByteArray) (offset : Nat) (bytes : List Nat)
    (h : offset + bytes.length ≤ b.size) : ∃ b1, b.poke offset bytes = some b1 := by
  unfold QByteArray.poke
  rw [if_pos h]
  exact ⟨_, rfl⟩

theorem contents_take (b : QByteArray) (n m : Nat) (h : n ≤ m) :
    (b.contents m).take n = b.contents n := by
  apply List.ext_getElem?
  intro i
  simp only [QByteArray.contents, List.getElem?_take, List.getElem?_append,
    List.getElem?_replicate]
  by_cases h1 : i < n
  · have h2 : i < m := by omega
    simp only [h1, h2, if_true]
    by_cases h3 : i < b.bytes.length
    · simp [h3]
    · simp only [h3, if_false]
      rw [if_pos (by omega), if_pos (by omega)]
  · simp [h1]

theorem readBulkLoop_shape (L : Int) : ∀ (bulk : List BulkReply) (b : Nat) (s : Capture),
    ∃ evs, (∀ e ∈ evs, Event.quiet e = true) ∧
      match readBulkLoop L bulk b s with
      | .returns true s1 => s1.events = s.events ++ evs ∧ s1.file = s.file ∧
          s1.bytesCommited = s.bytesCommited ∧ s1.buffer.size = s.buffer.size
      | .returns false s1 => ∃ requested err br, err < 0 ∧ s1.events = s.events ++ evs
          ++ [Event.bulkTransfer requested err br, Event.message (Message.bulkFail err)]
      | .blocked s1 => s1.events = s.events ++ evs
      | .undefined s1 => s1.events = s.events ++ evs := by
  intro bulk
  induction bulk with
  | nil =>
    intro b s
    refine ⟨[], by simp, ?_⟩
    unfold readBulkLoop
    split_ifs <;> simp
  | cons reply bulk ih =>
    intro b s
    unfold readBulkLoop
    by_cases h1 : (b : Int) < L
    · rw [if_pos h1]
      by_cases h2 : reply.err < 0
      · simp only [h2, if_true]
        exact ⟨[], by simp, L - b, reply.err, reply.bytes.length, h2, by simp⟩
      · simp only [h2, if_false]
        cases hp : s.buffer.poke b reply.bytes with
        | none =>
          refine ⟨[Event.bulkTransfer (L - b) reply.err reply.bytes.length], ?_, ?_⟩
          · simp only [List.mem_singleton, forall_eq, Event.quiet, decide_eq_true_eq]
            omega
          · simp
        | some buffer =>
          have hsize := (poke_eq_some _ _ _ _ hp).2.1
          simp only []
          by_cases h3 : ((b + reply.bytes.length : Nat) : Int) < L
          · rw [if_pos h3]
            obtain ⟨evs, hq, hm⟩ := ih (b + reply.bytes.length)
              { s with
                bulk := bulk
                buffer := buffer
                events := s.events
                  ++ [Event.bulkTransfer (L - b) reply.err reply.bytes.length]
                  ++ [Event.message (Message.warning reply.bytes.length
                    (L - (b + reply.bytes.length : Nat)))] }
            refine ⟨[Event.bulkTransfer (L - b) reply.err reply.bytes.length,
              Event.message (Message.warning reply.bytes.length
                (L - (b + reply.bytes.length : Nat)))] ++ evs, ?_, ?_⟩
            · intro e he
              simp only [List.mem_append, List.mem_cons, List.mem_singleton,
                List.not_mem_nil, or_false] at he
              rcases he with (rfl | rfl) | he
              · simp only [Event.quiet, decide_eq_true_eq]; omega
              · rfl
              · exact hq e he
            · revert hm
              split <;> simp_all
          · rw [if_neg h3]
            obtain ⟨evs, hq, hm⟩ := ih (b + reply.bytes.length)
              { s with
                bulk := bulk
                buffer := buffer
                events := s.events
                  ++ [Event.bulkTransfer (L - b) reply.err reply.bytes.length] }
            refine ⟨[Event.bulkTransfer (L - b) reply.err reply.bytes.length] ++ evs, ?_, ?_⟩
            · intro e he
              simp only [List.mem_append, List.mem_singleton] at he
              rcases he with rfl | he
              · simp only [Event.quiet, decide_eq_true_eq]; omega
              · exact hq e he
            · revert hm
              split <;> simp_all
    · rw [if_neg h1]
      exact ⟨[], by simp, by simp⟩

theorem continuesFrom_trans (events evs : List Event) (s1 : Capture) (o : Outcome Bool)
    (hq : ∀ e ∈ evs, Event.quiet e = true) (h1 : s1.events = events ++ evs)
    (h : continuesFrom s1.events o) : continuesFrom events o := by
  obtain ⟨evs2, hq2, hm⟩ := h
  refine ⟨evs ++ evs2, ?_, ?_⟩
  · intro e he
    rcases List.mem_append.1 he with he | he
    · exact hq e he
    · exact hq2 e he
  · rw [h1] at hm
    revert hm
    split <;> simp only [List.append_assoc] <;> exact id

theorem pollStatus_shape (n : Nat) (reply : StatusReply) (s : Capture) :
    continuesFrom s.events (pollStatus n reply s) := by
  unfold pollStatus
  by_cases h1 : reply.err < 0
  · simp only [h1, if_true]
    exact ⟨[], by simp, _, Closing.statusFailed n reply.err reply.status h1, by simp, by simp⟩
  · simp only [h1, if_false]
    by_cases h2 : reply.status.errorCount > 0
    · simp only [h2, if_true]
      exact ⟨[], by simp, _,
        Closing.deviceError reply.err reply.status (by omega) h2, by simp, by simp⟩
    · simp only [h2, if_false]
      refine ⟨[Event.statusQuery reply.err reply.status], ?_, rfl⟩
      simp only [List.mem_singleton, forall_eq, Event.quiet, Bool.and_eq_true,
        decide_eq_true_eq]
      omega

theorem receiveData_shape (record : Bool) (status : status_t) (s : Capture) :
    continuesFrom s.events (receiveData record status s) := by
  unfold receiveData
  by_cases h1 : status.bytesCommited > s.bytesCommited
  · rw [if_pos h1]
    obtain ⟨evs, hq, hm⟩ :=
      readBulkLoop_shape (toInt32 (status.bytesCommited - s.bytesCommited)) s.bulk 0 s
    unfold readBulkData
    revert hm
    cases readBulkLoop (toInt32 (status.bytesCommited - s.bytesCommited)) s.bulk 0 s with
    | returns value s1 =>
      cases value with
      | false =>
        rintro ⟨requested, err, br, herr, he⟩
        refine ⟨evs, hq, _, Closing.drainFailed requested err br herr, by simp, ?_⟩
        simp [he]
      | true =>
        rintro ⟨he, -⟩
        simp only []
        cases hp : s1.buffer.peek (status.bytesCommited - s.bytesCommited) with
        | none => exact ⟨evs, hq, he⟩
        | some bytes =>
          refine ⟨evs ++ [Event.fileWrite bytes,
            Event.updateStatistics status.bytesCommited status.errorCount], ?_, ?_⟩
          · intro e h
            simp only [List.mem_append, List.mem_cons, List.mem_singleton,
              List.not_mem_nil, or_false] at h
            rcases h with h | rfl | rfl
            · exact hq e h
            · rfl
            · rfl
          · simp [he]
    | blocked s1 => exact fun he => ⟨evs, hq, he⟩
    | undefined s1 => exact fun he => ⟨evs, hq, he⟩
  · rw [if_neg h1]
    exact ⟨[], by simp, by simp⟩

theorem loopBody_shape (reply : StatusReply) (s : Capture) :
    continuesFrom s.events (loopBody reply s) := by
  have h := pollStatus_shape 1 reply s
  unfold loopBody
  revert h
  cases pollStatus 1 reply s with
  | returns value s1 =>
    cases value with
    | false => exact id
    | true =>
      rintro ⟨evs, hq, he⟩
      exact continuesFrom_trans _ evs s1 _ hq he (receiveData_shape true reply.status s1)
  | blocked s1 => exact id
  | undefined s1 => exact id

theorem captureLoop_shape : ∀ (polls : List StatusReply) (s : Capture),
    continuesFrom s.events (captureLoop polls s) := by
  intro polls
  induction polls with
  | nil => exact fun s => ⟨[], by simp, by simp [captureLoop]⟩
  | cons reply polls ih =>
    intro s
    have h := loopBody_shape reply s
    unfold captureLoop
    revert h
    cases loopBody reply s with
    | returns value s1 =>
      cases value with
      | false => exact id
      | true =>
        rintro ⟨evs, hq, he⟩
        exact continuesFrom_trans _ evs s1 _ hq he (ih s1)
    | blocked s1 => exact id
    | undefined s1 => exact id

/-- The shape of every run of `start` whose file opens: the interface is locked, quiet
events follow, and a run that returns ends with one of the closing sequences. -/
theorem start_shape (clkDiv : Int) (w : World) (hf : w.fileOpens = true) :
    ∃ body, (∀ e ∈ body, Event.quiet e = true) ∧
      match start clkDiv w with
      | .returns _ s => ∃ closing, Closing closing ∧
          s.events = Event.lockInterface :: body ++ closing
      | .blocked s => s.events = Event.lockInterface :: body
      | .undefined s => s.events = Event.lockInterface :: body := by
  unfold start
  simp only [hf, Bool.true_eq_false, if_false]
  by_cases h0 : w.startErr < 0
  · simp only [h0, if_true]
    exact ⟨[Event.message Message.fileOpened, Event.updateStatistics 0 0], by simp [Event.quiet],
      _, Closing.controlFailed 0 (toUInt16 clkDiv) w.startErr h0, by simp [Capture.armed]⟩
  · simp only [h0, if_false]
    obtain ⟨A, hA⟩ : ∃ A, A = [Event.message Message.fileOpened, Event.updateStatistics 0 0,
        Event.controlOut (toUInt16 clkDiv) w.startErr] := ⟨_, rfl⟩
    have harm : ∀ e ∈ A, Event.quiet e = true := by
      rw [hA]
      simp only [List.mem_cons, List.mem_singleton, List.not_mem_nil, or_false]
      rintro e (rfl | rfl | rfl)
      · rfl
      · rfl
      · simp only [Event.quiet, decide_eq_true_eq]; omega
    have hAe : (Capture.armed clkDiv w).events = Event.lockInterface :: A := by
      rw [hA]; rfl
    have h := captureLoop_shape w.polls (Capture.armed clkDiv w)
    revert h
    cases captureLoop w.polls (Capture.armed clkDiv w) with
    | returns value s1 =>
      cases value with
      | false =>
        rintro ⟨evs, hq, closing, hc, -, he⟩
        refine ⟨A ++ evs, ?_, closing, hc, ?_⟩
        · exact fun e h => (List.mem_append.1 h).elim (harm e) (hq e)
        · simp [he, hAe]
      | true =>
        rintro ⟨evs, hq, he⟩
        simp only [] at he
        simp only [stopSequence]
        by_cases h2 : w.stopErr < 0
        · simp only [h2, if_true]
          refine ⟨A ++ evs, fun e h => (List.mem_append.1 h).elim (harm e) (hq e),
            _, Closing.controlFailed 2 0 w.stopErr h2, ?_⟩
          simp [he, hAe]
        · simp only [h2, if_false]
          have hq2 : ∀ e ∈ A ++ evs ++ [Event.controlOut 0 w.stopErr],
              Event.quiet e = true := by
            intro e h
            rcases List.mem_append.1 h with h | h
            · exact (List.mem_append.1 h).elim (harm e) (hq e)
            · rw [List.mem_singleton.1 h]
              simp only [Event.quiet, decide_eq_true_eq]; omega
          have hp := pollStatus_shape 3 w.lastPoll
            { s1 with events := s1.events ++ [Event.controlOut 0 w.stopErr] }
          revert hp
          cases pollStatus 3 w.lastPoll
            { s1 with events := s1.events ++ [Event.controlOut 0 w.stopErr] } with
          | returns value s2 =>
            cases value with
            | false =>
              rintro ⟨evs2, hq3, closing, hc, -, he2⟩
              refine ⟨A ++ evs ++ [Event.controlOut 0 w.stopErr] ++ evs2, fun e h => (List.mem_append.1 h).elim (hq2 e) (hq3 e),
                closing, hc, ?_⟩
              simp [he2, he, hAe]
            | true =>
              rintro ⟨evs2, hq3, he2⟩
              simp only [] at he2 ⊢
              have hr := receiveData_shape false w.lastPoll.status s2
              revert hr
              cases receiveData false w.lastPoll.status s2 with
              | returns value s3 =>
                cases value with
                | false =>
                  rintro ⟨evs3, hq4, closing, hc, -, he3⟩
                  refine ⟨A ++ evs ++ [Event.controlOut 0 w.stopErr] ++ evs2 ++ evs3, fun e h => (List.mem_append.1 h).elim
                    (fun h => (List.mem_append.1 h).elim (hq2 e) (hq3 e)) (hq4 e),
                    closing, hc, ?_⟩
                  simp [he3, he2, he, hAe]
                | true =>
                  rintro ⟨evs3, hq4, he3⟩
                  simp only [] at he3
                  refine ⟨A ++ evs ++ [Event.controlOut 0 w.stopErr] ++ evs2 ++ evs3, fun e h => (List.mem_append.1 h).elim
                    (fun h => (List.mem_append.1 h).elim (hq2 e) (hq3 e)) (hq4 e),
                    _, Closing.completed, ?_⟩
                  simp [he3, he2, he, hAe]
              | blocked s3 =>
                rintro ⟨evs3, hq4, he3⟩
                simp only [] at he3
                refine ⟨A ++ evs ++ [Event.controlOut 0 w.stopErr] ++ evs2 ++ evs3, fun e h => (List.mem_append.1 h).elim
                  (fun h => (List.mem_append.1 h).elim (hq2 e) (hq3 e)) (hq4 e), ?_⟩
                simp [he3, he2, he, hAe]
              | undefined s3 =>
                rintro ⟨evs3, hq4, he3⟩
                simp only [] at he3
                refine ⟨A ++ evs ++ [Event.controlOut 0 w.stopErr] ++ evs2 ++ evs3, fun e h => (List.mem_append.1 h).elim
                  (fun h => (List.mem_append.1 h).elim (hq2 e) (hq3 e)) (hq4 e), ?_⟩
                simp [he3, he2, he, hAe]
          | blocked s2 =>
            rintro ⟨evs2, hq3, he2⟩
            simp only [] at he2
            refine ⟨A ++ evs ++ [Event.controlOut 0 w.stopErr] ++ evs2, fun e h => (List.mem_append.1 h).elim (hq2 e) (hq3 e), ?_⟩
            simp [he2, he, hAe]
          | undefined s2 =>
            rintro ⟨evs2, hq3, he2⟩
            simp only [] at he2
            refine ⟨A ++ evs ++ [Event.controlOut 0 w.stopErr] ++ evs2, fun e h => (List.mem_append.1 h).elim (hq2 e) (hq3 e), ?_⟩
            simp [he2, he, hAe]
    | blocked s1 =>
      rintro ⟨evs, hq, he⟩
      exact ⟨A ++ evs, fun e h => (List.mem_append.1 h).elim (harm e) (hq e),
        by simp [he, hAe]⟩
    | undefined s1 =>
      rintro ⟨evs, hq, he⟩
      exact ⟨A ++ evs, fun e h => (List.mem_append.1 h).elim (harm e) (hq e),
        by simp [he, hAe]⟩

theorem received_nil : received [] = [] := rfl

theorem received_cons (r : BulkReply) (rs : List BulkReply) :
    received (r :: rs) = r.bytes ++ received rs := rfl

theorem transferEvents_nil (L b : Nat) : transferEvents L b [] = [] := rfl

theorem transferEvents_cons (L b : Nat) (r : BulkReply) (rs : List BulkReply) :
    transferEvents L b (r :: rs) =
      Event.bulkTransfer ((L : Int) - (b : Nat)) r.err r.bytes.length ::
        (if b + r.bytes.length < L then
          [Event.message (Message.warning r.bytes.length
            ((L : Int) - (b + r.bytes.length : Nat)))]
        else []) ++ transferEvents L (b + r.bytes.length) rs := by
  unfold transferEvents
  rw [List.length_cons, List.range_succ_eq_map, List.flatMap_cons, List.flatMap_map]
  simp only [List.take_zero, received_nil, List.length_nil, Nat.add_zero, List.getD_cons_zero,
    List.take_succ_cons, received_cons, List.length_append, List.getD_cons_succ,
    Function.comp, zero_add, List.take_nil, List.append_nil, Nat.add_assoc, List.cons_append]

/-- What `readBulkData` does with transfers that deliver at most what they are asked for,
by the way the loop ends. -/
theorem readBulkLoop_spec (L : Nat) : ∀ (bulk : List BulkReply) (b : Nat) (s : Capture),
    b ≤ L → L ≤ s.buffer.size → withinRequest L bulk b →
    match readBulkLoop L bulk b s with
    | .returns true s1 => ∃ used, bulk = used ++ s1.bulk ∧ (∀ r ∈ used, 0 ≤ r.err) ∧
        b + (received used).length = L ∧
        s1.buffer.contents L = s.buffer.contents b ++ received used ∧
        s1.events = s.events ++ transferEvents L b used ∧
        (∀ k, k < used.length → b + (received (used.take k)).length < L)
    | .returns false s1 => ∃ used bad, bulk = used ++ bad :: s1.bulk ∧
        (∀ r ∈ used, 0 ≤ r.err) ∧ b + (received used).length < L ∧ bad.err < 0 ∧
        s1.events = s.events ++ transferEvents L b used
          ++ [Event.bulkTransfer ((L : Int) - (b + (received used).length : Nat)) bad.err
                bad.bytes.length, Event.message (Message.bulkFail bad.err)]
    | .blocked s1 => (∀ r ∈ bulk, 0 ≤ r.err) ∧ b + (received bulk).length < L ∧
        s1.events = s.events ++ transferEvents L b bulk
    | .undefined _ => False := by
  intro bulk
  induction bulk with
  | nil =>
    intro b s hb _ _
    unfold readBulkLoop
    by_cases h1 : ((b : Nat) : Int) < (L : Nat)
    · rw [if_pos h1]
      simp only [List.not_mem_nil, false_imp_iff, implies_true, received_nil, List.length_nil,
        Nat.add_zero, transferEvents_nil, List.append_nil, and_true, true_and]
      omega
    · rw [if_neg h1]
      have hbL : b = L := by omega
      exact ⟨[], rfl, by simp, by simpa using hbL, by simp [received_nil, hbL],
        by simp [transferEvents_nil], by simp⟩
  | cons r rs ih =>
    intro b s hb hsize hw
    unfold readBulkLoop
    by_cases h1 : ((b : Nat) : Int) < (L : Nat)
    · rw [if_pos h1]
      have hbL : b < L := by omega
      by_cases h2 : r.err < 0
      · simp only [h2, if_true]
        exact ⟨[], r, rfl, by simp, by simpa [received_nil] using hbL, h2,
          by simp [transferEvents_nil, received_nil]⟩
      · simp only [h2, if_false]
        obtain ⟨hle, hw2⟩ := (hw hbL).resolve_left h2
        obtain ⟨buffer, hp⟩ := poke_isSome s.buffer b r.bytes (by omega)
        obtain ⟨-, hsz, hc⟩ := poke_eq_some _ _ _ _ hp
        simp only [hp]
        obtain ⟨s2, hs2, hb2, he2⟩ : ∃ s2 : Capture, s2 =
            (if ((b + r.bytes.length : Nat) : Int) < (L : Nat) then
              { s with
                bulk := rs
                buffer := buffer
                events := s.events ++ [Event.bulkTransfer ((L : Nat) - (b : Nat)) r.err
                    r.bytes.length]
                  ++ [Event.message (Message.warning r.bytes.length
                    ((L : Nat) - (b + r.bytes.length : Nat)))] }
            else
              { s with
                bulk := rs
                buffer := buffer
                events := s.events ++ [Event.bulkTransfer ((L : Nat) - (b : Nat)) r.err
                    r.bytes.length] }) ∧ s2.buffer = buffer ∧
            s2.events = s.events ++ (Event.bulkTransfer ((L : Int) - (b : Nat)) r.err
              r.bytes.length :: (if b + r.bytes.length < L then
                [Event.message (Message.warning r.bytes.length
                  ((L : Int) - (b + r.bytes.length : Nat)))] else [])) := by
          refine ⟨_, rfl, ?_, ?_⟩
          · split <;> rfl
          · by_cases h3 : b + r.bytes.length < L
            · rw [if_pos (by omega), if_pos h3]; simp
            · rw [if_neg (by omega), if_neg h3]
        rw [← hs2]
        have hih := ih (b + r.bytes.length) s2 hle (by rw [hb2, hsz]; exact hsize) hw2
        revert hih
        cases readBulkLoop (L : Nat) rs (b + r.bytes.length) s2 with
        | returns value s1 =>
          cases value with
          | true =>
            rintro ⟨used, hu, hok, hlen, hcont, hev, hpre⟩
            refine ⟨r :: used, by rw [hu]; simp, ?_, ?_, ?_, ?_, ?_⟩
            · intro x hx
              rcases List.mem_cons.1 hx with rfl | hx
              · omega
              · exact hok x hx
            · rw [received_cons, List.length_append]; omega
            · rw [hcont, hb2, hc, received_cons, List.append_assoc]
            · rw [hev, he2, transferEvents_cons]; simp
            · intro k hk
              cases k with
              | zero => simpa [received_nil] using hbL
              | succ k =>
                have := hpre k (by simpa using hk)
                rw [List.take_succ_cons, received_cons, List.length_append]
                omega
          | false =>
            rintro ⟨used, bad, hu, hok, hlen, hbad, hev⟩
            refine ⟨r :: used, bad, by rw [hu]; simp, ?_, ?_, hbad, ?_⟩
            · intro x hx
              rcases List.mem_cons.1 hx with rfl | hx
              · omega
              · exact hok x hx
            · rw [received_cons, List.length_append]; omega
            · rw [hev, he2, transferEvents_cons, received_cons, List.length_append]
              simp [Nat.add_assoc]
        | blocked s1 =>
          rintro ⟨hok, hlen, hev⟩
          refine ⟨?_, ?_, ?_⟩
          · intro x hx
            rcases List.mem_cons.1 hx with rfl | hx
            · omega
            · exact hok x hx
          · rw [received_cons, List.length_append]; omega
          · rw [hev, he2, transferEvents_cons]; simp
        | undefined s1 => exact id
    · rw [if_neg h1]
      have hbL : b = L := by omega
      exact ⟨[], rfl, by simp, by simpa using hbL, by simp [received_nil, hbL],
        by simp [transferEvents_nil], by simp⟩

theorem continuesFrom_prefix (events : List Event) (o : Outcome Bool)
    (h : continuesFrom events o) : ∃ rest, o.state.events = events ++ rest := by
  obtain ⟨evs, -, hm⟩ := h
  revert hm
  cases o with
  | returns value s1 =>
    cases value with
    | false =>
      rintro ⟨closing, -, -, he⟩
      exact ⟨evs ++ closing, by simp [Outcome.state, he]⟩
    | true => exact fun he => ⟨evs, he⟩
  | blocked s1 => exact fun he => ⟨evs, he⟩
  | undefined s1 => exact fun he => ⟨evs, he⟩

theorem stopSequence_prefix (w : World) (s : Capture) :
    ∃ rest, (stopSequence w s).state.events = s.events ++ rest := by
  unfold stopSequence
  by_cases h2 : w.stopErr < 0
  · simp only [h2, if_true]
    exact ⟨_, by simp only [Outcome.state, List.append_assoc]; rfl⟩
  · simp only [h2, if_false]
    obtain ⟨r1, h1⟩ := continuesFrom_prefix _ _ (pollStatus_shape 3 w.lastPoll
      { s with events := s.events ++ [Event.controlOut 0 w.stopErr] })
    revert h1
    cases pollStatus 3 w.lastPoll
      { s with events := s.events ++ [Event.controlOut 0 w.stopErr] } with
    | returns value s2 =>
      cases value with
      | false => exact fun h1 => ⟨_, by simpa [Outcome.state] using h1⟩
      | true =>
        intro h1
        simp only [Outcome.state] at h1 ⊢
        obtain ⟨r2, h3⟩ := continuesFrom_prefix _ _ (receiveData_shape false w.lastPoll.status s2)
        revert h3
        cases receiveData false w.lastPoll.status s2 with
        | returns value s3 =>
          cases value with
          | false =>
            intro h3
            simp only [Outcome.state] at h3 ⊢
            exact ⟨_, by rw [h3, h1, List.append_assoc, List.append_assoc]⟩
          | true =>
            intro h3
            simp only [Outcome.state] at h3 ⊢
            exact ⟨_, by rw [h3, h1, List.append_assoc, List.append_assoc, List.append_assoc]⟩
        | blocked s3 =>
          intro h3
          simp only [Outcome.state] at h3 ⊢
          exact ⟨_, by rw [h3, h1, List.append_assoc, List.append_assoc]⟩
        | undefined s3 =>
          intro h3
          simp only [Outcome.state] at h3 ⊢
          exact ⟨_, by rw [h3, h1, List.append_assoc, List.append_assoc]⟩
    | blocked s2 => exact fun h1 => ⟨_, by simpa [Outcome.state] using h1⟩
    | undefined s2 => exact fun h1 => ⟨_, by simpa [Outcome.state] using h1⟩

/-- Every run of `start` whose file opens begins with the events up to the start command. -/
theorem start_armed (clkDiv : Int) (w : World) (hf : w.fileOpens = true) :
    ∃ rest, (start clkDiv w).state.events = (Capture.armed clkDiv w).events ++ rest := by
  unfold start
  simp only [hf, Bool.true_eq_false, if_false]
  by_cases h0 : w.startErr < 0
  · simp only [h0, if_true]
    exact ⟨_, rfl⟩
  · simp only [h0, if_false]
    obtain ⟨r1, h1⟩ := continuesFrom_prefix _ _ (captureLoop_shape w.polls
      (Capture.armed clkDiv w))
    revert h1
    cases captureLoop w.polls (Capture.armed clkDiv w) with
    | returns value s1 =>
      cases value with
      | false => exact fun h1 => ⟨_, by simpa [Outcome.state] using h1⟩
      | true =>
        intro h1
        simp only [Outcome.state] at h1
        obtain ⟨r2, h2⟩ := stopSequence_prefix w s1
        exact ⟨r1 ++ r2, by
          show (stopSequence w s1).state.events = _
          rw [h2, h1, List.append_assoc]⟩
    | blocked s1 => exact fun h1 => ⟨_, by simpa [Outcome.state] using h1⟩
    | undefined s1 => exact fun h1 => ⟨_, by simpa [Outcome.state] using h1⟩

theorem append_cons_unique {α : Type} (y : α) : ∀ (A B pre post : List α) (x : α),
    A ++ x :: B = pre ++ y :: post → y ∉ A → y ∉ B → pre = A ∧ y = x ∧ post = B := by
  intro A
  induction A with
  | nil =>
    intro B pre post x h _ hB
    cases pre with
    | nil =>
      simp only [List.nil_append, List.cons.injEq] at h
      exact ⟨rfl, h.1.symm, h.2.symm⟩
    | cons p pre =>
      simp only [List.nil_append, List.cons_append, List.cons.injEq] at h
      exact absurd (by rw [h.2]; simp) hB
  | cons a A ih =>
    intro B pre post x h hA hB
    cases pre with
    | nil =>
      simp only [List.nil_append, List.cons_append, List.cons.injEq] at h
      exact absurd (by rw [h.1]; simp) hA
    | cons p pre =>
      simp only [List.cons_append, List.cons.injEq] at h
      obtain ⟨h1, h2, h3⟩ := ih B pre post x h.2 (fun hm => hA (List.mem_cons_of_mem _ hm)) hB
      exact ⟨by rw [h.1, h1], h2, h3⟩

theorem quiet_session (e : Event) (h : Event.quiet e = true) :
    e ≠ Event.lockInterface ∧ e ≠ Event.unlockInterface ∧ e ≠ Event.fileClose ∧
      e ≠ Event.message Message.completed ∧
      ∀ err status, e = Event.statusQuery err status → 0 ≤ err ∧ status.errorCount = 0 := by
  cases e with
  | message m => cases m <;> simp_all [Event.quiet]
  | statusQuery err status => simpa [Event.quiet] using h
  | _ => simp_all [Event.quiet]

theorem toInt32_of_le (n : Nat) (h : n ≤ DEFAULT_BUFFER_SIZE) : toInt32 n = (n : Int) := by
  have h1 : n % 4294967296 = n := Nat.mod_eq_of_lt (by unfold DEFAULT_BUFFER_SIZE at h; omega)
  unfold toInt32
  rw [h1, if_pos (by unfold DEFAULT_BUFFER_SIZE at h; omega)]

theorem readBulkLoop_prefix (L : Int) (bulk : List BulkReply) (b : Nat) (s : Capture) :
    ∃ rest, (readBulkLoop L bulk b s).state.events = s.events ++ rest := by
  obtain ⟨evs, -, hm⟩ := readBulkLoop_shape L bulk b s
  revert hm
  cases readBulkLoop L bulk b s with
  | returns value s1 =>
    cases value with
    | false =>
      rintro ⟨requested, err, br, -, he⟩
      exact ⟨_, by simp only [Outcome.state, he, List.append_assoc]; rfl⟩
    | true => exact fun he => ⟨evs, he.1⟩
  | blocked s1 => exact fun he => ⟨evs, he⟩
  | undefined s1 => exact fun he => ⟨evs, he⟩

theorem withinRequest_of_events (L : Nat) : ∀ (bulk : List BulkReply) (b : Nat) (s : Capture),
    L ≤ s.buffer.size →
    (∀ e ∈ (readBulkLoop L bulk b s).state.events, Event.fitsRequest e = true) →
    withinRequest L bulk b := by
  intro bulk
  induction bulk with
  | nil => intro b s _ _; trivial
  | cons r rs ih =>
    intro b s hsize hev
    unfold withinRequest
    intro hbL
    by_cases h2 : r.err < 0
    · exact Or.inl h2
    · right
      unfold readBulkLoop at hev
      rw [if_pos (by omega)] at hev
      simp only [h2, if_false] at hev
      cases hp : s.buffer.poke b r.bytes with
      | none =>
        exfalso
        rw [hp] at hev
        have h0 := hev (Event.bulkTransfer ((L : Nat) - (b : Nat)) r.err r.bytes.length)
          (by simp [Outcome.state])
        simp only [Event.fitsRequest, decide_eq_true_eq] at h0
        obtain ⟨b1, hb1⟩ := poke_isSome s.buffer b r.bytes (by omega)
        rw [hp] at hb1
        cases hb1
      | some buffer =>
        rw [hp] at hev
        simp only [] at hev
        obtain ⟨rest, hrest⟩ := readBulkLoop_prefix (L : Nat) rs (b + r.bytes.length)
          (if ((b + r.bytes.length : Nat) : Int) < (L : Nat) then
            { s with
              bulk := rs
              buffer := buffer
              events := s.events ++ [Event.bulkTransfer ((L : Nat) - (b : Nat)) r.err
                  r.bytes.length]
                ++ [Event.message (Message.warning r.bytes.length
                  ((L : Nat) - (b + r.bytes.length : Nat)))] }
          else
            { s with
              bulk := rs
              buffer := buffer
              events := s.events ++ [Event.bulkTransfer ((L : Nat) - (b : Nat)) r.err
                  r.bytes.length] })
        have h0 := hev (Event.bulkTransfer ((L : Nat) - (b : Nat)) r.err r.bytes.length)
          (by rw [hrest]; split <;> simp)
        simp only [Event.fitsRequest, decide_eq_true_eq] at h0
        refine ⟨by omega, ih _ _ ?_ hev⟩
        have hsz := (poke_eq_some _ _ _ _ hp).2.1
        split <;> simpa [hsz] using hsize

theorem received_append (xs ys : List BulkReply) :
    received (xs ++ ys) = received xs ++ received ys := by
  simp [received, List.flatMap_append]

/-- A drain that succeeds: the transfers it uses deliver the bytes between the recorded and
the reported `bytesCommited`, and these bytes are appended to the file. -/
theorem receiveData_spec (record : Bool) (status : status_t) (s s1 : Capture)
    (hsz : s.buffer.size = DEFAULT_BUFFER_SIZE)
    (hgt : s.bytesCommited < status.bytesCommited)
    (h : receiveData record status s = Outcome.returns true s1)
    (hw : ∀ e ∈ s1.events, Event.fitsRequest e = true) :
    ∃ used, s.bulk = used ++ s1.bulk ∧
      (received used).length = status.bytesCommited - s.bytesCommited ∧
      s1.file = s.file ++ received used ∧
      s1.events = s.events ++ transferEvents (status.bytesCommited - s.bytesCommited) 0 used
        ++ [Event.fileWrite (received used),
          Event.updateStatistics status.bytesCommited status.errorCount] ∧
      s1.bytesCommited = (if record then status.bytesCommited else s.bytesCommited) ∧
      s1.buffer.size = s.buffer.size := by
  unfold receiveData at h
  rw [if_pos hgt] at h
  unfold readBulkData at h
  have shape := readBulkLoop_shape (toInt32 (status.bytesCommited - s.bytesCommited)) s.bulk 0 s
  obtain ⟨evs, -, shape⟩ := shape
  cases hr : readBulkLoop (toInt32 (status.bytesCommited - s.bytesCommited)) s.bulk 0 s with
  | returns value s2 =>
    rw [hr] at h shape
    cases value with
    | false => simp at h
    | true =>
      simp only [] at h shape
      obtain ⟨he2, hfile, hbc, hsize2⟩ := shape
      cases hp : s2.buffer.peek (status.bytesCommited - s.bytesCommited) with
      | none => rw [hp] at h; simp at h
      | some bytes =>
        rw [hp] at h
        simp only [Outcome.returns.injEq, true_and] at h
        unfold QByteArray.peek at hp
        by_cases hle : status.bytesCommited - s.bytesCommited ≤ s2.buffer.size
        · rw [if_pos hle] at hp
          simp only [Option.some.injEq] at hp
          have hD : status.bytesCommited - s.bytesCommited ≤ DEFAULT_BUFFER_SIZE := by
            rw [← hsz, ← hsize2]; exact hle
          rw [toInt32_of_le _ hD] at hr
          have hwithin := withinRequest_of_events (status.bytesCommited - s.bytesCommited)
            s.bulk 0 s (by rw [hsz]; exact hD) (by
              rw [hr]
              intro e he
              apply hw
              rw [← h]
              exact List.mem_append_left _ he)
          have spec := readBulkLoop_spec (status.bytesCommited - s.bytesCommited) s.bulk 0 s
            (Nat.zero_le _) (by rw [hsz]; exact hD) hwithin
          rw [hr] at spec
          obtain ⟨used, hu, -, hlen, hcont, hev, -⟩ := spec
          rw [contents_zero, List.nil_append] at hcont
          rw [hcont] at hp
          refine ⟨used, ?_, by omega, ?_, ?_, ?_, ?_⟩
          · rw [← h]; exact hu
          · rw [← h, ← hp, hfile]
          · rw [← h, ← hp, hev]
          · rw [← h]
            cases record <;> simp [hbc]
          · rw [← h]; exact hsize2
        · rw [if_neg hle] at hp
          cases hp
  | blocked s2 => rw [hr] at h; simp at h
  | undefined s2 => rw [hr] at h; simp at h

/-- An iteration of the capture loop after which the loop goes on. -/
theorem loopBody_spec (reply : StatusReply) (s s1 : Capture)
    (hsz : s.buffer.size = DEFAULT_BUFFER_SIZE)
    (h : loopBody reply s = Outcome.returns true s1)
    (hw : ∀ e ∈ s1.events, Event.fitsRequest e = true) :
    (∃ used, s.bulk = used ++ s1.bulk ∧ s1.file = s.file ++ received used ∧
      (received used).length = reply.status.bytesCommited - s.bytesCommited ∧
      s1.events = s.events ++ Event.statusQuery reply.err reply.status ::
        (if s.bytesCommited < reply.status.bytesCommited then
          transferEvents (reply.status.bytesCommited - s.bytesCommited) 0 used
            ++ [Event.fileWrite (received used),
              Event.updateStatistics reply.status.bytesCommited reply.status.errorCount]
        else [])) ∧
    s1.bytesCommited = max s.bytesCommited reply.status.bytesCommited ∧
    s1.buffer.size = s.buffer.size := by
  unfold loopBody pollStatus at h
  by_cases h1 : reply.err < 0
  · simp [h1] at h
  · simp only [h1, if_false] at h
    by_cases h2 : reply.status.errorCount > 0
    · simp [h2] at h
    · simp only [h2, if_false] at h
      by_cases hgt : s.bytesCommited < reply.status.bytesCommited
      · obtain ⟨used, hu, hlen, hfile, hev, hbc, hsize⟩ :=
          receiveData_spec true reply.status
            { s with events := s.events ++ [Event.statusQuery reply.err reply.status] }
            s1 hsz hgt h hw
        refine ⟨⟨used, hu, hfile, hlen, ?_⟩, ?_, hsize⟩
        · rw [hev, if_pos hgt]; simp
        simp only [if_true] at hbc
        rw [hbc]
        exact (Nat.max_eq_right (Nat.le_of_lt hgt)).symm
      · have hle : reply.status.bytesCommited ≤ s.bytesCommited := by omega
        unfold receiveData at h
        rw [if_neg (by simpa using hgt)] at h
        simp only [Outcome.returns.injEq, true_and] at h
        rw [← h]
        refine ⟨⟨[], rfl, by simp [received_nil], ?_, ?_⟩, ?_, rfl⟩
        · simp only [received_nil, List.length_nil]; omega
        · rw [if_neg hgt]
        · exact (Nat.max_eq_left hle).symm

theorem largestCommited_cons (m : Nat) (p : StatusReply) (polls : List StatusReply) :
    largestCommited m (p :: polls) = largestCommited (max m p.status.bytesCommited) polls := rfl

theorem largestCommited_append (m : Nat) (polls : List StatusReply) (p : StatusReply) :
    largestCommited m (polls ++ [p]) = max (largestCommited m polls) p.status.bytesCommited := by
  simp [largestCommited, List.foldl_append]

/-- The capture loop left because `cancel` is set: the file holds the bytes of the
transfers used, as many as the largest `bytesCommited` reported. -/
theorem captureLoop_spec : ∀ (polls : List StatusReply) (s s1 : Capture),
    s.buffer.size = DEFAULT_BUFFER_SIZE →
    captureLoop polls s = Outcome.returns true s1 →
    (∀ e ∈ s1.events, Event.fitsRequest e = true) →
    (∃ used, s.bulk = used ++ s1.bulk ∧ s1.file = s.file ++ received used ∧
      s.bytesCommited + (received used).length = largestCommited s.bytesCommited polls) ∧
    s1.bytesCommited = largestCommited s.bytesCommited polls ∧
    s1.buffer.size = s.buffer.size := by
  intro polls
  induction polls with
  | nil =>
    intro s s1 _ h _
    simp only [captureLoop, Outcome.returns.injEq, true_and] at h
    rw [← h]
    exact ⟨⟨[], rfl, by simp [received_nil], by simp [received_nil, largestCommited]⟩,
      rfl, rfl⟩
  | cons p polls ih =>
    intro s s1 hsz h hw
    unfold captureLoop at h
    cases hl : loopBody p s with
    | returns value s2 =>
      rw [hl] at h
      cases value with
      | false => simp at h
      | true =>
        simp only [] at h
        obtain ⟨rest, hrest⟩ := continuesFrom_prefix _ _ (captureLoop_shape polls s2)
        rw [h] at hrest
        simp only [Outcome.state] at hrest
        obtain ⟨⟨used1, hu1, hf1, hl1, -⟩, hb1, hs1⟩ := loopBody_spec p s s2 hsz hl
          (fun e he => hw e (by rw [hrest]; exact List.mem_append_left _ he))
        obtain ⟨⟨used2, hu2, hf2, hl2⟩, hb2, hs2⟩ := ih s2 s1 (by rw [hs1, hsz]) h hw
        rw [largestCommited_cons, ← hb1]
        refine ⟨⟨used1 ++ used2, ?_, ?_, ?_⟩, hb2, by rw [hs2, hs1]⟩
        · rw [hu1, hu2, List.append_assoc]
        · rw [hf2, hf1, received_append, List.append_assoc]
        · rw [received_append, List.length_append, ← hl2, hl1, hb1]
          rcases Nat.le_total s.bytesCommited p.status.bytesCommited with hle | hle
          · rw [Nat.max_eq_right hle]; omega
          · rw [Nat.max_eq_left hle]; omega
    | blocked s2 => rw [hl] at h; simp at h
    | undefined s2 => rw [hl] at h; simp at h

theorem captureLoop_append : ∀ (polls1 polls2 : List StatusReply) (s s1 : Capture),
    captureLoop (polls1 ++ polls2) s = Outcome.returns true s1 →
    ∃ s2, captureLoop polls1 s = Outcome.returns true s2 ∧
      captureLoop polls2 s2 = Outcome.returns true s1 := by
  intro polls1
  induction polls1 with
  | nil => exact fun polls2 s s1 h => ⟨s, rfl, h⟩
  | cons p polls1 ih =>
    intro polls2 s s1 h
    simp only [List.cons_append, captureLoop] at h ⊢
    cases hl : loopBody p s with
    | returns value s2 =>
      rw [hl] at h
      cases value with
      | false => simp at h
      | true => exact ih polls2 s2 s1 h
    | blocked s2 => rw [hl] at h; simp at h
    | undefined s2 => rw [hl] at h; simp at h

theorem quiet_not_completed (evs : List Event) (hq : ∀ e ∈ evs, Event.quiet e = true) :
    Event.message Message.completed ∉ evs :=
  fun hm => (quiet_session _ (hq _ hm)).2.2.2.1 rfl

theorem failed_not_completed (events : List Event) (o : Outcome Bool) (s1 : Capture)
    (h : continuesFrom events o) (ho : o = Outcome.returns false s1)
    (hn : Event.message Message.completed ∉ events) :
    Event.message Message.completed ∉ s1.events := by
  obtain ⟨evs, hq, hm⟩ := h
  rw [ho] at hm
  obtain ⟨closing, -, hnc, he⟩ := hm
  rw [he]
  intro hx
  rcases List.mem_append.1 hx with hx | hx
  · rcases List.mem_append.1 hx with hx | hx
    · exact hn hx
    · exact quiet_not_completed evs hq hx
  · exact hnc hx

theorem continued_not_completed (events : List Event) (o : Outcome Bool) (s1 : Capture)
    (h : continuesFrom events o) (ho : o = Outcome.returns true s1)
    (hn : Event.message Message.completed ∉ events) :
    Event.message Message.completed ∉ s1.events := by
  obtain ⟨evs, hq, hm⟩ := h
  rw [ho] at hm
  simp only [] at hm
  rw [hm]
  intro hx
  rcases List.mem_append.1 hx with hx | hx
  · exact hn hx
  · exact quiet_not_completed evs hq hx

/-- The path of a run of `start` that reports "Completed.". -/
theorem start_completed (clkDiv : Int) (w : World) (s : Capture)
    (h : start clkDiv w = Outcome.returns () s)
    (hc : Event.message Message.completed ∈ s.events) :
    ∃ s1 s3, captureLoop w.polls (Capture.armed clkDiv w) = Outcome.returns true s1 ∧
      receiveData false w.lastPoll.status
        { s1 with events := s1.events ++ [Event.controlOut 0 w.stopErr]
          ++ [Event.statusQuery w.lastPoll.err w.lastPoll.status] } = Outcome.returns true s3 ∧
      s = { s3 with events := s3.events ++ [Event.fileClose,
        Event.message Message.completed, Event.unlockInterface] } := by
  unfold start at h
  by_cases hf : w.fileOpens = false
  · rw [if_pos hf] at h
    simp only [Outcome.returns.injEq, true_and] at h
    rw [← h] at hc
    simp at hc
  · rw [if_neg hf] at h
    by_cases h0 : w.startErr < 0
    · rw [if_pos h0] at h
      simp only [Outcome.returns.injEq, true_and] at h
      rw [← h] at hc
      simp [Capture.armed] at hc
    · rw [if_neg h0] at h
      have harm : Event.message Message.completed ∉ (Capture.armed clkDiv w).events := by
        simp [Capture.armed]
      cases hl : captureLoop w.polls (Capture.armed clkDiv w) with
      | returns value s1 =>
        rw [hl] at h
        cases value with
        | false =>
          simp only [Outcome.returns.injEq, true_and] at h
          rw [← h] at hc
          exact absurd hc (failed_not_completed _ _ s1 (captureLoop_shape _ _) hl harm)
        | true =>
          simp only [] at h
          have hs1 := continued_not_completed _ _ s1 (captureLoop_shape _ _) hl harm
          unfold stopSequence at h
          by_cases h2 : w.stopErr < 0
          · simp only [h2, if_true, Outcome.returns.injEq, true_and] at h
            rw [← h] at hc
            simp [hs1] at hc
          · simp only [h2, if_false] at h
            have hs1c : Event.message Message.completed ∉
                s1.events ++ [Event.controlOut 0 w.stopErr] := by
              simp [hs1]
            cases hp : pollStatus 3 w.lastPoll
                { s1 with events := s1.events ++ [Event.controlOut 0 w.stopErr] } with
            | returns value s2 =>
              rw [hp] at h
              cases value with
              | false =>
                simp only [Outcome.returns.injEq, true_and] at h
                rw [← h] at hc
                exact absurd hc (failed_not_completed _ _ s2 (pollStatus_shape _ _ _) hp hs1c)
              | true =>
                simp only [] at h
                have hs2 := continued_not_completed _ _ s2 (pollStatus_shape _ _ _) hp hs1c
                have hs2e : s2 = { s1 with events := s1.events
                    ++ [Event.controlOut 0 w.stopErr]
                    ++ [Event.statusQuery w.lastPoll.err w.lastPoll.status] } := by
                  unfold pollStatus at hp
                  by_cases h3 : w.lastPoll.err < 0
                  · simp [h3] at hp
                  · by_cases h4 : w.lastPoll.status.errorCount > 0
                    · simp [h3, h4] at hp
                    · simp only [h3, h4, if_false, Outcome.returns.injEq, true_and] at hp
                      exact hp.symm
                cases hr : receiveData false w.lastPoll.status s2 with
                | returns value s3 =>
                  rw [hr] at h
                  cases value with
                  | false =>
                    simp only [Outcome.returns.injEq, true_and] at h
                    rw [← h] at hc
                    exact absurd hc
                      (failed_not_completed _ _ s3 (receiveData_shape _ _ _) hr hs2)
                  | true =>
                    simp only [Outcome.returns.injEq, true_and] at h
                    rw [hs2e] at hr
                    exact ⟨s1, s3, rfl, hr, h.symm⟩
                | blocked s3 => rw [hr] at h; simp at h
                | undefined s3 => rw [hr] at h; simp at h
            | blocked s2 => rw [hp] at h; simp at h
            | undefined s2 => rw [hp] at h; simp at h
      | blocked s1 => rw [hl] at h; simp at h
      | undefined s1 => rw [hl] at h; simp at h

theorem captureLoop_append_eq : ∀ (polls1 polls2 : List StatusReply) (s s2 : Capture),
    captureLoop polls1 s = Outcome.returns true s2 →
    captureLoop (polls1 ++ polls2) s = captureLoop polls2 s2 := by
  intro polls1
  induction polls1 with
  | nil =>
    intro polls2 s s2 h
    simp only [captureLoop, Outcome.returns.injEq, true_and] at h
    rw [h]; rfl
  | cons p polls1 ih =>
    intro polls2 s s2 h
    simp only [List.cons_append, captureLoop] at h ⊢
    cases hl : loopBody p s with
    | returns value s3 =>
      rw [hl] at h
      cases value with
      | false => simp at h
      | true => exact ih polls2 s3 s2 h
    | blocked s3 => rw [hl] at h; simp at h
    | undefined s3 => rw [hl] at h; simp at h

theorem captureLoop_events_prefix (polls : List StatusReply) (s s1 : Capture)
    (h : captureLoop polls s = Outcome.returns true s1) :
    ∃ rest, s1.events = s.events ++ rest := by
  obtain ⟨rest, hrest⟩ := continuesFrom_prefix _ _ (captureLoop_shape polls s)
  rw [h] at hrest
  exact ⟨rest, hrest⟩

/-- C15: an iteration of the capture loop whose status query succeeds with `errorCount`
zero and `bytesCommited` equal to the value recorded at the last drain (or below it)
asks for the status and does nothing else: no bulk transfer, nothing written to the
file, no `updateStatistics`, the recorded `bytesCommited` and the buffer as they were.
So any number of such iterations in a row leaves the state and the file as they were,
the only events being the status queries. -/
theorem unchanged_poll_idempotent (s : Capture) (polls : List StatusReply)
    (h : ∀ p ∈ polls, 0 ≤ p.err ∧ p.status.errorCount = 0 ∧
      p.status.bytesCommited ≤ s.bytesCommited) :
    (∀ p ∈ polls, ∀ events, loopBody p { s with events := events } =
      Outcome.returns true
        { s with events := events ++ [Event.statusQuery p.err p.status] }) ∧
    captureLoop polls s = Outcome.returns true
      { s with events := s.events ++ polls.map fun p => Event.statusQuery p.err p.status } := by
  have step : ∀ p : StatusReply, 0 ≤ p.err ∧ p.status.errorCount = 0 ∧
      p.status.bytesCommited ≤ s.bytesCommited → ∀ events,
      loopBody p { s with events := events } = Outcome.returns true
        { s with events := events ++ [Event.statusQuery p.err p.status] } := by
    rintro p ⟨h1, h2, h3⟩ events
    unfold loopBody pollStatus
    rw [if_neg (by omega), if_neg (by omega)]
    simp only [receiveData]
    rw [if_neg (by simpa using h3)]
  refine ⟨fun p hp => step p (h p hp), ?_⟩
  have key : ∀ (polls : List StatusReply) (events : List Event),
      (∀ p ∈ polls, 0 ≤ p.err ∧ p.status.errorCount = 0 ∧
        p.status.bytesCommited ≤ s.bytesCommited) →
      captureLoop polls { s with events := events } = Outcome.returns true
        { s with events := events ++ polls.map fun p => Event.statusQuery p.err p.status } := by
    intro polls
    induction polls with
    | nil => intro events _; simp [captureLoop]
    | cons p polls ih =>
      intro events hp
      unfold captureLoop
      rw [step p (hp p (List.mem_cons_self _ _)) events]
      simp only []
      rw [ih _ (fun q hq => hp q (List.mem_cons_of_mem _ hq))]
      simp
  exact key polls s.events h

theorem unchanged_poll_idempotent_witness :
    captureLoop [⟨8, ⟨0, 4⟩⟩, ⟨8, ⟨0, 4⟩⟩, ⟨8, ⟨0, 4⟩⟩]
        { Capture.armed 8 exampleWorld with file := [1, 2, 3, 4], bytesCommited := 4 } =
      Outcome.returns true
        { Capture.armed 8 exampleWorld with
          file := [1, 2, 3, 4]
          bytesCommited := 4
          events := (Capture.armed 8 exampleWorld).events
            ++ [Event.statusQuery 8 ⟨0, 4⟩, Event.statusQuery 8 ⟨0, 4⟩,
              Event.statusQuery 8 ⟨0, 4⟩] } :=
  (unchanged_poll_idempotent
    { Capture.armed 8 exampleWorld with file := [1, 2, 3, 4], bytesCommited := 4 }
    [⟨8, ⟨0, 4⟩⟩, ⟨8, ⟨0, 4⟩⟩, ⟨8, ⟨0, 4⟩⟩] (by decide)).2

/-- C16: in every run of `start`, a status query (of the capture loop or of the stop
sequence) that succeeds and reports `errorCount > 0` is followed by exactly: the file
closed, `updateStatistics` with the `bytesCommited` and `errorCount` of that query, the
message "Sniffer device error detected." and `unlockInterface`; so no bulk transfer and
no write to the file come after it. The run returns, no query before that one reported
an error, and "Completed." is not among its messages. -/
theorem device_error_abort (clkDiv : Int) (w : World) (pre post : List Event) (err : Int)
    (status : status_t)
    (h : (start clkDiv w).state.events = pre ++ Event.statusQuery err status :: post)
    (herr : 0 ≤ err) (hcount : 0 < status.errorCount) :
    post = [Event.fileClose,
        Event.updateStatistics status.bytesCommited status.errorCount,
        Event.message Message.deviceError, Event.unlockInterface] ∧
      start clkDiv w = Outcome.returns () (start clkDiv w).state ∧
      Event.message Message.completed ∉ (start clkDiv w).state.events ∧
      (∀ err1 status1, Event.statusQuery err1 status1 ∈ pre →
        0 ≤ err1 ∧ status1.errorCount = 0) := by
  have hmem : Event.statusQuery err status ∈ (start clkDiv w).state.events := by
    rw [h]; simp
  cases hf : w.fileOpens with
  | false =>
    exfalso
    revert hmem
    unfold start
    simp [hf, Outcome.state]
  | true =>
    obtain ⟨body, hq, hm⟩ := start_shape clkDiv w hf
    have hbody : Event.statusQuery err status ∉ Event.lockInterface :: body := by
      intro hx
      rcases List.mem_cons.1 hx with hx | hx
      · cases hx
      · have := ((quiet_session _ (hq _ hx)).2.2.2.2 err status rfl).2
        omega
    revert hm h hmem
    cases start clkDiv w with
    | returns value s =>
      simp only [Outcome.state]
      rintro h hmem ⟨closing, hc, he⟩
      rw [he] at hmem h
      have hcl : Event.statusQuery err status ∈ closing :=
        (List.mem_append.1 hmem).resolve_left hbody
      cases hc with
      | controlFailed n wValue err1 h1 => simp at hcl
      | statusFailed n err1 status1 h1 =>
        simp only [List.mem_cons, Event.statusQuery.injEq, List.mem_singleton,
          List.not_mem_nil, or_false, reduceCtorEq] at hcl
        omega
      | deviceError err1 status1 h1 h2 =>
        simp only [List.mem_cons, Event.statusQuery.injEq, List.mem_singleton,
          List.not_mem_nil, or_false, reduceCtorEq] at hcl
        obtain ⟨rfl, rfl⟩ := hcl
        obtain ⟨hpre, -, hpost⟩ := append_cons_unique _ _ _ _ _ _ h hbody (by simp)
        refine ⟨hpost, trivial, ?_, ?_⟩
        · rw [he]
          intro hx
          rcases List.mem_append.1 hx with hx | hx
          · rcases List.mem_cons.1 hx with hx | hx
            · cases hx
            · exact (quiet_session _ (hq _ hx)).2.2.2.1 rfl
          · simp at hx
        · intro err2 status2 hx
          rw [hpre] at hx
          rcases List.mem_cons.1 hx with hx | hx
          · cases hx
          · exact (quiet_session _ (hq _ hx)).2.2.2.2 err2 status2 rfl
      | drainFailed requested err1 br h1 => simp at hcl
      | completed => simp at hcl
    | blocked s =>
      simp only [Outcome.state]
      rintro h hmem he
      rw [he] at hmem
      exact absurd hmem hbody
    | undefined s =>
      simp only [Outcome.state]
      rintro h hmem he
      rw [he] at hmem
      exact absurd hmem hbody

theorem device_error_abort_witness :
    (start 8 errorWorld).state.events =
        [Event.lockInterface, Event.message Message.fileOpened, Event.updateStatistics 0 0,
          Event.controlOut 8 0, Event.statusQuery 8 ⟨0, 0⟩, Event.statusQuery 8 ⟨0, 4⟩,
          Event.bulkTransfer 4 0 2, Event.message (Message.warning 2 2),
          Event.bulkTransfer 2 0 2, Event.fileWrite [1, 2, 3, 4], Event.updateStatistics 4 0]
        ++ Event.statusQuery 8 ⟨2, 6⟩ ::
          [Event.fileClose, Event.updateStatistics 6 2, Event.message Message.deviceError,
            Event.unlockInterface] ∧
      ([Event.fileClose, Event.updateStatistics 6 2, Event.message Message.deviceError,
          Event.unlockInterface] =
        [Event.fileClose, Event.updateStatistics 6 2, Event.message Message.deviceError,
          Event.unlockInterface] ∧
      start 8 errorWorld = Outcome.returns () (start 8 errorWorld).state ∧
      Event.message Message.completed ∉ (start 8 errorWorld).state.events ∧
      (∀ err1 status1, Event.statusQuery err1 status1 ∈
          [Event.lockInterface, Event.message Message.fileOpened, Event.updateStatistics 0 0,
            Event.controlOut 8 0, Event.statusQuery 8 ⟨0, 0⟩, Event.statusQuery 8 ⟨0, 4⟩,
            Event.bulkTransfer 4 0 2, Event.message (Message.warning 2 2),
            Event.bulkTransfer 2 0 2, Event.fileWrite [1, 2, 3, 4],
            Event.updateStatistics 4 0] →
        0 ≤ err1 ∧ status1.errorCount = 0)) :=
  ⟨by decide, device_error_abort 8 errorWorld _ _ 8 ⟨2, 6⟩ (by decide) (by decide) (by decide)⟩

/-- C18, counterexample: `start` called with the divider 1, and with the divider 2000,
sends the start command with that divider as its first transfer. -/
theorem divider_unchecked_counterexample :
    (start 1 exampleWorld).state.events.take 4 =
        [Event.lockInterface, Event.message Message.fileOpened, Event.updateStatistics 0 0,
          Event.controlOut 1 0] ∧
      (start 2000 exampleWorld).state.events.take 4 =
        [Event.lockInterface, Event.message Message.fileOpened, Event.updateStatistics 0 0,
          Event.controlOut 2000 0] ∧
      (1 : Int) < 2 ∧ (1024 : Int) < 2000 := by
  decide

/-- C18, amended: `start` does not look at the divider. Whenever the file opens, its first
transfer is the start command carrying the divider it was given (as a 16-bit value),
whatever the value; when the file does not open, it makes no transfer. The dividers
`MainWindow::startPressed` passes are 24, 18, 12, 10 and 8, all within 2..1024. -/
theorem start_sends_divider (clkDiv : Int) (w : World) :
    (w.fileOpens = true → ∃ rest, (start clkDiv w).state.events =
      [Event.lockInterface, Event.message Message.fileOpened, Event.updateStatistics 0 0,
        Event.controlOut (toUInt16 clkDiv) w.startErr] ++ rest) ∧
    (0 ≤ clkDiv → clkDiv < 65536 → toUInt16 clkDiv = clkDiv) ∧
    (w.fileOpens = false →
      start clkDiv w = Outcome.returns () (start clkDiv w).state ∧
      (start clkDiv w).state.events = [Event.message Message.fileOpeningError]) ∧
    (∀ currentIndex, startPressedClkDiv currentIndex ∈ [24, 18, 12, 10, 8] ∧
      2 ≤ startPressedClkDiv currentIndex ∧ startPressedClkDiv currentIndex ≤ 1024) ∧
    [startPressedClkDiv 0, startPressedClkDiv 1, startPressedClkDiv 2, startPressedClkDiv 3,
      startPressedClkDiv 4] = [24, 18, 12, 10, 8] := by
  refine ⟨fun hf => start_armed clkDiv w hf, ?_, ?_, ?_, by decide⟩
  · intro h0 h1
    unfold toUInt16
    omega
  · intro hf
    unfold start
    simp [hf, Outcome.state]
  · intro i
    unfold startPressedClkDiv
    split_ifs <;> simp

/-- C19: for every run of `start` that returns. If the file cannot be opened, the only
event is the message of the error: no transfer, no `lockInterface`, no
`unlockInterface`. Otherwise the first event is `lockInterface`, the last one is
`unlockInterface`, each occurs exactly once, and the file is closed exactly once,
between them, with only messages and `updateStatistics` after it. -/
theorem lock_unlock_discipline (clkDiv : Int) (w : World) (s : Capture)
    (h : start clkDiv w = Outcome.returns () s) :
    (w.fileOpens = false → s.events = [Event.message Message.fileOpeningError]) ∧
    (w.fileOpens = true →
      s.events.count Event.lockInterface = 1 ∧ s.events.count Event.unlockInterface = 1 ∧
      s.events.count Event.fileClose = 1 ∧
      ∃ body tail, s.events =
          Event.lockInterface :: body ++ Event.fileClose :: tail ++ [Event.unlockInterface] ∧
        (∀ e ∈ tail, (∃ m, e = Event.message m) ∨ ∃ bc ec, e = Event.updateStatistics bc ec)) := by
  constructor
  · intro hf
    unfold start at h
    simp only [hf, if_true] at h
    cases h
    rfl
  · intro hf
    obtain ⟨body, hq, hm⟩ := start_shape clkDiv w hf
    rw [h] at hm
    obtain ⟨closing, hc, he⟩ := hm
    have key : ∃ pre tail, closing = pre ++ Event.fileClose :: tail ++ [Event.unlockInterface] ∧
        (∀ e ∈ pre, e ≠ Event.lockInterface ∧ e ≠ Event.unlockInterface ∧
          e ≠ Event.fileClose) ∧
        (∀ e ∈ tail, (∃ m, e = Event.message m) ∨
          ∃ bc ec, e = Event.updateStatistics bc ec) := by
      cases hc with
      | controlFailed n wValue err h1 =>
        exact ⟨[Event.controlOut wValue err], [Event.message (Message.controlFail n err)],
          rfl, by simp, by simp⟩
      | statusFailed n err status h1 =>
        exact ⟨[Event.statusQuery err status], [Event.message (Message.controlFail n err)],
          rfl, by simp, by simp⟩
      | deviceError err status h1 h2 =>
        exact ⟨[Event.statusQuery err status],
          [Event.updateStatistics status.bytesCommited status.errorCount,
            Event.message Message.deviceError], rfl, by simp, by simp⟩
      | drainFailed requested err br h1 =>
        exact ⟨[Event.bulkTransfer requested err br, Event.message (Message.bulkFail err)],
          [], rfl, by simp, by simp⟩
      | completed =>
        exact ⟨[], [Event.message Message.completed], rfl, by simp, by simp⟩
    obtain ⟨pre, tail, hcl, hpre, htail⟩ := key
    have hbody : ∀ e ∈ body ++ pre, e ≠ Event.lockInterface ∧ e ≠ Event.unlockInterface ∧
        e ≠ Event.fileClose := by
      intro e hx
      rcases List.mem_append.1 hx with hx | hx
      · have := quiet_session e (hq e hx)
        exact ⟨this.1, this.2.1, this.2.2.1⟩
      · exact hpre e hx
    have htl : ∀ e ∈ tail, e ≠ Event.lockInterface ∧ e ≠ Event.unlockInterface ∧
        e ≠ Event.fileClose := by
      intro e hx
      rcases htail e hx with ⟨m, rfl⟩ | ⟨bc, ec, rfl⟩ <;> simp
    have hev : s.events = Event.lockInterface :: (body ++ pre) ++ Event.fileClose :: tail
        ++ [Event.unlockInterface] := by
      rw [he, hcl]; simp
    have c : ∀ (l : List Event) (x : Event), (∀ e ∈ l, e ≠ x) → l.count x = 0 :=
      fun l x hx => List.count_eq_zero.2 fun hm => hx x hm rfl
    refine ⟨?_, ?_, ?_, body ++ pre, tail, hev, htail⟩
    · rw [hev]
      simp only [List.cons_append, List.count_cons, List.count_append, List.count_nil]
      rw [c body _ fun e hx => (hbody e (List.mem_append_left _ hx)).1,
        c pre _ fun e hx => (hbody e (List.mem_append_right _ hx)).1,
        c tail _ fun e hx => (htl e hx).1]
      simp
    · rw [hev]
      simp only [List.cons_append, List.count_cons, List.count_append, List.count_nil]
      rw [c body _ fun e hx => (hbody e (List.mem_append_left _ hx)).2.1,
        c pre _ fun e hx => (hbody e (List.mem_append_right _ hx)).2.1,
        c tail _ fun e hx => (htl e hx).2.1]
      simp
    · rw [hev]
      simp only [List.cons_append, List.count_cons, List.count_append, List.count_nil]
      rw [c body _ fun e hx => (hbody e (List.mem_append_left _ hx)).2.2,
        c pre _ fun e hx => (hbody e (List.mem_append_right _ hx)).2.2,
        c tail _ fun e hx => (htl e hx).2.2]
      simp

theorem lock_unlock_discipline_witness :
    start 8 exampleWorld = Outcome.returns () (start 8 exampleWorld).state ∧
      exampleWorld.fileOpens = true ∧
      (start 8 exampleWorld).state.events.count Event.lockInterface = 1 ∧
      (start 8 exampleWorld).state.events.count Event.unlockInterface = 1 ∧
      (start 8 exampleWorld).state.events.count Event.fileClose = 1 ∧
      ∃ body tail, (start 8 exampleWorld).state.events =
          Event.lockInterface :: body ++ Event.fileClose :: tail ++ [Event.unlockInterface] ∧
        (∀ e ∈ tail, (∃ m, e = Event.message m) ∨ ∃ bc ec, e = Event.updateStatistics bc ec) :=
  ⟨rfl, rfl, (lock_unlock_discipline 8 exampleWorld (start 8 exampleWorld).state rfl).2 rfl⟩

/-- A run of `start` that reports "Completed.", each transfer of which has received at most
the bytes it asked for: what each iteration of the capture loop and the stop sequence
read and append, and the length of the file after each of them. -/
theorem completed_run_spec (clkDiv : Int) (w : World) (s : Capture)
    (h : start clkDiv w = Outcome.returns () s)
    (hc : Event.message Message.completed ∈ s.events)
    (hw : ∀ e ∈ s.events, Event.fitsRequest e = true) :
    (∀ k p, w.polls[k]? = some p → ∃ sk sk1 used usedAll,
        captureLoop (w.polls.take k) (Capture.armed clkDiv w) = Outcome.returns true sk ∧
        captureLoop (w.polls.take (k + 1)) (Capture.armed clkDiv w)
          = Outcome.returns true sk1 ∧
        sk.bulk = used ++ sk1.bulk ∧ sk1.file = sk.file ++ received used ∧
        (received used).length = p.status.bytesCommited - sk.bytesCommited ∧
        sk1.events = sk.events ++ Event.statusQuery p.err p.status ::
          (if sk.bytesCommited < p.status.bytesCommited then
            transferEvents (p.status.bytesCommited - sk.bytesCommited) 0 used
              ++ [Event.fileWrite (received used),
                Event.updateStatistics p.status.bytesCommited p.status.errorCount]
          else []) ∧
        w.bulk = usedAll ++ sk1.bulk ∧ sk1.file = received usedAll ∧
        sk1.file.length = largestCommited 0 (w.polls.take (k + 1)) ∧
        sk1.bytesCommited = largestCommited 0 (w.polls.take (k + 1))) ∧
    (∃ s1 used usedAll,
        captureLoop w.polls (Capture.armed clkDiv w) = Outcome.returns true s1 ∧
        s1.bulk = used ++ s.bulk ∧ s.file = s1.file ++ received used ∧
        (received used).length = w.lastPoll.status.bytesCommited - s1.bytesCommited ∧
        s.events = s1.events ++ [Event.controlOut 0 w.stopErr,
            Event.statusQuery w.lastPoll.err w.lastPoll.status]
          ++ (if s1.bytesCommited < w.lastPoll.status.bytesCommited then
            transferEvents (w.lastPoll.status.bytesCommited - s1.bytesCommited) 0 used
              ++ [Event.fileWrite (received used),
                Event.updateStatistics w.lastPoll.status.bytesCommited
                  w.lastPoll.status.errorCount]
          else [])
          ++ [Event.fileClose, Event.message Message.completed, Event.unlockInterface] ∧
        w.bulk = usedAll ++ s.bulk ∧ s.file = received usedAll) ∧
    s.file.length = largestCommited 0 (w.polls ++ [w.lastPoll]) := by
  obtain ⟨s1, s3, hloop, hrecv, hs⟩ := start_completed clkDiv w s h hc
  have hw3 : ∀ e ∈ s3.events, Event.fitsRequest e = true := by
    intro e he
    apply hw
    rw [hs]
    exact List.mem_append_left _ he
  obtain ⟨rest3, hrest3⟩ := continuesFrom_prefix _ _ (receiveData_shape false
    w.lastPoll.status { s1 with events := s1.events ++ [Event.controlOut 0 w.stopErr]
      ++ [Event.statusQuery w.lastPoll.err w.lastPoll.status] })
  rw [hrecv] at hrest3
  simp only [Outcome.state] at hrest3
  have hw1 : ∀ e ∈ s1.events, Event.fitsRequest e = true := by
    intro e he
    apply hw3
    rw [hrest3]
    simp [he]
  obtain ⟨⟨usedL, huL, hfL, hlL⟩, hbL, hsL⟩ :=
    captureLoop_spec w.polls (Capture.armed clkDiv w) s1 rfl hloop hw1
  have hfinal : ∃ used, s1.bulk = used ++ s3.bulk ∧ s3.file = s1.file ++ received used ∧
      (received used).length = w.lastPoll.status.bytesCommited - s1.bytesCommited ∧
      s3.events = s1.events ++ [Event.controlOut 0 w.stopErr,
          Event.statusQuery w.lastPoll.err w.lastPoll.status]
        ++ (if s1.bytesCommited < w.lastPoll.status.bytesCommited then
          transferEvents (w.lastPoll.status.bytesCommited - s1.bytesCommited) 0 used
            ++ [Event.fileWrite (received used),
              Event.updateStatistics w.lastPoll.status.bytesCommited
                w.lastPoll.status.errorCount]
        else []) := by
    by_cases hgt : s1.bytesCommited < w.lastPoll.status.bytesCommited
    · obtain ⟨used, hu, hlen, hfile, hev, -, -⟩ := receiveData_spec false w.lastPoll.status
        { s1 with events := s1.events ++ [Event.controlOut 0 w.stopErr]
          ++ [Event.statusQuery w.lastPoll.err w.lastPoll.status] } s3
        (show s1.buffer.size = DEFAULT_BUFFER_SIZE from hsL) hgt hrecv hw3
      exact ⟨used, hu, hfile, hlen, by rw [hev, if_pos hgt]; simp⟩
    · have hrecv2 := hrecv
      unfold receiveData at hrecv2
      rw [if_neg (by simpa using hgt)] at hrecv2
      simp only [Outcome.returns.injEq, true_and] at hrecv2
      rw [← hrecv2]
      refine ⟨[], rfl, by simp [received_nil], ?_, ?_⟩
      · simp only [received_nil, List.length_nil]; omega
      · rw [if_neg hgt]; simp
  obtain ⟨used3, hu3, hf3, hl3, hev3⟩ := hfinal
  simp only [Capture.armed, List.nil_append, Nat.zero_add] at huL hfL hlL hbL
  refine ⟨?_, ⟨s1, used3, usedL ++ used3, hloop, ?_, ?_, hl3, ?_, ?_, ?_⟩, ?_⟩
  · intro k p hk
    have hklt : k < w.polls.length := (List.getElem?_eq_some.1 hk).1
    have hkp : w.polls[k] = p := (List.getElem?_eq_some.1 hk).2
    have hsplit : w.polls = w.polls.take k ++ p :: w.polls.drop (k + 1) := by
      rw [← hkp, ← List.drop_eq_getElem_cons hklt, List.take_append_drop]
    have htake : w.polls.take (k + 1) = w.polls.take k ++ [p] := by
      rw [List.take_succ, hk]; rfl
    have hloop2 := hloop
    rw [hsplit] at hloop2
    obtain ⟨sk, hsk, hrest⟩ := captureLoop_append _ _ _ _ hloop2
    unfold captureLoop at hrest
    cases hl : loopBody p sk with
    | returns value sk1 =>
      rw [hl] at hrest
      cases value with
      | false => simp at hrest
      | true =>
        simp only [] at hrest
        obtain ⟨r1, hr1⟩ := captureLoop_events_prefix _ _ _ hrest
        have hwk1 : ∀ e ∈ sk1.events, Event.fitsRequest e = true :=
          fun e he => hw1 e (by rw [hr1]; exact List.mem_append_left _ he)
        have hsk1 : captureLoop (w.polls.take (k + 1)) (Capture.armed clkDiv w)
            = Outcome.returns true sk1 := by
          rw [htake, captureLoop_append_eq _ _ _ _ hsk]
          simp only [captureLoop, hl]
        obtain ⟨r0, hr0⟩ : ∃ r0, sk1.events = sk.events ++ r0 := by
          obtain ⟨r, hr⟩ := continuesFrom_prefix _ _ (loopBody_shape p sk)
          rw [hl] at hr
          exact ⟨r, hr⟩
        have hwk : ∀ e ∈ sk.events, Event.fitsRequest e = true :=
          fun e he => hwk1 e (by rw [hr0]; exact List.mem_append_left _ he)
        obtain ⟨-, -, hszk⟩ := captureLoop_spec _ (Capture.armed clkDiv w) sk rfl hsk hwk
        obtain ⟨⟨used, hu, hf, hlen, hev⟩, -, -⟩ :=
          loopBody_spec p sk sk1 (by rw [hszk]; rfl) hl hwk1
        obtain ⟨⟨usedAll, huA, hfA, hlA⟩, hbA, -⟩ :=
          captureLoop_spec _ (Capture.armed clkDiv w) sk1 rfl hsk1 hwk1
        simp only [Capture.armed, List.nil_append, Nat.zero_add] at huA hfA hlA hbA
        exact ⟨sk, sk1, used, usedAll, hsk, hsk1, hu, hf, hlen, hev, huA, hfA,
          by rw [hfA]; exact hlA, hbA⟩
    | blocked sk1 => rw [hl] at hrest; simp at hrest
    | undefined sk1 => rw [hl] at hrest; simp at hrest
  · rw [hs]; exact hu3
  · rw [hs]; exact hf3
  · rw [hs]
    simp only [hev3, List.append_assoc]
  · rw [hs]
    simp only []
    rw [huL, hu3, List.append_assoc]
  · rw [hs]
    simp only []
    rw [hf3, hfL, received_append]
  · rw [hs]
    simp only []
    rw [hf3, hfL, List.length_append, hlL, hl3, largestCommited_append, hbL]
    rcases Nat.le_total (largestCommited 0 w.polls) w.lastPoll.status.bytesCommited
      with hle | hle
    · rw [Nat.max_eq_right hle]; omega
    · rw [Nat.max_eq_left hle]; omega

theorem readBulkLoop_drain (L : Nat) : ∀ (bulk : List BulkReply) (b : Nat) (s : Capture)
    (rest : List BulkReply), drainReplies L bulk b = some rest → L ≤ s.buffer.size →
    (∀ e ∈ s.events, Event.fitsRequest e = true) →
    ∃ s1, readBulkLoop L bulk b s = Outcome.returns true s1 ∧ s1.bulk = rest ∧
      (∀ e ∈ s1.events, Event.fitsRequest e = true) ∧ s1.buffer.size = s.buffer.size := by
  intro bulk
  induction bulk with
  | nil =>
    intro b s rest hd _ hw
    unfold drainReplies at hd
    by_cases hb : b < L
    · rw [if_pos hb] at hd
      cases hd
    · rw [if_neg hb] at hd
      cases hd
      unfold readBulkLoop
      rw [if_neg (by omega)]
      exact ⟨_, rfl, rfl, hw, rfl⟩
  | cons r rs ih =>
    intro b s rest hd hsz hw
    unfold drainReplies at hd
    by_cases hb : b < L
    · rw [if_pos hb] at hd
      by_cases hr : 0 ≤ r.err ∧ b + r.bytes.length ≤ L
      · rw [if_pos hr] at hd
        unfold readBulkLoop
        rw [if_pos (by omega), if_neg (by omega)]
        simp only [QByteArray.poke]
        rw [if_pos (by omega)]
        simp only []
        have hfit : ∀ e ∈ s.events
            ++ [Event.bulkTransfer ((L : Int) - (b : Int)) r.err r.bytes.length],
            Event.fitsRequest e = true := by
          intro e he
          rcases List.mem_append.1 he with he | he
          · exact hw e he
          · rw [List.mem_singleton.1 he]
            simp only [Event.fitsRequest, decide_eq_true_eq]
            omega
        by_cases hlt : ((b + r.bytes.length : Nat) : Int) < (L : Int)
        · rw [if_pos hlt]
          refine ih (b + r.bytes.length) _ rest hd hsz ?_
          intro e he
          rcases List.mem_append.1 he with he | he
          · exact hfit e he
          · rw [List.mem_singleton.1 he]
            rfl
        · rw [if_neg hlt]
          exact ih (b + r.bytes.length) _ rest hd hsz hfit
      · rw [if_neg hr] at hd
        cases hd
    · rw [if_neg hb] at hd
      cases hd
      unfold readBulkLoop
      rw [if_neg (by omega)]
      exact ⟨_, rfl, rfl, hw, rfl⟩

theorem receiveData_drain (record : Bool) (status : status_t) (s : Capture)
    (rest : List BulkReply) (hsz : s.buffer.size = DEFAULT_BUFFER_SIZE)
    (hgt : s.bytesCommited < status.bytesCommited)
    (hle : status.bytesCommited ≤ s.bytesCommited + DEFAULT_BUFFER_SIZE)
    (hd : drainReplies (status.bytesCommited - s.bytesCommited) s.bulk 0 = some rest)
    (hw : ∀ e ∈ s.events, Event.fitsRequest e = true) :
    ∃ s1, receiveData record status s = Outcome.returns true s1 ∧ s1.bulk = rest ∧
      (∀ e ∈ s1.events, Event.fitsRequest e = true) ∧
      s1.buffer.size = DEFAULT_BUFFER_SIZE ∧
      s1.bytesCommited = (if record then status.bytesCommited else s.bytesCommited) := by
  have hL : status.bytesCommited - s.bytesCommited ≤ DEFAULT_BUFFER_SIZE := by omega
  obtain ⟨s1, h1, h2, h3, h4⟩ := readBulkLoop_drain _ s.bulk 0 s rest hd
    (by rw [hsz]; exact hL) hw
  have hb : s1.bytesCommited = s.bytesCommited := by
    obtain ⟨evs, -, hm⟩ :=
      readBulkLoop_shape ((status.bytesCommited - s.bytesCommited : Nat) : Int) s.bulk 0 s
    rw [h1] at hm
    exact hm.2.2.1
  unfold receiveData
  rw [if_pos hgt, toInt32_of_le _ hL]
  unfold readBulkData
  rw [h1]
  simp only [QByteArray.peek]
  rw [if_pos (by rw [h4, hsz]; exact hL)]
  refine ⟨_, rfl, h2, ?_, by rw [← hsz, ← h4], ?_⟩
  · intro e he
    rcases List.mem_append.1 he with he | he
    · exact h3 e he
    · simp only [List.mem_cons, List.mem_singleton, List.not_mem_nil, or_false] at he
      rcases he with he | he <;> rw [he] <;> rfl
  · show (if record then status.bytesCommited else s1.bytesCommited) = _
    rw [hb]

theorem receiveData_clean (record : Bool) (p : StatusReply) (polls : List StatusReply)
    (s : Capture) (hsz : s.buffer.size = DEFAULT_BUFFER_SIZE)
    (hw : ∀ e ∈ s.events, Event.fitsRequest e = true)
    (hc : cleanSession DEFAULT_BUFFER_SIZE s.bytesCommited (p :: polls) s.bulk = true) :
    0 ≤ p.err ∧ p.status.errorCount = 0 ∧
    ∃ s1, receiveData record p.status s = Outcome.returns true s1 ∧
      s1.buffer.size = DEFAULT_BUFFER_SIZE ∧
      (∀ e ∈ s1.events, Event.fitsRequest e = true) ∧
      (record = true →
        cleanSession DEFAULT_BUFFER_SIZE s1.bytesCommited polls s1.bulk = true) := by
  unfold cleanSession at hc
  simp only [Bool.and_eq_true, decide_eq_true_eq] at hc
  obtain ⟨⟨⟨h1, h2⟩, h3⟩, h4⟩ := hc
  refine ⟨h1, h2, ?_⟩
  by_cases hgt : s.bytesCommited < p.status.bytesCommited
  · rw [if_pos hgt] at h4
    cases hd : drainReplies (p.status.bytesCommited - s.bytesCommited) s.bulk 0 with
    | none =>
      rw [hd] at h4
      cases h4
    | some rest =>
      rw [hd] at h4
      simp only [] at h4
      obtain ⟨s1, e1, e2, e3, e4, e5⟩ := receiveData_drain record p.status s rest hsz hgt h3 hd hw
      refine ⟨s1, e1, e4, e3, ?_⟩
      intro hr
      rw [hr, if_pos rfl] at e5
      rw [e5, e2]
      exact h4
  · rw [if_neg hgt] at h4
    unfold receiveData
    rw [if_neg (by omega)]
    exact ⟨s, rfl, hsz, hw, fun _ => h4⟩

theorem captureLoop_clean (tail : List StatusReply) : ∀ (polls : List StatusReply)
    (s : Capture), s.buffer.size = DEFAULT_BUFFER_SIZE →
    (∀ e ∈ s.events, Event.fitsRequest e = true) →
    cleanSession DEFAULT_BUFFER_SIZE s.bytesCommited (polls ++ tail) s.bulk = true →
    ∃ s1, captureLoop polls s = Outcome.returns true s1 ∧
      s1.buffer.size = DEFAULT_BUFFER_SIZE ∧
      (∀ e ∈ s1.events, Event.fitsRequest e = true) ∧
      cleanSession DEFAULT_BUFFER_SIZE s1.bytesCommited tail s1.bulk = true := by
  intro polls
  induction polls with
  | nil =>
    intro s hsz hw hc
    exact ⟨s, rfl, hsz, hw, hc⟩
  | cons p polls ih =>
    intro s hsz hw hc
    have hw1 : ∀ e ∈ s.events ++ [Event.statusQuery p.err p.status],
        Event.fitsRequest e = true := by
      intro e he
      rcases List.mem_append.1 he with he | he
      · exact hw e he
      · rw [List.mem_singleton.1 he]
        rfl
    obtain ⟨h1, h2, s1, e1, e2, e3, e4⟩ := receiveData_clean true p (polls ++ tail)
      { s with events := s.events ++ [Event.statusQuery p.err p.status] } hsz hw1 hc
    unfold captureLoop loopBody pollStatus
    rw [if_neg (by omega), if_neg (by omega)]
    simp only []
    rw [e1]
    simp only []
    exact ih s1 e2 e3 (e4 rfl)

theorem start_completes (clkDiv : Int) (w : World) (hf : w.fileOpens = true)
    (h0 : 0 ≤ w.startErr) (h2 : 0 ≤ w.stopErr)
    (hc : cleanSession DEFAULT_BUFFER_SIZE 0 (w.polls ++ [w.lastPoll]) w.bulk = true) :
    ∃ s, start clkDiv w = Outcome.returns () s ∧
      Event.message Message.completed ∈ s.events ∧
      ∀ e ∈ s.events, Event.fitsRequest e = true := by
  obtain ⟨s1, e1, e2, e3, e4⟩ := captureLoop_clean [w.lastPoll] w.polls
    (Capture.armed clkDiv w) rfl (by
      intro e he
      simp only [Capture.armed, List.mem_cons, List.mem_singleton, List.not_mem_nil,
        or_false] at he
      rcases he with he | he | he | he <;> rw [he] <;> rfl) hc
  have hw1 : ∀ e ∈ s1.events ++ [Event.controlOut 0 w.stopErr]
      ++ [Event.statusQuery w.lastPoll.err w.lastPoll.status],
      Event.fitsRequest e = true := by
    intro e he
    rcases List.mem_append.1 he with he | he
    · rcases List.mem_append.1 he with he | he
      · exact e3 e he
      · rw [List.mem_singleton.1 he]
        rfl
    · rw [List.mem_singleton.1 he]
      rfl
  obtain ⟨h3, h4, s3, f1, -, f3, -⟩ := receiveData_clean false w.lastPoll []
    { s1 with events := s1.events ++ [Event.controlOut 0 w.stopErr]
      ++ [Event.statusQuery w.lastPoll.err w.lastPoll.status] } e2 hw1 e4
  unfold start
  rw [if_neg (by rw [hf]; decide), if_neg (by omega), e1]
  simp only []
  unfold stopSequence pollStatus
  rw [if_neg (by omega), if_neg (by omega), if_neg (by omega)]
  simp only []
  rw [f1]
  simp only []
  refine ⟨_, rfl, by simp, ?_⟩
  intro e he
  rcases List.mem_append.1 he with he | he
  · exact f3 e he
  · simp only [List.mem_cons, List.mem_singleton, List.not_mem_nil, or_false] at he
    rcases he with he | he | he <;> rw [he] <;> rfl

theorem readBulkLoop_overrun (L : Int) (r : BulkReply) (rest : List BulkReply) (b : Nat)
    (s : Capture) (hb : (b : Int) < L) (hr : 0 ≤ r.err)
    (hs : s.buffer.size < b + r.bytes.length) :
    readBulkLoop L (r :: rest) b s = Outcome.undefined
      { s with
        bulk := rest
        events := s.events ++ [Event.bulkTransfer (L - b) r.err r.bytes.length] } := by
  unfold readBulkLoop
  rw [if_pos hb, if_neg (by omega)]
  simp only [QByteArray.poke]
  rw [if_neg (by omega)]

theorem start_overrun (clkDiv : Int) (w : World) (p : StatusReply) (polls : List StatusReply)
    (err : Int) (bytes : List Nat) (rest : List BulkReply) (hf : w.fileOpens = true)
    (h0 : 0 ≤ w.startErr) (hp : w.polls = p :: polls) (hb : w.bulk = ⟨err, bytes⟩ :: rest)
    (hpe : 0 ≤ p.err) (hpc : p.status.errorCount = 0) (hgt : 0 < p.status.bytesCommited)
    (hL : 0 < toInt32 (p.status.bytesCommited - 0)) (hr : 0 ≤ err)
    (hlen : DEFAULT_BUFFER_SIZE < bytes.length) :
    start clkDiv w = Outcome.undefined
      { events := [Event.lockInterface, Event.message Message.fileOpened,
          Event.updateStatistics 0 0, Event.controlOut (toUInt16 clkDiv) w.startErr,
          Event.statusQuery p.err p.status,
          Event.bulkTransfer (toInt32 (p.status.bytesCommited - 0)) err bytes.length]
        file := [], bulk := rest, buffer := ⟨DEFAULT_BUFFER_SIZE, []⟩, bytesCommited := 0 } := by
  unfold start
  rw [if_neg (by rw [hf]; decide), if_neg (by omega), hp]
  unfold captureLoop loopBody pollStatus
  rw [if_neg (by omega), if_neg (by omega)]
  unfold receiveData readBulkData
  simp only [Capture.armed]
  rw [if_pos (show p.status.bytesCommited > 0 from hgt)]
  rw [hb, readBulkLoop_overrun _ _ _ _ _ (by simpa using hL) hr
    (by simp only []; omega)]
  simp

/-- C20, counterexample: in the script `largeDrainWorld` the file opens, no command, status
query or transfer fails, no device error is reported, and the one transfer of the drain
delivers the 70000 bytes asked for. The bytes do not fit the buffer of 65536 bytes: the
call stores them outside it and does not come to append them, the file being empty
still when the largest `bytesCommited` polled is 70000. -/
theorem large_drain_counterexample :
    largeDrainWorld.fileOpens = true ∧ 0 ≤ largeDrainWorld.startErr
    ∧ 0 ≤ largeDrainWorld.stopErr
    ∧ cleanSession 70000 0 (largeDrainWorld.polls ++ [largeDrainWorld.lastPoll])
        largeDrainWorld.bulk = true
    ∧ start 8 largeDrainWorld = Outcome.undefined
        { events := [Event.lockInterface, Event.message Message.fileOpened,
            Event.updateStatistics 0 0, Event.controlOut 8 0, Event.statusQuery 8 ⟨0, 70000⟩,
            Event.bulkTransfer 70000 0 70000]
          file := [], bulk := [], buffer := ⟨DEFAULT_BUFFER_SIZE, []⟩, bytesCommited := 0 }
    ∧ largestCommited 0 largeDrainWorld.polls = 70000 := by
  have hlen : (List.replicate 70000 (0 : Nat)).length = 70000 := List.length_replicate _ _
  have clean : ∀ bytes : List Nat, bytes.length = 70000 →
      cleanSession 70000 0 ([(⟨8, ⟨0, 70000⟩⟩ : StatusReply)] ++ [⟨8, ⟨0, 70000⟩⟩])
        [⟨0, bytes⟩] = true := by
    intro bytes hlen
    simp only [List.cons_append, List.nil_append, cleanSession, drainReplies, hlen]
    simp
  have e1 : toInt32 (70000 - 0) = 70000 := by decide
  have e2 : toUInt16 8 = 8 := by decide
  refine ⟨rfl, by decide, by decide, clean _ hlen, ?_, by decide⟩
  rw [start_overrun 8 largeDrainWorld ⟨8, ⟨0, 70000⟩⟩ [] 0 (List.replicate 70000 0) [] rfl
    (by decide) rfl rfl (by decide) rfl (by decide) (by decide) (by decide)
    (by rw [hlen]; decide)]
  show Outcome.undefined
      { events := [Event.lockInterface, Event.message Message.fileOpened,
          Event.updateStatistics 0 0, Event.controlOut (toUInt16 8) 0,
          Event.statusQuery 8 ⟨0, 70000⟩,
          Event.bulkTransfer (toInt32 (70000 - 0)) 0 (List.replicate 70000 (0 : Nat)).length]
        file := [], bulk := [], buffer := ⟨DEFAULT_BUFFER_SIZE, []⟩, bytesCommited := 0 } = _
  rw [hlen, e1, e2]

/-- C20 (amended). For every script in which the file opens, the start and the stop command
succeed and the status replies and the transfers make a session without errors
(`cleanSession`: no status query fails, none reports a device error, every drain is
delivered in full by transfers that succeed, and every status reply exceeds the recorded
`bytesCommited` by at most the 65536 bytes of the buffer), `start` returns and reports
"Completed.". In each iteration of the capture loop, and in the stop sequence, a status
whose `bytesCommited` is above the recorded one is followed by transfers asking for the
difference in all (each for the bytes outstanding), the bytes received are appended to
the file in arrival order, as many as the difference, and `updateStatistics` follows;
otherwise nothing is read or written. After every iteration of the loop the file holds
the bytes of the transfers used so far, and its length and the recorded `bytesCommited`
are the largest `bytesCommited` of the status replies so far. At the end the file holds
the bytes of all the transfers used, and its length is the largest `bytesCommited` of
all the status replies, the one after the stop command included. -/
theorem persisted_tracks_committed (clkDiv : Int) (w : World)
    (hf : w.fileOpens = true) (h0 : 0 ≤ w.startErr) (h2 : 0 ≤ w.stopErr)
    (hc : cleanSession DEFAULT_BUFFER_SIZE 0 (w.polls ++ [w.lastPoll]) w.bulk = true) :
    ∃ s, start clkDiv w = Outcome.returns () s ∧
    Event.message Message.completed ∈ s.events ∧
    (∀ k p, w.polls[k]? = some p → ∃ sk sk1 used usedAll,
        captureLoop (w.polls.take k) (Capture.armed clkDiv w) = Outcome.returns true sk ∧
        captureLoop (w.polls.take (k + 1)) (Capture.armed clkDiv w)
          = Outcome.returns true sk1 ∧
        sk.bulk = used ++ sk1.bulk ∧ sk1.file = sk.file ++ received used ∧
        (received used).length = p.status.bytesCommited - sk.bytesCommited ∧
        sk1.events = sk.events ++ Event.statusQuery p.err p.status ::
          (if sk.bytesCommited < p.status.bytesCommited then
            transferEvents (p.status.bytesCommited - sk.bytesCommited) 0 used
              ++ [Event.fileWrite (received used),
                Event.updateStatistics p.status.bytesCommited p.status.errorCount]
          else []) ∧
        w.bulk = usedAll ++ sk1.bulk ∧ sk1.file = received usedAll ∧
        sk1.file.length = largestCommited 0 (w.polls.take (k + 1)) ∧
        sk1.bytesCommited = largestCommited 0 (w.polls.take (k + 1))) ∧
    (∃ s1 used usedAll,
        captureLoop w.polls (Capture.armed clkDiv w) = Outcome.returns true s1 ∧
        s1.bulk = used ++ s.bulk ∧ s.file = s1.file ++ received used ∧
        (received used).length = w.lastPoll.status.bytesCommited - s1.bytesCommited ∧
        s.events = s1.events ++ [Event.controlOut 0 w.stopErr,
            Event.statusQuery w.lastPoll.err w.lastPoll.status]
          ++ (if s1.bytesCommited < w.lastPoll.status.bytesCommited then
            transferEvents (w.lastPoll.status.bytesCommited - s1.bytesCommited) 0 used
              ++ [Event.fileWrite (received used),
                Event.updateStatistics w.lastPoll.status.bytesCommited
                  w.lastPoll.status.errorCount]
          else [])
          ++ [Event.fileClose, Event.message Message.completed, Event.unlockInterface] ∧
        w.bulk = usedAll ++ s.bulk ∧ s.file = received usedAll) ∧
    s.file.length = largestCommited 0 (w.polls ++ [w.lastPoll]) := by
  obtain ⟨s, h, hcomp, hw⟩ := start_completes clkDiv w hf h0 h2 hc
  exact ⟨s, h, hcomp, completed_run_spec clkDiv w s h hcomp hw⟩

/-- C20 (witness). The script `exampleWorld` is a session without errors; its run returns,
reports "Completed." and leaves the twelve bytes delivered in the file, twelve being the
largest `bytesCommited` polled. -/
theorem persisted_tracks_committed_witness :
    exampleWorld.fileOpens = true ∧ 0 ≤ exampleWorld.startErr ∧ 0 ≤ exampleWorld.stopErr ∧
      cleanSession DEFAULT_BUFFER_SIZE 0 (exampleWorld.polls ++ [exampleWorld.lastPoll])
        exampleWorld.bulk = true ∧
      (start 8 exampleWorld).state.file = [1, 2, 3, 4, 5, 6, 7, 8, 9, 10, 11, 12] ∧
      largestCommited 0 (exampleWorld.polls ++ [exampleWorld.lastPoll]) = 12 ∧
      ∃ s, start 8 exampleWorld = Outcome.returns () s ∧
        Event.message Message.completed ∈ s.events ∧
        s.file.length = largestCommited 0 (exampleWorld.polls ++ [exampleWorld.lastPoll]) :=
  ⟨rfl, by decide, by decide, by decide, by decide, by decide,
    (persisted_tracks_committed 8 exampleWorld rfl (by decide) (by decide) (by decide)).imp
      fun _ h => ⟨h.1, h.2.1, h.2.2.2.2⟩⟩

/-! ## The states of the loop of `decodePressed` -/

theorem decodeLoop_prefix (ataCodes : List (Nat × String)) (bytes : List Nat) :
    ∀ (k i : Nat) (text : List TraceLine), i + k ≤ bytes.length / 4 →
      decodeLoop ataCodes (bytes.length / 4) k i ⟨bytes, 4 * i⟩ text (stateAt (samples bytes) i)
        = ⟨⟨bytes, 4 * (i + k)⟩,
            text ++ (List.range' i k).flatMap (linesAt ataCodes (samples bytes)),
            stateAt (samples bytes) (i + k), false⟩ := by
  intro k
  induction k with
  | zero =>
    intro i text _
    simp [decodeLoop]
  | succ k ih =>
    intro i text h
    have hi : i < bytes.length / 4 := by omega
    have hrec := samples_getElem? bytes i hi
    simp only [decodeLoop, decodeBody_eq ataCodes bytes i text _ hi (stateAt_bound _ i)]
    rw [← stateAt_succ _ i _ hrec, if_neg (by simp), ih (i + 1) _ (by omega)]
    have e : i + 1 + k = i + (k + 1) := by omega
    simp [List.range'_succ, linesAt_eq ataCodes _ i _ hrec, samples_length, e]

/-- The loop after `i` iterations: the read position is `4 * i`, the text is the lines of
the iterations so far and the locals are `stateAt`. -/
theorem loopAt_eq (ataCodes : List (Nat × String)) (bytes : List Nat) (i : Nat)
    (hi : i ≤ bytes.length / 4) :
    loopAt ataCodes bytes i
      = ⟨⟨bytes, 4 * i⟩, (List.range i).flatMap (linesAt ataCodes (samples bytes)),
          stateAt (samples bytes) i, false⟩ := by
  have h := decodeLoop_prefix ataCodes bytes i 0 [] (by omega)
  simp only [Nat.mul_zero, Nat.zero_add, List.nil_append] at h
  have e : stateAt (samples bytes) 0 = DecodeState.init := rfl
  rw [e] at h
  rw [loopAt, h, List.range_eq_range']

theorem suppressed_iff_skip (i : Nat) (item : sniffer_item_t) (st : DecodeState) :
    suppressed i item st ↔ item.dior ≠ item.diow
      ∧ ((hideAltStatus i item st).2 = true
        ∨ (hideStatus i item (hideAltStatus i item st).1).2 = true) := by
  constructor
  · intro h
    have hf : item.dior ≠ item.diow := by
      rcases h with h | h
      · exact h.1.1
      · exact h.1.1
    refine ⟨hf, ?_⟩
    rcases h with h | h
    · exact Or.inl ((hideAltStatus_skip i item st hf).2 h)
    · right
      rw [hideStatus_skip _ _ _ hf]
      simpa using h
  · rintro ⟨hf, h | h⟩
    · exact Or.inl ((hideAltStatus_skip i item st hf).1 h)
    · right
      rw [hideStatus_skip _ _ _ hf] at h
      simpa using h

/-- One more iteration of the loop is the body run on the state reached. -/
theorem loopAt_succ (ataCodes : List (Nat × String)) (bytes : List Nat) (i : Nat)
    (hi : i < bytes.length / 4) :
    loopAt ataCodes bytes (i + 1)
      = decodeBody ataCodes (bytes.length / 4) i (loopAt ataCodes bytes i).file
          (loopAt ataCodes bytes i).text (loopAt ataCodes bytes i).st := by
  have hrec := samples_getElem? bytes i hi
  rw [loopAt_eq ataCodes bytes (i + 1) (by omega), loopAt_eq ataCodes bytes i (by omega)]
  simp only []
  rw [decodeBody_eq ataCodes bytes i _ _ hi (stateAt_bound _ i), ← stateAt_succ _ i _ hrec,
    List.range_succ, List.flatMap_append]
  simp [linesAt_eq ataCodes _ i _ hrec, samples_length]

/-- C24: in the state the loop of `decodePressed` has reached at the start of any
iteration `i`, if record `i` is hidden as a duplicate STATUS or ALT_STATUS read (it is
correctly framed and one of the two duplicate filters ends the iteration by `continue`),
then no data flow is open (`dataStart = -1`), and the iteration appends nothing and
leaves no flow open. Hence, when a flow opened at sample `s` is open at the start of
iteration `i` and record `i` is correctly framed and does not address the DATA register,
the record is not hidden and the iteration closes the flow: it appends the summary line
of the flow, its dump and the line of sample `i`, and leaves `dataStart = -1`. -/
theorem suppression_only_when_closed (ataCodes : List (Nat × String)) (bytes : List Nat)
    (i : Nat) (hi : i < bytes.length / 4) :
    ((recordAt bytes i).dior ≠ (recordAt bytes i).diow
        ∧ ((hideAltStatus i (recordAt bytes i) (loopAt ataCodes bytes i).st).2 = true
          ∨ (hideStatus i (recordAt bytes i)
              (hideAltStatus i (recordAt bytes i) (loopAt ataCodes bytes i).st).1).2 = true) →
      (loopAt ataCodes bytes i).st.dataStart = -1
        ∧ (loopAt ataCodes bytes (i + 1)).text = (loopAt ataCodes bytes i).text
        ∧ (loopAt ataCodes bytes (i + 1)).st.dataStart = -1)
    ∧ (∀ s : Nat, (loopAt ataCodes bytes i).st.dataStart = (s : Int) →
        (recordAt bytes i).dior ≠ (recordAt bytes i).diow →
        (recordAt bytes i).address ≠ ATA_REG_DATA →
        s < i
          ∧ (hideAltStatus i (recordAt bytes i) (loopAt ataCodes bytes i).st).2 = false
          ∧ (hideStatus i (recordAt bytes i)
              (hideAltStatus i (recordAt bytes i) (loopAt ataCodes bytes i).st).1).2 = false
          ∧ (loopAt ataCodes bytes (i + 1)).text = (loopAt ataCodes bytes i).text
              ++ TraceLine.burst s (loopAt ataCodes bytes i).st.dataRead (2 * (i - s))
                :: (dumpRows (samples bytes) s (i - s)
                  ++ [sampleLine ataCodes i (recordAt bytes i)])
          ∧ (loopAt ataCodes bytes (i + 1)).st.dataStart = -1)
    ∧ loopAt ataCodes bytes (i + 1)
      = decodeBody ataCodes (bytes.length / 4) i (loopAt ataCodes bytes i).file
          (loopAt ataCodes bytes i).text (loopAt ataCodes bytes i).st := by
  have hrec := samples_getElem? bytes i hi
  have hclosed : suppressed i (recordAt bytes i) (stateAt (samples bytes) i) →
      (stateAt (samples bytes) i).dataStart = -1 := by
    intro h
    apply stateAt_marker_closed
    rcases h with ⟨_, _, h⟩ | ⟨_, _, h⟩
    · exact Or.inr h
    · exact Or.inl h
  have htext : (loopAt ataCodes bytes (i + 1)).text = (loopAt ataCodes bytes i).text
      ++ linesAt ataCodes (samples bytes) i := by
    rw [loopAt_eq ataCodes bytes (i + 1) (by omega), loopAt_eq ataCodes bytes i (by omega)]
    simp [List.range_succ, List.flatMap_append]
  have hst : ∀ j, j ≤ bytes.length / 4 →
      (loopAt ataCodes bytes j).st = stateAt (samples bytes) j := by
    intro j hj
    rw [loopAt_eq ataCodes bytes j hj]
  rw [htext, hst i (by omega), hst (i + 1) (by omega)]
  refine ⟨?_, ?_, ?_⟩
  · intro h
    have hs := (suppressed_iff_skip i _ _).2 h
    have hc := hclosed hs
    refine ⟨hc, ?_, ?_⟩
    · rw [linesAt_suppressed ataCodes _ i _ hrec hs, List.append_nil]
    · rw [stateAt_succ _ i _ hrec, (step_suppressed ataCodes [] 0 i _ _ hs).2.1]
      exact hc
  · intro s hs hf hd
    have hns : ¬ suppressed i (recordAt bytes i) (stateAt (samples bytes) i) := by
      intro h
      have := hclosed h
      omega
    have hskip := (suppressed_iff_skip i (recordAt bytes i) (stateAt (samples bytes) i)).not.1 hns
    have hlt : s < i := by
      have := stateAt_bound (samples bytes) i
      omega
    refine ⟨hlt, ?_, ?_, ?_, ?_⟩
    · cases hv : (hideAltStatus i (recordAt bytes i) (stateAt (samples bytes) i)).2 with
      | false => rfl
      | true => exact absurd ⟨hf, Or.inl hv⟩ hskip
    · cases hv : (hideStatus i (recordAt bytes i)
          (hideAltStatus i (recordAt bytes i) (stateAt (samples bytes) i)).1).2 with
      | false => rfl
      | true => exact absurd ⟨hf, Or.inr hv⟩ hskip
    · rw [linesAt_other ataCodes _ i _ hrec hf hd hns,
        closeLines_open _ i _ _ s hd hs (by omega)]
      simp
    · exact (stateAt_closed_iff _ i _ hrec hf).2 hd
  · have h := loopAt_succ ataCodes bytes i hi
    rw [hst i (by omega)] at h
    exact h

theorem suppression_only_when_closed_witness :
    (4 < burstThenStatus.length / 4
      ∧ (hideStatus 4 (recordAt burstThenStatus 4)
          (hideAltStatus 4 (recordAt burstThenStatus 4) (loopAt [] burstThenStatus 4).st).1).2
        = true
      ∧ (loopAt [] burstThenStatus 3).st.dataStart = 1
      ∧ (loopAt [] burstThenStatus 4).text
        = [TraceLine.sample 0 0x58 "X" true "STATUS     [ --- DRD --- DSC DRQ --- --- --- ]"
              Color.darkGreen,
            TraceLine.burst 1 true 4, TraceLine.hexRow 0 [0x1234, 0x5678],
            TraceLine.sample 3 0x50 "P" true "STATUS     [ --- DRD --- DSC --- --- --- --- ]"
              Color.darkGreen])
    ∧ (((recordAt burstThenStatus 4).dior ≠ (recordAt burstThenStatus 4).diow
        ∧ ((hideAltStatus 4 (recordAt burstThenStatus 4) (loopAt [] burstThenStatus 4).st).2
            = true
          ∨ (hideStatus 4 (recordAt burstThenStatus 4)
              (hideAltStatus 4 (recordAt burstThenStatus 4)
                (loopAt [] burstThenStatus 4).st).1).2 = true) →
      (loopAt [] burstThenStatus 4).st.dataStart = -1
        ∧ (loopAt [] burstThenStatus (4 + 1)).text = (loopAt [] burstThenStatus 4).text
        ∧ (loopAt [] burstThenStatus (4 + 1)).st.dataStart = -1)) :=
  ⟨by decide, (suppression_only_when_closed [] burstThenStatus 4 (by decide)).1⟩

/-- C25: the file of `decodePressed` being its bytes and a read position, at the start of
every iteration `i` of the loop the position is `4 * i` and the loop has not been left;
the read of the iteration delivers four bytes, which are record `i` of the file, and
every iteration leaves the position at `4 * (i + 1)`. When iteration `i` closes a data
flow opened at sample `s`, `printHexData` goes back to `4 * s` and leaves the position
at `4 * i`, behind the last record of the flow, and "Data ended" puts it at
`4 * (i + 1)` again; the dump of a flow that reaches the end of the file leaves it at
`4 * (i + 1)` by itself. -/
theorem read_position_invariant (ataCodes : List (Nat × String)) (bytes : List Nat)
    (i : Nat) (hi : i < bytes.length / 4) :
    (loopAt ataCodes bytes i).file = ⟨bytes, 4 * i⟩
    ∧ (loopAt ataCodes bytes i).stop = false
    ∧ readItem (loopAt ataCodes bytes i).file sniffer_item_t.unassigned
        = (4, recordAt bytes i, ⟨bytes, 4 * (i + 1)⟩)
    ∧ (samples bytes)[i]? = some (recordAt bytes i)
    ∧ loopAt ataCodes bytes (i + 1)
      = decodeBody ataCodes (bytes.length / 4) i (loopAt ataCodes bytes i).file
          (loopAt ataCodes bytes i).text (loopAt ataCodes bytes i).st
    ∧ (loopAt ataCodes bytes (i + 1)).file = ⟨bytes, 4 * (i + 1)⟩
    ∧ (∀ (s : Nat) (text : List TraceLine) (st : DecodeState), s ≤ i →
        (((⟨bytes, 4 * (i + 1)⟩ : QFile).seek (s * 4)).pos = 4 * s
          ∧ (printHexData ⟨bytes, 4 * (i + 1)⟩ s (i - s) text).1 = ⟨bytes, 4 * i⟩
          ∧ (printHexData ⟨bytes, 4 * (i + 1)⟩ s (i + 1 - s) text).1 = ⟨bytes, 4 * (i + 1)⟩)
        ∧ (st.dataStart = (s : Int) →
          (dataEnded i (recordAt bytes i) ⟨bytes, 4 * (i + 1)⟩ text st).1
              = ⟨bytes, 4 * (i + 1)⟩
            ∧ (dataEndedEof (bytes.length / 4) i ⟨bytes, 4 * (i + 1)⟩ text st).1
              = ⟨bytes, 4 * (i + 1)⟩)) := by
  have hrec := samples_getElem? bytes i hi
  have hloop := loopAt_eq ataCodes bytes i (by omega)
  refine ⟨by rw [hloop], by rw [hloop], ?_, hrec, loopAt_succ ataCodes bytes i hi,
    by rw [loopAt_eq ataCodes bytes (i + 1) (by omega)], ?_⟩
  · rw [hloop]
    exact readItem_eq bytes i _ hi
  · intro s text st hs
    refine ⟨⟨?_, ?_, ?_⟩, ?_⟩
    · simp [QFile.seek, Nat.mul_comm]
    · rw [printHexData_eq bytes _ s (i - s) text (by omega)]
      have e : s + (i - s) = i := by omega
      rw [e]
    · rw [printHexData_eq bytes _ s (i + 1 - s) text (by omega)]
      have e : s + (i + 1 - s) = i + 1 := by omega
      rw [e]
    · intro hst
      have hb : st.dataStart = -1 ∨ (0 ≤ st.dataStart ∧ st.dataStart ≤ i) := by
        right; omega
      rw [dataEnded_eq bytes i _ _ text st hi rfl hb, dataEndedEof_eq bytes i text st hb]
      exact ⟨rfl, rfl⟩

theorem read_position_invariant_witness :
    3 < burstThenStatus.length / 4
    ∧ (loopAt [] burstThenStatus 3).file = ⟨burstThenStatus, 4 * 3⟩
    ∧ (loopAt [] burstThenStatus 3).stop = false
    ∧ readItem (loopAt [] burstThenStatus 3).file sniffer_item_t.unassigned
        = (4, recordAt burstThenStatus 3, ⟨burstThenStatus, 4 * (3 + 1)⟩)
    ∧ (samples burstThenStatus)[3]? = some (recordAt burstThenStatus 3)
    ∧ loopAt [] burstThenStatus (3 + 1)
      = decodeBody [] (burstThenStatus.length / 4) 3 (loopAt [] burstThenStatus 3).file
          (loopAt [] burstThenStatus 3).text (loopAt [] burstThenStatus 3).st
    ∧ (loopAt [] burstThenStatus (3 + 1)).file = ⟨burstThenStatus, 4 * (3 + 1)⟩ :=
  ⟨by decide, (read_position_invariant [] burstThenStatus 3 (by decide)).1,
    (read_position_invariant [] burstThenStatus 3 (by decide)).2.1,
    (read_position_invariant [] burstThenStatus 3 (by decide)).2.2.1,
    (read_position_invariant [] burstThenStatus 3 (by decide)).2.2.2.1,
    (read_position_invariant [] burstThenStatus 3 (by decide)).2.2.2.2.1,
    (read_position_invariant [] burstThenStatus 3 (by decide)).2.2.2.2.2.1⟩

/-! ## The reserved bits -/

theorem stepState_withoutReserved (i : Nat) (item : sniffer_item_t) (st : DecodeState) :
    stepState i (withoutReserved item) st = stepState i item st := rfl

theorem flowData_withoutReserved (recs : List sniffer_item_t) (start m : Nat) :
    flowData (recs.map withoutReserved) start m = flowData recs start m := by
  simp only [flowData, ← List.map_drop, ← List.map_take, List.map_map]
  rfl

theorem dumpRows_withoutReserved (recs : List sniffer_item_t) (offset length : Nat) :
    dumpRows (recs.map withoutReserved) offset length = dumpRows recs offset length := by
  simp only [dumpRows, flowData_withoutReserved]

theorem stepLines_withoutReserved (ataCodes : List (Nat × String)) (recs : List sniffer_item_t)
    (n i : Nat) (item : sniffer_item_t) (st : DecodeState) :
    stepLines ataCodes (recs.map withoutReserved) n i (withoutReserved item) st
      = stepLines ataCodes recs n i item st := by
  have h : ∀ r : List sniffer_item_t,
      stepLines ataCodes r n i (withoutReserved item) st = stepLines ataCodes r n i item st :=
    fun _ => rfl
  rw [h]
  simp only [stepLines, closeLines, eofLines, dumpRows_withoutReserved]

theorem stateAt_withoutReserved (recs : List sniffer_item_t) (i : Nat) :
    stateAt (recs.map withoutReserved) i = stateAt recs i := by
  induction i with
  | zero => rfl
  | succ i ih =>
    cases h : recs[i]? with
    | none =>
      rw [stateAt_of_none recs i h, stateAt_of_none _ i (by simp [h]), ih]
    | some item =>
      rw [stateAt_succ recs i item h,
        stateAt_succ _ i (withoutReserved item) (by simp [h]), ih,
        stepState_withoutReserved]

theorem linesAt_withoutReserved (ataCodes : List (Nat × String)) (recs : List sniffer_item_t)
    (i : Nat) :
    linesAt ataCodes (recs.map withoutReserved) i = linesAt ataCodes recs i := by
  cases h : recs[i]? with
  | none => rw [linesAt_of_none _ recs i h, linesAt_of_none _ _ i (by simp [h])]
  | some item =>
    rw [linesAt_eq _ recs i item h, linesAt_eq _ _ i (withoutReserved item) (by simp [h]),
      stateAt_withoutReserved, List.length_map, stepLines_withoutReserved]

/-- The trace of a sample sequence does not depend on the reserved bits. -/
theorem traceOf_withoutReserved (ataCodes : List (Nat × String)) (recs : List sniffer_item_t) :
    traceOf ataCodes (recs.map withoutReserved) = traceOf ataCodes recs := by
  have h : linesAt ataCodes (recs.map withoutReserved) = linesAt ataCodes recs :=
    funext (linesAt_withoutReserved ataCodes recs)
  simp only [traceOf, List.length_map, h]

theorem withoutReserved_recordAt (bytes other : List Nat) (i : Nat)
    (hb : ∀ b ∈ bytes, b < 256) (ho : ∀ b ∈ other, b < 256)
    (h21 : recordWord bytes i % 2 ^ 21 = recordWord other i % 2 ^ 21)
    (h24 : recordWord bytes i / 2 ^ 24 % 4 = recordWord other i / 2 ^ 24 % 4) :
    withoutReserved (recordAt bytes i) = withoutReserved (recordAt other i) := by
  have bound : ∀ (l : List Nat), (∀ b ∈ l, b < 256) → ∀ k, l.getD k 0 < 256 := by
    intro l hl k
    rw [List.getD_eq_getElem?_getD]
    cases hk : l[k]? with
    | none => simp
    | some b => simpa using hl b (List.mem_iff_getElem?.2 ⟨k, hk⟩)
  have a0 := bound bytes hb (4 * i)
  have a1 := bound bytes hb (4 * i + 1)
  have a2 := bound bytes hb (4 * i + 2)
  have a3 := bound bytes hb (4 * i + 3)
  have c0 := bound other ho (4 * i)
  have c1 := bound other ho (4 * i + 1)
  have c2 := bound other ho (4 * i + 2)
  have c3 := bound other ho (4 * i + 3)
  simp only [recordWord] at h21 h24
  simp only [withoutReserved, recordAt, sniffer_item_t.ofBytes, sniffer_item_t.mk.injEq,
    and_true, true_and]
  refine ⟨?_, ?_, ?_, ?_⟩ <;> omega

/-- C23: two files of equal length (of bytes) whose records agree on bits 0 to 20 (`data`,
`address`) and on bits 24 and 25 (`dior`, `diow`) give the same output of
`decodePressed`, whatever their bits 21 to 23 and 26 to 31 are, for any command names;
the bytes after the last complete record are free as well. -/
theorem reserved_bits_ignored (ataCodes : List (Nat × String)) (bytes other : List Nat)
    (hb : ∀ b ∈ bytes, b < 256) (ho : ∀ b ∈ other, b < 256)
    (hlen : bytes.length = other.length)
    (h21 : ∀ i, i < bytes.length / 4 →
      recordWord bytes i % 2 ^ 21 = recordWord other i % 2 ^ 21)
    (h24 : ∀ i, i < bytes.length / 4 →
      recordWord bytes i / 2 ^ 24 % 4 = recordWord other i / 2 ^ 24 % 4) :
    decodePressed ataCodes bytes = decodePressed ataCodes other := by
  have hs : (samples bytes).map withoutReserved = (samples other).map withoutReserved := by
    apply List.ext_getElem?
    intro i
    by_cases hi : i < bytes.length / 4
    · rw [List.getElem?_map, List.getElem?_map, samples_getElem? bytes i hi,
        samples_getElem? other i (by omega)]
      simp only [Option.map_some', Option.some.injEq]
      exact withoutReserved_recordAt bytes other i hb ho (h21 i hi) (h24 i hi)
    · rw [List.getElem?_eq_none (by simp [samples_length]; omega),
        List.getElem?_eq_none (by simp [samples_length]; omega)]
  rw [decodePressed_eq, decodePressed_eq, ← traceOf_withoutReserved ataCodes (samples bytes),
    ← traceOf_withoutReserved ataCodes (samples other), hs]

theorem reserved_bits_ignored_witness :
    ((∀ b ∈ scenarioFile, b < 256) ∧ (∀ b ∈ scenarioFileReserved, b < 256)
      ∧ scenarioFile.length = scenarioFileReserved.length
      ∧ scenarioFile ≠ scenarioFileReserved
      ∧ samples scenarioFile ≠ samples scenarioFileReserved)
    ∧ decodePressed [] scenarioFile = decodePressed [] scenarioFileReserved :=
  ⟨by decide, reserved_bits_ignored [] scenarioFile scenarioFileReserved (by decide)
    (by decide) (by decide) (by decide) (by decide)⟩

/-! ## The lines of single samples -/

theorem sampleLinesOf_append (i : Nat) (xs ys : List TraceLine) :
    sampleLinesOf i (xs ++ ys) = sampleLinesOf i xs ++ sampleLinesOf i ys := by
  simp [sampleLinesOf]

theorem sampleLinesOf_eq_nil (i : Nat) (lines : List TraceLine)
    (h : ∀ l ∈ lines, l.isSample = false ∨ l.label ≠ some i) : sampleLinesOf i lines = [] := by
  rw [sampleLinesOf, List.filter_eq_nil_iff]
  intro l hl
  rcases h l hl with h | h
  · simp [h]
  · simp [h]

theorem sampleLinesOf_closeLines (t : Nat) (recs : List sniffer_item_t) (i : Nat)
    (item : sniffer_item_t) (st : DecodeState) :
    sampleLinesOf t (closeLines recs i item st) = [] := by
  apply sampleLinesOf_eq_nil
  intro l hl
  left
  unfold closeLines at hl
  split at hl
  · rcases List.mem_cons.1 hl with rfl | hl
    · rfl
    · have := dumpRows_isHexRow _ _ _ l hl
      cases l <;> simp_all [TraceLine.isHexRow, TraceLine.isSample]
  · cases hl

theorem sampleLinesOf_eofLines (t : Nat) (recs : List sniffer_item_t) (n i : Nat)
    (st : DecodeState) : sampleLinesOf t (eofLines recs n i st) = [] := by
  apply sampleLinesOf_eq_nil
  intro l hl
  left
  unfold eofLines at hl
  split at hl
  · rcases List.mem_cons.1 hl with rfl | hl
    · rfl
    · have := dumpRows_isHexRow _ _ _ l hl
      cases l <;> simp_all [TraceLine.isHexRow, TraceLine.isSample]
  · cases hl

/-- The single-sample lines labelled `t` that iteration `j` appends: the line of sample
`j` when `t = j` and the sample is correctly framed, does not address the DATA register
and is not hidden, and none otherwise. -/
theorem sampleLinesOf_linesAt (ataCodes : List (Nat × String)) (recs : List sniffer_item_t)
    (t j : Nat) (item : sniffer_item_t) (hrec : recs[j]? = some item) :
    sampleLinesOf t (linesAt ataCodes recs j)
      = if t = j ∧ item.dior ≠ item.diow ∧ item.address ≠ ATA_REG_DATA
            ∧ ¬ suppressed j item (stateAt recs j) then [sampleLine ataCodes j item]
        else [] := by
  by_cases hf : item.dior = item.diow
  · rw [linesAt_misframed _ _ j item hrec hf, if_neg (by simp [hf])]
    rfl
  · by_cases hs : suppressed j item (stateAt recs j)
    · rw [linesAt_suppressed _ _ j item hrec hs, if_neg (by simp [hs])]
      rfl
    · by_cases hd : item.address = ATA_REG_DATA
      · rw [linesAt_data _ _ j item hrec hf hd, sampleLinesOf_eofLines, if_neg (by simp [hd])]
      · rw [linesAt_other _ _ j item hrec hf hd hs, sampleLinesOf_append,
          sampleLinesOf_closeLines, List.nil_append]
        by_cases ht : t = j
        · rw [if_pos ⟨ht, hf, hd, hs⟩]
          simp [sampleLinesOf, sampleLine, TraceLine.isSample, TraceLine.label, ht]
        · rw [if_neg (by simp [ht])]
          apply sampleLinesOf_eq_nil
          intro l hl
          right
          rw [List.mem_singleton.1 hl, sampleLine_label]
          simpa using fun h => ht h.symm

theorem sampleLinesOf_flatMap (ataCodes : List (Nat × String)) (recs : List sniffer_item_t)
    (t : Nat) : ∀ (L : List Nat), t ∉ L →
    sampleLinesOf t (L.flatMap (linesAt ataCodes recs)) = [] := by
  intro L
  induction L with
  | nil => intro _; rfl
  | cons j L ih =>
    intro h
    rw [List.flatMap_cons, sampleLinesOf_append, ih (fun hm => h (List.mem_cons_of_mem _ hm)),
      List.append_nil]
    cases hrec : recs[j]? with
    | none => rw [linesAt_of_none _ _ j hrec]; rfl
    | some item =>
      rw [sampleLinesOf_linesAt _ _ t j item hrec, if_neg]
      rintro ⟨rfl, -⟩
      exact h (List.mem_cons_self _ _)

/-- The single-sample lines labelled `i` of a trace. -/
theorem sampleLinesOf_traceOf (ataCodes : List (Nat × String)) (recs : List sniffer_item_t)
    (i : Nat) (item : sniffer_item_t) (hrec : recs[i]? = some item) :
    sampleLinesOf i (traceOf ataCodes recs)
      = if item.dior ≠ item.diow ∧ item.address ≠ ATA_REG_DATA
            ∧ ¬ suppressed i item (stateAt recs i) then [sampleLine ataCodes i item]
        else [] := by
  have hi := lt_of_getElem? recs i item hrec
  rw [traceOf, range_split recs.length i hi, List.flatMap_append, List.flatMap_cons,
    sampleLinesOf_append, sampleLinesOf_append,
    sampleLinesOf_flatMap _ _ i _ (by simp [List.mem_range'_1]),
    sampleLinesOf_flatMap _ _ i _ (by simp [List.mem_range'_1]),
    sampleLinesOf_linesAt _ _ i i item hrec]
  simp

/-- The duplicate test on the locals the loop has reached, in terms of the samples: a
read of STATUS (of ALT_STATUS) is hidden when the sample before it is a read of the same
register with the same data, and at index 0 when its data is zero. -/
theorem suppressed_iff_previous (recs : List sniffer_item_t) (i : Nat) (x : sniffer_item_t)
    (hi : i < recs.length) :
    suppressed i x (stateAt recs i)
      ↔ (altStatusRead x ∧ ((i = 0 ∧ x.data = 0)
            ∨ ∃ y, 1 ≤ i ∧ recs[i - 1]? = some y ∧ altStatusRead y ∧ y.data = x.data))
        ∨ (statusRead x ∧ ((i = 0 ∧ x.data = 0)
            ∨ ∃ y, 1 ≤ i ∧ recs[i - 1]? = some y ∧ statusRead y ∧ y.data = x.data)) := by
  cases i with
  | zero =>
    simp [suppressed, stateAt, DecodeState.init]
  | succ k =>
    obtain ⟨y, hy⟩ := getElem?_of_lt recs k (by omega)
    obtain ⟨ha1, ha2⟩ := stateAt_altStatus recs k y hy
    obtain ⟨hs1, hs2⟩ := stateAt_status recs k y hy
    simp only [suppressed, Nat.add_sub_cancel, hy, Option.some.injEq, Nat.le_add_left,
      true_and, exists_eq_left', Nat.succ_ne_zero, false_and, false_or]
    constructor
    · rintro (⟨hx, hv, hm⟩ | ⟨hx, hv, hm⟩)
      · have hy1 : altStatusRead y := ha1.1 (by push_cast at hm; omega)
        exact Or.inl ⟨hx, hy1, by rw [hv, ha2 hy1]⟩
      · have hy1 : statusRead y := hs1.1 (by push_cast at hm; omega)
        exact Or.inr ⟨hx, hy1, by rw [hv, hs2 hy1]⟩
    · rintro (⟨hx, hy1, hv⟩ | ⟨hx, hy1, hv⟩)
      · exact Or.inl ⟨hx, by rw [ha2 hy1, hv], by rw [ha1.2 hy1]; push_cast; ring⟩
      · exact Or.inr ⟨hx, by rw [hs2 hy1, hv], by rw [hs1.2 hy1]; push_cast; ring⟩

/-- C22: for every file and every sample `i` of it, `x` being the sample. When `x` is
correctly framed, does not address the DATA register and is not hidden by the duplicate
test (taken on the locals the loop has reached at iteration `i`), the output of
`decodePressed` holds exactly one single-sample line labelled `i`; otherwise (a
mis-framed sample, a DATA sample, a hidden duplicate) it holds none. The line carries
the low byte of the data, its rendering, the direction (`<<` when `dior = 0`, `>>`
otherwise) and the register text of the address and the direction. The duplicate test is
the one by which the loop ends the iteration by `continue`; in terms of the samples it
hides a STATUS (ALT_STATUS) read whose predecessor is a read of the same register with
the same data, and the read of the value zero at index 0. -/
theorem non_burst_emission (ataCodes : List (Nat × String)) (bytes : List Nat) (i : Nat)
    (x : sniffer_item_t) (hx : (samples bytes)[i]? = some x) :
    (x.dior ≠ x.diow ∧ x.address ≠ ATA_REG_DATA
        ∧ ¬ suppressed i x (loopAt ataCodes bytes i).st →
      sampleLinesOf i (decodePressed ataCodes bytes) = [sampleLine ataCodes i x])
    ∧ (¬ (x.dior ≠ x.diow ∧ x.address ≠ ATA_REG_DATA
        ∧ ¬ suppressed i x (loopAt ataCodes bytes i).st) →
      sampleLinesOf i (decodePressed ataCodes bytes) = [])
    ∧ sampleLine ataCodes i x
      = TraceLine.sample i (x.data % 256) (asciiOf (x.data % 256)) (decide (x.dior = 0))
          (registerText ataCodes x (decide (x.dior = 0))) (sampleColor x (decide (x.dior = 0)))
    ∧ (sampleLine ataCodes i x).text
      = hexArg i 8 ++ ": [" ++ hexArg (x.data % 256) 2 ++ "|" ++ asciiOf (x.data % 256) ++ "] "
          ++ (if x.dior = 0 then "<<" else ">>") ++ " "
          ++ registerText ataCodes x (decide (x.dior = 0))
    ∧ (suppressed i x (loopAt ataCodes bytes i).st ↔ x.dior ≠ x.diow
        ∧ ((hideAltStatus i x (loopAt ataCodes bytes i).st).2 = true
          ∨ (hideStatus i x (hideAltStatus i x (loopAt ataCodes bytes i).st).1).2 = true))
    ∧ (suppressed i x (loopAt ataCodes bytes i).st
        ↔ (altStatusRead x ∧ ((i = 0 ∧ x.data = 0)
              ∨ ∃ y, 1 ≤ i ∧ (samples bytes)[i - 1]? = some y ∧ altStatusRead y
                ∧ y.data = x.data))
          ∨ (statusRead x ∧ ((i = 0 ∧ x.data = 0)
              ∨ ∃ y, 1 ≤ i ∧ (samples bytes)[i - 1]? = some y ∧ statusRead y
                ∧ y.data = x.data))) := by
  have hi := lt_of_getElem? _ i x hx
  have hst : (loopAt ataCodes bytes i).st = stateAt (samples bytes) i := by
    rw [loopAt_eq ataCodes bytes i (by rw [samples_length] at hi; omega)]
  rw [hst, decodePressed_eq, sampleLinesOf_traceOf ataCodes _ i x hx]
  refine ⟨fun h => if_pos h, fun h => if_neg h, rfl, ?_, suppressed_iff_skip i x _,
    suppressed_iff_previous _ i x hi⟩
  by_cases h : x.dior = 0 <;> simp [sampleLine, TraceLine.text, h]

theorem non_burst_emission_witness :
    ((samples scenarioFile)[4]? = some (statusReadOf 0x58)
      ∧ (samples scenarioFile)[1]? = some (statusReadOf 0x50)
      ∧ suppressed 1 (statusReadOf 0x50) (loopAt [] scenarioFile 1).st)
    ∧ sampleLinesOf 4 (decodePressed [] scenarioFile) = [sampleLine [] 4 (statusReadOf 0x58)]
    ∧ sampleLinesOf 1 (decodePressed [] scenarioFile) = [] :=
  ⟨by decide,
    (non_burst_emission [] scenarioFile 4 (statusReadOf 0x58) (by decide)).1 (by decide),
    (non_burst_emission [] scenarioFile 1 (statusReadOf 0x50) (by decide)).2.1 (by decide)⟩

/-! ## The table of command names -/

theorem splitChars_eq (sep : Char) : ∀ cs : List Char,
    splitChars sep cs = cs.takeWhile (· ≠ sep) ::
      (if sep ∈ cs then splitChars sep ((cs.dropWhile (· ≠ sep)).drop 1) else []) := by
  intro cs
  induction cs with
  | nil => simp [splitChars]
  | cons c cs ih =>
    by_cases h : c = sep
    · subst h
      simp [splitChars]
    · have h2 : ¬ sep = c := fun e => h e.symm
      rw [splitChars, if_neg h, ih]
      simp [h, h2]

theorem splitFields_length (line : String) (sep : Char) :
    (splitFields line sep).length < 2 ↔ sep ∉ line.data := by
  rw [splitFields, List.length_map, splitChars_eq]
  by_cases h : sep ∈ line.data
  · rw [if_pos h, splitChars_eq]
    simp [h]
  · rw [if_neg h]
    simp [h]

theorem splitFields_first (line : String) : (splitFields line '=').getD 0 "" = codeField line := by
  rw [splitFields, splitChars_eq]
  rfl

theorem splitFields_second (line : String) (h : '=' ∈ line.data) :
    (splitFields line '=').getD 1 "" = nameField line := by
  rw [splitFields, splitChars_eq, if_pos h, splitChars_eq]
  rfl

/-- The body of the loop of `loadAtaCommandCodes`, by the entry the line gives. -/
theorem loadLine_eq (ataCodes : List (Nat × String)) (line : String) :
    loadLine ataCodes line
      = match entryOf line with
        | none => ataCodes
        | some e => if QMap.contains ataCodes e.1 then ataCodes else ataCodes ++ [e] := by
  unfold loadLine entryOf
  by_cases h : '=' ∈ line.data
  · have hlen : ¬ (splitFields line '=').length < 2 := by
      rw [splitFields_length]; exact fun hn => hn h
    simp only [hlen, if_false, h, if_true, splitFields_first, splitFields_second line h]
    cases toUShort (trimmed (codeField line)) with
    | none => rfl
    | some n =>
      simp only [Option.map_some']
      by_cases hc : QMap.contains ataCodes (n % 256) = true
      · simp [hc]
      · simp [hc, QMap.insert]
  · have hlen : (splitFields line '=').length < 2 := by
      rw [splitFields_length]; exact h
    simp [hlen, h]

theorem lookup_foldl_loadLine (c : Nat) : ∀ (lines : List String) (ataCodes : List (Nat × String)),
    (lines.foldl loadLine ataCodes).lookup c
      = (ataCodes.lookup c).or ((lines.filterMap entryOf).lookup c) := by
  intro lines
  induction lines with
  | nil => intro m; simp
  | cons line lines ih =>
    intro m
    rw [List.foldl_cons, ih, loadLine_eq]
    cases he : entryOf line with
    | none => simp [List.filterMap_cons, he]
    | some e =>
      obtain ⟨k, v⟩ := e
      simp only [List.filterMap_cons, he]
      by_cases hc : QMap.contains m k = true
      · rw [if_pos hc]
        by_cases hk : c = k
        · subst hk
          unfold QMap.contains at hc
          cases hm : List.lookup c m with
          | none => rw [hm] at hc; cases hc
          | some name => simp
        · have hb : (c == k) = false := by simpa using hk
          simp [List.lookup_cons, hb]
      · rw [if_neg hc, List.lookup_append, Option.or_assoc]
        congr 1
        by_cases hk : c = k
        · subst hk; simp
        · have hb : (c == k) = false := by simpa using hk
          simp [List.lookup_cons, hb]

/-- The name `ataCommand` finds for the code `c` after `loadAtaCommandCodes` has read the
table `text` into the empty map is the one it finds in the list of the entries the lines
give, in the order of the lines: the name of the first line whose entry has the code
`c`, and "UNKNOWN" when there is none. -/
theorem loadAtaCommandCodes_lookup (text : String) (c : Nat) :
    ataCommand (loadAtaCommandCodes [] (some text)) c
      = ataCommand ((readLines text.data []).filterMap entryOf) c := by
  unfold ataCommand loadAtaCommandCodes
  simp only []
  rw [lookup_foldl_loadLine, List.lookup_nil, Option.none_or]

/-- The lines `readLines` cuts a text into make up the text. -/
theorem readLines_flatten : ∀ (text line : List Char),
    ((readLines text line).map String.data).flatten = line.reverse ++ text := by
  intro text
  induction text with
  | nil =>
    intro line
    unfold readLines
    split_ifs with h
    · simp [h]
    · simp
  | cons c text ih =>
    intro line
    unfold readLines
    split_ifs with h
    · simp [ih]
    · rw [ih]; simp

/-- C21: the table whose first line is `1EC=BOGUS` and whose second line is
`EC=IDENTIFY DEVICE`. The code field of the first line is converted to the number 0x1EC,
which is not the code 0xEC; all the same `loadAtaCommandCodes` enters its name under the
code 0xEC, the low byte of the number, and the entry of the second line, whose code
field is the number 0xEC, is not taken: `ataCommand` names the command 0xEC "BOGUS". A
code field that does not fit 16 bits (`100EC`) is refused, and the second line is then
taken. -/
theorem command_code_aliased :
    readLines aliasTable.data [] = ["1EC=BOGUS\n", "EC=IDENTIFY DEVICE\n"]
    ∧ toUShort (trimmed (codeField "1EC=BOGUS\n")) = some 0x1ec
    ∧ toUShort (trimmed (codeField "EC=IDENTIFY DEVICE\n")) = some 0xec
    ∧ loadAtaCommandCodes [] (some aliasTable) = [(0xec, "BOGUS")]
    ∧ ataCommand (loadAtaCommandCodes [] (some aliasTable)) 0xec = "BOGUS"
    ∧ registerText (loadAtaCommandCodes [] (some aliasTable)) ⟨0xec, 0x17, 0, 1, 0, 0⟩ false
      = "COMMAND (BOGUS)"
    ∧ toUShort (trimmed (codeField "100EC=BOGUS\n")) = none
    ∧ ataCommand (loadAtaCommandCodes [] (some wideTable)) 0xec = "IDENTIFY DEVICE" := by
  decide

/-! ## The size of the drains -/

theorem readBulkLoop_asks (L : Int) (n : Nat) (hL : L ≤ n) :
    ∀ (bulk : List BulkReply) (b : Nat) (s : Capture),
    (∀ e ∈ s.events, Event.asksAtMost n e = true) →
    ∀ e ∈ (readBulkLoop L bulk b s).state.events, Event.asksAtMost n e = true := by
  intro bulk
  induction bulk with
  | nil =>
    intro b s hs
    unfold readBulkLoop
    split_ifs <;> exact hs
  | cons reply bulk ih =>
    intro b s hs
    have hbt : Event.asksAtMost n (Event.bulkTransfer (L - b) reply.err reply.bytes.length)
        = true := by
      simp only [Event.asksAtMost, decide_eq_true_eq]
      omega
    unfold readBulkLoop
    by_cases h1 : (b : Int) < L
    · rw [if_pos h1]
      by_cases h2 : reply.err < 0
      · simp only [h2, if_true, Outcome.state]
        intro e he
        simp only [List.mem_append, List.mem_singleton] at he
        rcases he with (he | rfl) | rfl
        · exact hs e he
        · exact hbt
        · rfl
      · simp only [h2, if_false]
        cases hp : s.buffer.poke b reply.bytes with
        | none =>
          simp only [Outcome.state]
          intro e he
          simp only [List.mem_append, List.mem_singleton] at he
          rcases he with he | rfl
          · exact hs e he
          · exact hbt
        | some buffer =>
          simp only []
          apply ih
          intro e he
          split at he
          · simp only [List.mem_append, List.mem_singleton] at he
            rcases he with (he | rfl) | rfl
            · exact hs e he
            · exact hbt
            · rfl
          · simp only [List.mem_append, List.mem_singleton] at he
            rcases he with he | rfl
            · exact hs e he
            · exact hbt
    · rw [if_neg h1]
      exact hs

theorem receiveData_asks (record : Bool) (status : status_t) (s : Capture)
    (hb : status.bytesCommited ≤ s.bytesCommited + DEFAULT_BUFFER_SIZE)
    (hs : ∀ e ∈ s.events, Event.asksAtMost DEFAULT_BUFFER_SIZE e = true) :
    (∀ e ∈ (receiveData record status s).state.events,
        Event.asksAtMost DEFAULT_BUFFER_SIZE e = true)
      ∧ (∀ s1, receiveData record status s = Outcome.returns true s1 →
        s1.bytesCommited
          = if record then max s.bytesCommited status.bytesCommited else s.bytesCommited) := by
  unfold receiveData
  by_cases h1 : status.bytesCommited > s.bytesCommited
  · rw [if_pos h1]
    have hD : status.bytesCommited - s.bytesCommited ≤ DEFAULT_BUFFER_SIZE := by omega
    have hasks := readBulkLoop_asks (toInt32 (status.bytesCommited - s.bytesCommited))
      DEFAULT_BUFFER_SIZE (by rw [toInt32_of_le _ hD]; exact_mod_cast hD) s.bulk 0 s hs
    obtain ⟨evs, -, shape⟩ :=
      readBulkLoop_shape (toInt32 (status.bytesCommited - s.bytesCommited)) s.bulk 0 s
    unfold readBulkData
    revert hasks shape
    cases readBulkLoop (toInt32 (status.bytesCommited - s.bytesCommited)) s.bulk 0 s with
    | returns value s2 =>
      cases value with
      | false =>
        intro hasks _
        simp only [Outcome.state] at hasks ⊢
        refine ⟨?_, fun s1 h => by simp at h⟩
        intro e he
        simp only [List.mem_append, List.mem_cons, List.mem_singleton, List.not_mem_nil,
          or_false] at he
        rcases he with he | rfl | rfl
        · exact hasks e he
        · rfl
        · rfl
      | true =>
        intro hasks shape
        simp only [Outcome.state] at hasks
        simp only []
        cases hp : s2.buffer.peek (status.bytesCommited - s.bytesCommited) with
        | none => exact ⟨hasks, fun s1 h => by simp at h⟩
        | some bytes =>
          simp only [Outcome.state]
          refine ⟨?_, ?_⟩
          · intro e he
            simp only [List.mem_append, List.mem_cons, List.mem_singleton, List.not_mem_nil,
              or_false] at he
            rcases he with he | rfl | rfl
            · exact hasks e he
            · rfl
            · rfl
          · intro s1 h
            simp only [Outcome.returns.injEq, true_and] at h
            rw [← h]
            cases record
            · simpa using shape.2.2.1
            · simp only [if_true]
              exact (Nat.max_eq_right (Nat.le_of_lt h1)).symm
    | blocked s2 => exact fun hasks _ => ⟨hasks, fun s1 h => by simp at h⟩
    | undefined s2 => exact fun hasks _ => ⟨hasks, fun s1 h => by simp at h⟩
  · rw [if_neg h1]
    refine ⟨hs, ?_⟩
    intro s1 h
    simp only [Outcome.returns.injEq, true_and] at h
    rw [← h]
    cases record
    · rfl
    · simp only [if_true]
      exact (Nat.max_eq_left (by omega)).symm

theorem pollStatus_asks (n : Nat) (reply : StatusReply) (s : Capture)
    (hs : ∀ e ∈ s.events, Event.asksAtMost DEFAULT_BUFFER_SIZE e = true) :
    (∀ e ∈ (pollStatus n reply s).state.events,
        Event.asksAtMost DEFAULT_BUFFER_SIZE e = true)
      ∧ (∀ s1, pollStatus n reply s = Outcome.returns true s1 →
        s1.bytesCommited = s.bytesCommited) := by
  unfold pollStatus
  by_cases h1 : reply.err < 0
  · simp only [h1, if_true, Outcome.state]
    refine ⟨?_, fun s1 h => by simp at h⟩
    intro e he
    simp only [List.mem_append, List.mem_cons, List.mem_singleton, List.not_mem_nil,
      or_false] at he
    rcases he with (he | rfl) | rfl | rfl | rfl
    · exact hs e he
    all_goals rfl
  · simp only [h1, if_false]
    by_cases h2 : reply.status.errorCount > 0
    · simp only [h2, if_true, Outcome.state]
      refine ⟨?_, fun s1 h => by simp at h⟩
      intro e he
      simp only [List.mem_append, List.mem_cons, List.mem_singleton, List.not_mem_nil,
        or_false] at he
      rcases he with (he | rfl) | rfl | rfl | rfl | rfl
      · exact hs e he
      all_goals rfl
    · simp only [h2, if_false, Outcome.state]
      refine ⟨?_, ?_⟩
      · intro e he
        simp only [List.mem_append, List.mem_singleton] at he
        rcases he with he | rfl
        · exact hs e he
        · rfl
      · intro s1 h
        simp only [Outcome.returns.injEq, true_and] at h
        rw [← h]

theorem loopBody_asks (reply : StatusReply) (s : Capture)
    (hb : reply.status.bytesCommited ≤ s.bytesCommited + DEFAULT_BUFFER_SIZE)
    (hs : ∀ e ∈ s.events, Event.asksAtMost DEFAULT_BUFFER_SIZE e = true) :
    (∀ e ∈ (loopBody reply s).state.events, Event.asksAtMost DEFAULT_BUFFER_SIZE e = true)
      ∧ (∀ s1, loopBody reply s = Outcome.returns true s1 →
        s1.bytesCommited = max s.bytesCommited reply.status.bytesCommited) := by
  obtain ⟨hp1, hp2⟩ := pollStatus_asks 1 reply s hs
  unfold loopBody
  revert hp1 hp2
  cases pollStatus 1 reply s with
  | returns value s2 =>
    cases value with
    | false => exact fun hp1 _ => ⟨hp1, fun s1 h => by simp at h⟩
    | true =>
      intro hp1 hp2
      have hbc := hp2 s2 rfl
      simp only [Outcome.state] at hp1
      simp only []
      obtain ⟨hr1, hr2⟩ := receiveData_asks true reply.status s2 (by rw [hbc]; exact hb) hp1
      refine ⟨hr1, fun s1 h => ?_⟩
      rw [hr2 s1 h, hbc]
      rfl
  | blocked s2 => exact fun hp1 _ => ⟨hp1, fun s1 h => by simp at h⟩
  | undefined s2 => exact fun hp1 _ => ⟨hp1, fun s1 h => by simp at h⟩

theorem captureLoop_asks : ∀ (polls : List StatusReply) (s : Capture),
    boundedAdvance DEFAULT_BUFFER_SIZE s.bytesCommited polls = true →
    (∀ e ∈ s.events, Event.asksAtMost DEFAULT_BUFFER_SIZE e = true) →
    (∀ e ∈ (captureLoop polls s).state.events, Event.asksAtMost DEFAULT_BUFFER_SIZE e = true)
      ∧ (∀ s1, captureLoop polls s = Outcome.returns true s1 →
        s1.bytesCommited = largestCommited s.bytesCommited polls) := by
  intro polls
  induction polls with
  | nil =>
    intro s _ hs
    refine ⟨hs, fun s1 h => ?_⟩
    simp only [captureLoop, Outcome.returns.injEq, true_and] at h
    rw [← h]; rfl
  | cons p polls ih =>
    intro s hb hs
    simp only [boundedAdvance, Bool.and_eq_true, decide_eq_true_eq] at hb
    obtain ⟨hl1, hl2⟩ := loopBody_asks p s hb.1 hs
    unfold captureLoop
    revert hl1 hl2
    cases loopBody p s with
    | returns value s2 =>
      cases value with
      | false => exact fun hl1 _ => ⟨hl1, fun s1 h => by simp at h⟩
      | true =>
        intro hl1 hl2
        have hbc := hl2 s2 rfl
        simp only [Outcome.state] at hl1
        simp only []
        obtain ⟨h1, h2⟩ := ih s2 (by rw [hbc]; exact hb.2) hl1
        refine ⟨h1, fun s1 h => ?_⟩
        rw [h2 s1 h, hbc, largestCommited_cons]
    | blocked s2 => exact fun hl1 _ => ⟨hl1, fun s1 h => by simp at h⟩
    | undefined s2 => exact fun hl1 _ => ⟨hl1, fun s1 h => by simp at h⟩

theorem boundedAdvance_append (n : Nat) : ∀ (polls : List StatusReply) (m : Nat)
    (last : StatusReply), boundedAdvance n m (polls ++ [last]) = true →
    boundedAdvance n m polls = true
      ∧ last.status.bytesCommited ≤ largestCommited m polls + n := by
  intro polls
  induction polls with
  | nil =>
    intro m last h
    simpa [boundedAdvance, largestCommited] using h
  | cons p polls ih =>
    intro m last h
    simp only [List.cons_append, boundedAdvance, Bool.and_eq_true, decide_eq_true_eq] at h ⊢
    obtain ⟨h1, h2⟩ := ih _ last h.2
    exact ⟨⟨h.1, h1⟩, by rw [largestCommited_cons]; exact h2⟩

theorem stopSequence_asks (w : World) (s : Capture)
    (hb : w.lastPoll.status.bytesCommited ≤ s.bytesCommited + DEFAULT_BUFFER_SIZE)
    (hs : ∀ e ∈ s.events, Event.asksAtMost DEFAULT_BUFFER_SIZE e = true) :
    ∀ e ∈ (stopSequence w s).state.events, Event.asksAtMost DEFAULT_BUFFER_SIZE e = true := by
  have hs1 : ∀ e ∈ s.events ++ [Event.controlOut 0 w.stopErr],
      Event.asksAtMost DEFAULT_BUFFER_SIZE e = true := by
    intro e he
    rcases List.mem_append.1 he with he | he
    · exact hs e he
    · rw [List.mem_singleton.1 he]; rfl
  unfold stopSequence
  by_cases h2 : w.stopErr < 0
  · simp only [h2, if_true, Outcome.state]
    intro e he
    simp only [List.mem_append, List.mem_cons, List.mem_singleton, List.not_mem_nil,
      or_false] at he
    rcases he with (he | rfl) | rfl | rfl | rfl
    · exact hs e he
    all_goals rfl
  · simp only [h2, if_false]
    obtain ⟨hp1, hp2⟩ := pollStatus_asks 3 w.lastPoll
      { s with events := s.events ++ [Event.controlOut 0 w.stopErr] } hs1
    revert hp1 hp2
    cases pollStatus 3 w.lastPoll
      { s with events := s.events ++ [Event.controlOut 0 w.stopErr] } with
    | returns value s2 =>
      cases value with
      | false => exact fun hp1 _ => hp1
      | true =>
        intro hp1 hp2
        have hbc : s2.bytesCommited = s.bytesCommited := hp2 s2 rfl
        simp only [Outcome.state] at hp1
        simp only []
        obtain ⟨hr1, -⟩ := receiveData_asks false w.lastPoll.status s2
          (by rw [hbc]; exact hb) hp1
        revert hr1
        cases receiveData false w.lastPoll.status s2 with
        | returns value s3 =>
          cases value with
          | false => exact fun hr1 => hr1
          | true =>
            intro hr1
            simp only [Outcome.state] at hr1 ⊢
            intro e he
            simp only [List.mem_append, List.mem_cons, List.mem_singleton, List.not_mem_nil,
              or_false] at he
            rcases he with he | rfl | rfl | rfl
            · exact hr1 e he
            all_goals rfl
        | blocked s3 => exact fun hr1 => hr1
        | undefined s3 => exact fun hr1 => hr1
    | blocked s2 => exact fun hp1 _ => hp1
    | undefined s2 => exact fun hp1 _ => hp1

/-- The first transfer of a drain asks for the difference between the `bytesCommited`
reported and the one recorded. -/
theorem receiveData_first_transfer (record : Bool) (status : status_t) (s : Capture)
    (r : BulkReply) (rest : List BulkReply) (hgt : s.bytesCommited < status.bytesCommited)
    (hpos : 0 < toInt32 (status.bytesCommited - s.bytesCommited)) (hbulk : s.bulk = r :: rest) :
    ∃ tail, (receiveData record status s).state.events
      = s.events ++ Event.bulkTransfer (toInt32 (status.bytesCommited - s.bytesCommited))
          r.err r.bytes.length :: tail := by
  have key : ∃ tail, (readBulkData (toInt32 (status.bytesCommited - s.bytesCommited)) s).state.events
      = s.events ++ Event.bulkTransfer (toInt32 (status.bytesCommited - s.bytesCommited))
          r.err r.bytes.length :: tail := by
    unfold readBulkData
    rw [hbulk]
    unfold readBulkLoop
    rw [if_pos (by simpa using hpos)]
    by_cases h2 : r.err < 0
    · simp only [h2, if_true, Outcome.state]
      exact ⟨[Event.message (Message.bulkFail r.err)], by simp⟩
    · simp only [h2, if_false]
      cases hp : s.buffer.poke 0 r.bytes with
      | none =>
        simp only [Outcome.state]
        exact ⟨[], by simp⟩
      | some buffer =>
        simp only []
        obtain ⟨tail, ht⟩ := readBulkLoop_prefix
          (toInt32 (status.bytesCommited - s.bytesCommited)) rest (0 + r.bytes.length)
          (if ((0 + r.bytes.length : Nat) : Int)
              < toInt32 (status.bytesCommited - s.bytesCommited) then
            { s with
              bulk := rest
              buffer := buffer
              events := s.events ++ [Event.bulkTransfer
                  (toInt32 (status.bytesCommited - s.bytesCommited) - (0 : Nat)) r.err
                  r.bytes.length]
                ++ [Event.message (Message.warning r.bytes.length
                  (toInt32 (status.bytesCommited - s.bytesCommited)
                    - (0 + r.bytes.length : Nat)))] }
          else
            { s with
              bulk := rest
              buffer := buffer
              events := s.events ++ [Event.bulkTransfer
                  (toInt32 (status.bytesCommited - s.bytesCommited) - (0 : Nat)) r.err
                  r.bytes.length] })
        rw [ht]
        split <;> simp
  obtain ⟨tail, ht⟩ := key
  unfold receiveData
  rw [if_pos hgt]
  revert ht
  cases readBulkData (toInt32 (status.bytesCommited - s.bytesCommited)) s with
  | returns value s2 =>
    cases value with
    | false =>
      intro ht
      simp only [Outcome.state] at ht ⊢
      exact ⟨tail ++ [Event.fileClose, Event.unlockInterface], by rw [ht]; simp⟩
    | true =>
      intro ht
      simp only [Outcome.state] at ht
      simp only []
      cases s2.buffer.peek (status.bytesCommited - s.bytesCommited) with
      | none => exact ⟨tail, ht⟩
      | some bytes =>
        simp only [Outcome.state]
        exact ⟨tail ++ [Event.fileWrite bytes,
          Event.updateStatistics status.bytesCommited status.errorCount], by rw [ht]; simp⟩
  | blocked s2 => exact fun ht => ⟨tail, ht⟩
  | undefined s2 => exact fun ht => ⟨tail, ht⟩

/-- C26, counterexample: the first status reply reporting 70000 bytes, the drain of the
capture loop asks for 70000 bytes, more than the 65536 bytes of the buffer. -/
theorem drain_request_counterexample :
    (start 8 largeAdvanceWorld).state.events
      = [Event.lockInterface, Event.message Message.fileOpened, Event.updateStatistics 0 0,
          Event.controlOut 8 0, Event.statusQuery 8 ⟨0, 70000⟩,
          Event.bulkTransfer 70000 0 2, Event.message (Message.warning 2 69998)]
    ∧ (DEFAULT_BUFFER_SIZE : Int) < 70000
    ∧ toInt32 (70000 - 0) = 70000 := by
  decide

/-- C26, amended: when every status reply (those of the capture loop and the one after the
stop command) reports a `bytesCommited` that exceeds the largest value reported before
it by at most 65536, every bulk transfer of the run asks for at most
`DEFAULT_BUFFER_SIZE` bytes. In any case the first transfer of a drain asks for the
difference between the `bytesCommited` reported and the one recorded, which `start`
does not compare with the size of the buffer. -/
theorem drain_requests_bounded (clkDiv : Int) (w : World)
    (h : boundedAdvance DEFAULT_BUFFER_SIZE 0 (w.polls ++ [w.lastPoll]) = true) :
    (∀ requested err br,
      Event.bulkTransfer requested err br ∈ (start clkDiv w).state.events →
        requested ≤ (DEFAULT_BUFFER_SIZE : Int))
    ∧ (∀ (record : Bool) (status : status_t) (s : Capture) (r : BulkReply)
        (rest : List BulkReply), s.bytesCommited < status.bytesCommited →
        0 < toInt32 (status.bytesCommited - s.bytesCommited) → s.bulk = r :: rest →
        ∃ tail, (receiveData record status s).state.events
          = s.events ++ Event.bulkTransfer (toInt32 (status.bytesCommited - s.bytesCommited))
              r.err r.bytes.length :: tail) := by
  have key : ∀ e ∈ (start clkDiv w).state.events,
      Event.asksAtMost DEFAULT_BUFFER_SIZE e = true := by
    obtain ⟨hb1, hb2⟩ := boundedAdvance_append _ _ _ _ h
    have harm : ∀ e ∈ (Capture.armed clkDiv w).events,
        Event.asksAtMost DEFAULT_BUFFER_SIZE e = true := by
      intro e he
      simp only [Capture.armed, List.mem_cons, List.mem_singleton, List.not_mem_nil,
        or_false] at he
      rcases he with rfl | rfl | rfl | rfl <;> rfl
    unfold start
    by_cases hf : w.fileOpens = false
    · rw [if_pos hf]
      simp only [Outcome.state]
      intro e he
      rw [List.mem_singleton.1 he]; rfl
    · rw [if_neg hf]
      by_cases h0 : w.startErr < 0
      · rw [if_pos h0]
        simp only [Outcome.state]
        intro e he
        simp only [List.mem_append, List.mem_cons, List.mem_singleton, List.not_mem_nil,
          or_false] at he
        rcases he with he | rfl | rfl | rfl
        · exact harm e he
        all_goals rfl
      · rw [if_neg h0]
        obtain ⟨hc1, hc2⟩ := captureLoop_asks w.polls (Capture.armed clkDiv w) hb1 harm
        revert hc1 hc2
        cases captureLoop w.polls (Capture.armed clkDiv w) with
        | returns value s1 =>
          cases value with
          | false => exact fun hc1 _ => hc1
          | true =>
            intro hc1 hc2
            have hbc : s1.bytesCommited = largestCommited 0 w.polls := hc2 s1 rfl
            simp only [Outcome.state] at hc1
            exact stopSequence_asks w s1 (by rw [hbc]; exact hb2) hc1
        | blocked s1 => exact fun hc1 _ => hc1
        | undefined s1 => exact fun hc1 _ => hc1
  refine ⟨?_, fun record status s r rest hgt hpos hbulk =>
    receiveData_first_transfer record status s r rest hgt hpos hbulk⟩
  intro requested err br hm
  simpa [Event.asksAtMost] using key _ hm

theorem drain_requests_bounded_witness :
    boundedAdvance DEFAULT_BUFFER_SIZE 0 (exampleWorld.polls ++ [exampleWorld.lastPoll]) = true
    ∧ Event.bulkTransfer 4 0 2 ∈ (start 8 exampleWorld).state.events
    ∧ ∀ requested err br,
        Event.bulkTransfer requested err br ∈ (start 8 exampleWorld).state.events →
          requested ≤ (DEFAULT_BUFFER_SIZE : Int) :=
  ⟨by decide, by decide, (drain_requests_bounded 8 exampleWorld (by decide)).1⟩

end PataSniffer
